import Mathlib

/-!
# ahodns: a static authoritative name server

A shallow embedding of `ahodns.go` and a verification of its specification.

Conventions of the embedding.

* A Go `string` or `[]byte` is a sequence of bytes.  It is modelled as a
  `List Char`, each byte being the character with that code, so that ASCII
  text is written as it appears in the source (`"udp".toList`).
* A Go `map` is an association list with distinct keys; `range` over a map
  visits its entries in an unspecified order.
* Go functions returning `(value, error)` return a pair of options here, so
  that a nil value next to a non-nil error is a property to be proved, not a
  consequence of the type.
* A run-time panic (an index out of range, a panic raised by a library
  call) is the result `none`.
* The protocol library (`github.com/miekg/dns`) and the standard library are
  collaborators outside the repository.  Their calls are either recorded as
  events (`WriteMsg`, `HandleFailed`, `Handle`) or modelled after their
  documented behaviour (`SetReply`, `strings.*`, `bufio.Reader.ReadLine`,
  `net.IP.To4`); `net.ParseIP` and `os.Open` are parameters of `makeHandler`.
  `ServeMux.Handle` panics when its pattern is the empty string, and this
  panic is part of the model of `makeHandler`.
* A loop whose termination Lean does not see takes a bound on the number
  of its iterations and returns `none` when the bound is used up; the bound
  given is proved to be enough (`makeHandler_eq_none_iff`, `readLines_fuel`):
  `makeHandler` returns `none` on a panic only.
* The goroutines of `main` are started, not run: what they do once they run
  concurrently is outside the embedding.
-/

namespace Ahodns

/-! ## Data model -/

/-- Go `string`: a sequence of bytes. -/
abbrev GoString := List Char

/-- Go `net.IP`: a slice of bytes (4 or 16 of them for a valid address). -/
abbrev IP := List Nat

/-- Record type `dns.TypeA`. -/
def TypeA : Nat := 1

/-- Record type `dns.TypeAAAA`. -/
def TypeAAAA : Nat := 28

/-- Record class `dns.ClassINET`. -/
def ClassINET : Nat := 1

/-- Response code `dns.RcodeSuccess`. -/
def RcodeSuccess : Nat := 0

/-- The type `dns.Question`. -/
structure Question where
  Name : GoString
  Qtype : Nat
  Qclass : Nat
deriving DecidableEq, Repr

/-- The type `dns.RR_Header`. -/
structure RR_Header where
  Name : GoString
  Rrtype : Nat
  Class : Nat
  Ttl : Nat
  Rdlength : Nat := 0
deriving DecidableEq, Repr

/-- The resource records the handler builds: `dns.A` and `dns.AAAA`. -/
inductive RR where
  | A (Hdr : RR_Header) (A : IP)
  | AAAA (Hdr : RR_Header) (AAAA : IP)
deriving DecidableEq, Repr

/-- The header of a resource record. -/
def RR.Header : RR → RR_Header
  | .A hdr _ => hdr
  | .AAAA hdr _ => hdr

/-- The address a resource record carries. -/
def RR.addr : RR → IP
  | .A _ a => a
  | .AAAA _ a => a

/-- The type `dns.Msg`, restricted to the fields the program reads or that
`SetReply` is documented to set. -/
structure Msg where
  Id : Nat := 0
  Response : Bool := false
  Rcode : Nat := 0
  Question : List Question := []
  Answer : List RR := []
deriving DecidableEq, Repr

/-- The type `SimpleARecordHandler` (the specification's RecordSet). -/
structure SimpleARecordHandler where
  Name : GoString
  Ttl : Nat
  V4Addrs : List IP
  V6Addrs : List IP
deriving DecidableEq, Repr

/-- What a handler does to its `dns.ResponseWriter`. -/
inductive WriterCall where
  /-- The call `w.WriteMsg(resp)`. -/
  | WriteMsg (resp : Msg)
  /-- The call `dns.HandleFailed(w, req)`, the library's failure response. -/
  | HandleFailed (req : Msg)
deriving DecidableEq, Repr

/-! ## Query responder -/

/-- The library method `(*dns.Msg).SetReply`: the receiver becomes a reply to
`request`, with the request's id, the response bit, the success code and the
request's first question. -/
def SetReply (m request : Msg) : Msg :=
  { m with
    Id := request.Id
    Response := true
    Rcode := RcodeSuccess
    Question := request.Question.take 1 }

/-- The method `(*SimpleARecordHandler).ServeDNS`.  The result is the list of
calls made on the response writer, or `none` when `req.Question[0]` is out of
range. -/
def ServeDNS (h : SimpleARecordHandler) (req : Msg) : Option (List WriterCall) :=
  match req.Question with
  | [] => none
  | q0 :: _ =>
    if q0.Qtype = TypeA ∧ h.V4Addrs.length > 0 then
      let resp := SetReply {} req
      let resp := h.V4Addrs.foldl
        (fun (resp : Msg) addr =>
          { resp with
            Answer := resp.Answer ++
              [RR.A { Name := q0.Name, Rrtype := TypeA, Class := ClassINET, Ttl := h.Ttl } addr] })
        resp
      some [WriterCall.WriteMsg resp]
    else if q0.Qtype = TypeAAAA ∧ h.V6Addrs.length > 0 then
      let resp := SetReply {} req
      let resp := h.V6Addrs.foldl
        (fun (resp : Msg) addr =>
          { resp with
            Answer := resp.Answer ++
              [RR.AAAA { Name := q0.Name, Rrtype := TypeAAAA, Class := ClassINET, Ttl := h.Ttl }
                addr] })
        resp
      some [WriterCall.WriteMsg resp]
    else
      some [WriterCall.HandleFailed req]

/-! ## Standard library -/

/-- The function `strings.SplitN(s, sep, n)` for a separator of one byte and
`n ≥ 0`: at most `n` pieces, the last one being the unsplit remainder. -/
def SplitN (s : GoString) (sep : Char) : Nat → List GoString
  | 0 => []
  | 1 => [s]
  | n + 2 =>
    match s.span (fun c => c != sep) with
    | (a, []) => [a]
    | (a, _ :: b) => a :: SplitN b sep (n + 1)

/-- The function `strings.Split(s, sep)` for a separator of one byte: the
pieces between all occurrences of `sep`, one more than there are occurrences. -/
def Split (s : GoString) (sep : Char) : List GoString :=
  SplitN s sep (s.count sep + 1)

/-- The function `strings.Trim(s, cutset)`: `s` without the leading and
trailing bytes that belong to `cutset`. -/
def Trim (s cutset : GoString) : GoString :=
  (s.rdropWhile (fun c => cutset.contains c)).dropWhile (fun c => cutset.contains c)

/-- The method `(net.IP).To4`: the 4-byte form of an address that has one. -/
def To4 (ip : IP) : Option IP :=
  if ip.length = 4 then some ip
  else if ip.length = 16 ∧ (ip.take 10).all (fun b => b == 0) ∧
      ip.get? 10 = some 255 ∧ ip.get? 11 = some 255 then some (ip.drop 12)
  else none

/-- An error value that comes from the operating system or the reader:
what `%T` and `Error()` give for it. -/
structure IOError where
  T : GoString
  msg : GoString
deriving DecidableEq, Repr

/-- A Go `error` as this program produces them. -/
inductive GoError where
  /-- An error passed on unchanged (from `os.Open`). -/
  | io (err : IOError)
  /-- The result of `fmt.Errorf`, with the formatted message. -/
  | Errorf (msg : GoString)
deriving DecidableEq, Repr

/-- The verb `%d` of `fmt` on a line number. -/
def Itoa (n : Nat) : GoString := (Nat.repr n).toList

/-- The buffer size of `bufio.NewReader`. -/
def defaultBufSize : Nat := 4096

/-- An open file behind a `bufio.Reader`: the bytes not yet consumed and
the condition that ends the stream, `none` for `io.EOF` and `some e` for a
read error `e`. -/
structure Reader where
  data : List Char
  err : Option IOError
deriving DecidableEq, Repr

/-- The `err` result of `ReadLine` when it is not nil. -/
inductive ReadError where
  | EOF
  | other (err : IOError)
deriving DecidableEq, Repr

/-- The method `(*bufio.Reader).ReadLine`: the results `line`, `isPfx`, `err`
and the reader afterwards.  The buffer holds the next `defaultBufSize` bytes
of the stream.  A line feed found there ends the line, which is returned
without it and without a carriage return before it.  Without one, a full
buffer is returned as a prefix (a final carriage return being left for the
next call), and a stream that ends first gives its remaining bytes; the
stream's end or error is reported once no byte is left. -/
def ReadLine (rdr : Reader) : GoString × Bool × Option ReadError × Reader :=
  if rdr.data = [] then
    ([], false, some (match rdr.err with | none => ReadError.EOF | some e => ReadError.other e),
      rdr)
  else
    match (rdr.data.take defaultBufSize).span (fun c => c != '\n') with
    | (line, _ :: _) =>
      (if line.getLast? = some '\r' then line.dropLast else line, false, none,
        { rdr with data := rdr.data.drop (line.length + 1) })
    | (line, []) =>
      if defaultBufSize ≤ rdr.data.length then
        if line.getLast? = some '\r' then
          (line.dropLast, true, none, { rdr with data := rdr.data.drop (line.length - 1) })
        else
          (line, true, none, { rdr with data := rdr.data.drop line.length })
      else
        (line, false, none, { rdr with data := [] })

/-! ### Address literals

`makeHandler` takes `net.ParseIP` as a parameter, and what is proved of it
holds for every such function.  The examples use the following model of
the parser of the Go standard library (`net/ip.go` and `net/parse.go`), in
the form in which a decimal field may start with zeros and no zone is
allowed. -/

/-- The constant `big` of `net/parse.go`. -/
def big : Nat := 0xFFFFFF

/-- The loop of `dtoi`: `n` is the number read so far and `i` the number of
digits consumed. -/
def dtoiLoop : GoString → Nat → Nat → Nat × Nat × Bool
  | [], n, i => if i = 0 then (0, 0, false) else (n, i, true)
  | c :: s, n, i =>
    if '0' ≤ c ∧ c ≤ '9' then
      if n * 10 + (c.toNat - '0'.toNat) ≥ big then (big, i, false)
      else dtoiLoop s (n * 10 + (c.toNat - '0'.toNat)) (i + 1)
    else if i = 0 then (0, 0, false) else (n, i, true)

/-- The function `dtoi`: the decimal number at the start of `s`, the number
of bytes it takes, and whether there is one. -/
def dtoi (s : GoString) : Nat × Nat × Bool := dtoiLoop s 0 0

/-- The value of a hexadecimal digit. -/
def hexDigit (c : Char) : Option Nat :=
  if '0' ≤ c ∧ c ≤ '9' then some (c.toNat - '0'.toNat)
  else if 'a' ≤ c ∧ c ≤ 'f' then some (c.toNat - 'a'.toNat + 10)
  else if 'A' ≤ c ∧ c ≤ 'F' then some (c.toNat - 'A'.toNat + 10)
  else none

/-- The loop of `xtoi`. -/
def xtoiLoop : GoString → Nat → Nat → Nat × Nat × Bool
  | [], n, i => if i = 0 then (0, i, false) else (n, i, true)
  | c :: s, n, i =>
    match hexDigit c with
    | some d =>
      if n * 16 + d ≥ big then (0, i, false) else xtoiLoop s (n * 16 + d) (i + 1)
    | none => if i = 0 then (0, i, false) else (n, i, true)

/-- The function `xtoi`: the hexadecimal number at the start of `s`. -/
def xtoi (s : GoString) : Nat × Nat × Bool := xtoiLoop s 0 0

/-- The function `net.IPv4`: the 16-byte form of an IPv4 address. -/
def IPv4 (a b c d : Nat) : IP := [0, 0, 0, 0, 0, 0, 0, 0, 0, 0, 255, 255, a, b, c, d]

/-- The loop of `parseIPv4` with `k` fields left to read; `first` holds in
the first iteration, which expects no dot.  The result is the fields read and
the rest of the string. -/
def parseIPv4Loop : Nat → Bool → GoString → Option (List Nat × GoString)
  | 0, _, s => some ([], s)
  | k + 1, first, s =>
    if s.length = 0 then none
    else
      match (if first then some s else if s.head? ≠ some '.' then none else some (s.drop 1)) with
      | none => none
      | some s =>
        match dtoi s with
        | (n, c, ok) =>
          if !ok || n > 0xFF then none
          else
            match parseIPv4Loop k false (s.drop c) with
            | none => none
            | some (p, rest) => some (n :: p, rest)

/-- The function `parseIPv4`: four decimal fields separated by dots. -/
def parseIPv4 (s : GoString) : Option IP :=
  match parseIPv4Loop 4 true s with
  | some ([a, b, c, d], []) => some (IPv4 a b c d)
  | _ => none

/-- The loop of `parseIPv6`.  `ip` holds the bytes written so far (its
length is the index `i` of the source) and `ellipsis` the position of the
ellipsis, if one was seen.  The result is the rest of the string with the
two variables, or `none` where the source returns nil.  Each iteration adds
two bytes at least, so that nine iterations are enough. -/
def parseIPv6Loop : Nat → GoString → List Nat → Option Nat →
    Option (GoString × List Nat × Option Nat)
  | 0, s, ip, ellipsis => some (s, ip, ellipsis)
  | fuel + 1, s, ip, ellipsis =>
    if 16 ≤ ip.length then some (s, ip, ellipsis)
    else
      match xtoi s with
      | (n, c, ok) =>
        if !ok || n > 0xFFFF then none
        else if c < s.length ∧ s.get? c = some '.' then
          if ellipsis = none ∧ ip.length ≠ 16 - 4 then none
          else if ip.length + 4 > 16 then none
          else
            match parseIPv4 s with
            | none => none
            | some ip4 => some ([], ip ++ ip4.drop 12, ellipsis)
        else
          let ip := ip ++ [n / 256 % 256, n % 256]
          let s := s.drop c
          if s.length = 0 then some (s, ip, ellipsis)
          else if s.head? ≠ some ':' ∨ s.length = 1 then none
          else
            let s := s.drop 1
            if s.head? = some ':' then
              if ellipsis ≠ none then none
              else if (s.drop 1).length = 0 then some (s.drop 1, ip, some ip.length)
              else parseIPv6Loop fuel (s.drop 1) ip (some ip.length)
            else parseIPv6Loop fuel s ip ellipsis

/-- The end of `parseIPv6`: the whole string must have been used, and an
ellipsis stands for the bytes that are missing, one at least. -/
def parseIPv6End : GoString × List Nat × Option Nat → Option IP
  | (_ :: _, _, _) => none
  | ([], ip, ellipsis) =>
    if ip.length < 16 then
      match ellipsis with
      | none => none
      | some e => some (ip.take e ++ List.replicate (16 - ip.length) 0 ++ ip.drop e)
    else if ellipsis ≠ none then none
    else some ip

/-- The function `parseIPv6`: groups of hexadecimal digits separated by
colons, with at most one ellipsis and possibly an IPv4 address at the end. -/
def parseIPv6 (s : GoString) : Option IP :=
  if 2 ≤ s.length ∧ s.get? 0 = some ':' ∧ s.get? 1 = some ':' then
    if (s.drop 2).length = 0 then some (List.replicate 16 0)
    else (parseIPv6Loop 9 (s.drop 2) [] (some 0)).bind parseIPv6End
  else (parseIPv6Loop 9 s [] none).bind parseIPv6End

/-- The function `net.ParseIP`: the string is parsed as an IPv4 address when
its first dot comes before its first colon, as an IPv6 address when the colon
comes first, and is no address when it has neither. -/
def ParseIP (s : GoString) : Option IP :=
  match s.find? (fun c => c == '.' || c == ':') with
  | some c => if c = '.' then parseIPv4 s else parseIPv6 s
  | none => none

/-! ## Record store builder -/

/-- A `*SimpleARecordHandler`: the index of the handler in the heap. -/
abbrev Ptr := Nat

/-- The `*dns.ServeMux` that `makeHandler` returns, as its caller sees it: the
calls `Handle(pattern, h)` that returned, in order, each with the handler that
`h` points to when `makeHandler` returns.  What the library does with a
pattern when it stores it and when it dispatches a query is outside the
repository and is not modelled: the table is the record of the calls. -/
structure ServeMux where
  z : List (GoString × SimpleARecordHandler)
deriving DecidableEq, Repr

/-- The variables of the loop of `makeHandler` that hold the table under
construction: the handlers allocated so far, the map `pairs` from names to
pointers, and the calls `retval.Handle(pattern, h)` made so far. -/
structure Tables where
  heap : List SimpleARecordHandler
  pairs : List (GoString × Ptr)
  retval : List (GoString × Ptr)
deriving DecidableEq, Repr

/-- The statement `m[k] = v` on a Go map. -/
def mapAssign {κ ν : Type} [DecidableEq κ] (m : List (κ × ν)) (k : κ) (v : ν) : List (κ × ν) :=
  match m with
  | [] => [(k, v)]
  | (k1, v1) :: rest => if k1 = k then (k, v) :: rest else (k1, v1) :: mapAssign rest k v

/-- The expression `v, ok := m[k]` on a Go map. -/
def mapIndex {κ ν : Type} [DecidableEq κ] (m : List (κ × ν)) (k : κ) : Option ν :=
  match m with
  | [] => none
  | (k1, v1) :: rest => if k1 = k then some v1 else mapIndex rest k

/-- An assignment through a pointer: the handler at `p` becomes `f` of it. -/
def heapModify (heap : List SimpleARecordHandler) (p : Ptr)
    (f : SimpleARecordHandler → SimpleARecordHandler) : List SimpleARecordHandler :=
  match heap, p with
  | [], _ => []
  | h :: rest, 0 => f h :: rest
  | h :: rest, p + 1 => h :: heapModify rest p f

/-- The method `(*dns.ServeMux).Handle` of the protocol library, on the record
of the calls made so far.  The library panics when the pattern is the empty
string (`dns: invalid pattern`); with any other pattern the call returns and
is recorded. -/
def Handle (retval : List (GoString × Ptr)) (pattern : GoString) (h : Ptr) :
    Option (List (GoString × Ptr)) :=
  if pattern = [] then none else some (retval ++ [(pattern, h)])

/-- Lines 120 to 124 of `makeHandler`: `ip` is appended to the `V6Addrs` of
the handler that `h` points to when `ip.To4()` is nil and to its `V4Addrs`
otherwise. -/
def appendAddr (t : Tables) (h : Ptr) (ip : IP) : Tables :=
  if To4 ip = none then
    { t with heap := heapModify t.heap h (fun r => { r with V6Addrs := r.V6Addrs ++ [ip] }) }
  else
    { t with heap := heapModify t.heap h (fun r => { r with V4Addrs := r.V4Addrs ++ [ip] }) }

/-- Lines 114 to 124 of `makeHandler`: the handler of `name` is looked up in
`pairs`, or allocated, entered in `pairs` and registered with `retval`, and
`ip` is appended to one of its lists.  The result is `none` when the call
`retval.Handle(pair[0], h)` of line 118 panics. -/
def addRecord (ttl : Nat) (t : Tables) (name : GoString) (ip : IP) : Option Tables :=
  match mapIndex t.pairs name with
  | some h => some (appendAddr t h ip)
  | none =>
    let h := t.heap.length
    match Handle t.retval name h with
    | none => none
    | some retval =>
      some (appendAddr
        { heap := t.heap ++ [{ Name := name, Ttl := ttl, V4Addrs := [], V6Addrs := [] }]
          pairs := mapAssign t.pairs name h
          retval := retval } h ip)

/-- Lines 114 to 124 of `makeHandler` for each record of a list, in order,
up to the first panic. -/
def addRecords (ttl : Nat) : Tables → List (GoString × IP) → Option Tables
  | t, [] => some t
  | t, r :: rest =>
    match addRecord ttl t r.1 r.2 with
    | none => none
    | some t => addRecords ttl t rest

/-- The tables after lines 114 to 124 of `makeHandler` when the call of
`Handle` returns: what `addRecord` gives for a name that is known or not
empty (`addRecord_eq`). -/
def updateTables (ttl : Nat) (t : Tables) (name : GoString) (ip : IP) : Tables :=
  let (h, t) : Ptr × Tables :=
    match mapIndex t.pairs name with
    | some h => (h, t)
    | none =>
      let h := t.heap.length
      (h, { heap := t.heap ++ [{ Name := name, Ttl := ttl, V4Addrs := [], V6Addrs := [] }]
            pairs := mapAssign t.pairs name h
            retval := t.retval ++ [(name, h)] })
  if To4 ip = none then
    { t with heap := heapModify t.heap h (fun r => { r with V6Addrs := r.V6Addrs ++ [ip] }) }
  else
    { t with heap := heapModify t.heap h (fun r => { r with V4Addrs := r.V4Addrs ++ [ip] }) }

/-- The value of `retval` on return: each registered pointer is followed. -/
def Tables.mux (t : Tables) : ServeMux :=
  { z := t.retval.filterMap (fun e => (t.heap.get? e.2).map (fun h => (e.1, h))) }

/-- The loop of `makeHandler` (lines 92 to 125) followed by its last return.
`ln` is the line counter before the iteration.  The first argument bounds the
number of iterations; `none` is returned when it is used up, and when the
call of `Handle` panics. -/
def makeHandlerLoop (ParseIP : GoString → Option IP) (fileName : GoString) (ttl : Nat) :
    Nat → Nat → Reader → Tables → Option (Option ServeMux × Option GoError)
  | 0, _, _, _ => none
  | fuel + 1, ln, rdr, t =>
    let ln := ln + 1
    match ReadLine rdr with
    | (_, _, some ReadError.EOF, _) => some (some t.mux, none)
    | (_, _, some (ReadError.other err), _) =>
      some (none, some (GoError.Errorf
        (fileName ++ ":".toList ++ Itoa ln ++ " ".toList ++ err.T ++ " - ".toList ++ err.msg)))
    | (_l, isPfx, none, rdr) =>
      if isPfx then
        some (none, some (GoError.Errorf
          (fileName ++ ":".toList ++ Itoa ln ++ " line too long".toList)))
      else
        let l := _l
        match SplitN l '\t' 2 with
        | [name, addrText] =>
          match ParseIP addrText with
          | none =>
            some (none, some (GoError.Errorf
              (fileName ++ ":".toList ++ Itoa ln ++ " invalid IP address format".toList)))
          | some ip =>
            match addRecord ttl t name ip with
            | none => none
            | some t => makeHandlerLoop ParseIP fileName ttl fuel ln rdr t
        | _ =>
          some (none, some (GoError.Errorf
            (fileName ++ ":".toList ++ Itoa ln ++ " invalid record".toList)))

/-- The function `makeHandler`.  `ParseIP` is `net.ParseIP` and `Open` is
`os.Open` followed by `bufio.NewReader`.  Each iteration of the loop that
does not return consumes a byte of the file, so that one more iteration than
the file has bytes is enough.  The result is `none` when the function
panics. -/
def makeHandler (ParseIP : GoString → Option IP) (Open : GoString → Except IOError Reader)
    (fileName : GoString) (ttl : Nat) : Option (Option ServeMux × Option GoError) :=
  match Open fileName with
  | Except.error err => some (none, some (GoError.io err))
  | Except.ok rdr =>
    makeHandlerLoop ParseIP fileName ttl (rdr.data.length + 1) 0 rdr
      { heap := [], pairs := [], retval := [] }

/-- The lines of a file as the loop of `makeHandler` receives them: the
results `line` and `isPfx` of successive calls of `ReadLine`, up to the first
call that returns an error.  The first argument bounds the number of calls. -/
def readLines : Nat → Reader → List (GoString × Bool)
  | 0, _ => []
  | fuel + 1, rdr =>
    match ReadLine rdr with
    | (_, _, some _, _) => []
    | (l, isPfx, none, rdr) => (l, isPfx) :: readLines fuel rdr

/-- The lines of a file, each with the flag `isPfx` of `ReadLine`.  Every
call of `ReadLine` that returns no error consumes a byte, so that one more
call than the file has bytes reaches the end. -/
def Reader.lines (rdr : Reader) : List (GoString × Bool) :=
  readLines (rdr.data.length + 1) rdr

/-- The record of a line, as lines 106 to 113 of `makeHandler` compute it:
the two parts around the first tab, the second one parsed as an address. -/
def parseRecord (ParseIP : GoString → Option IP) (l : GoString) : Option (GoString × IP) :=
  match SplitN l '\t' 2 with
  | [name, addrText] => (ParseIP addrText).map (fun ip => (name, ip))
  | _ => none

/-- A line is well-formed when `ReadLine` delivers it whole and it has a
record. -/
def wellFormed (ParseIP : GoString → Option IP) (e : GoString × Bool) : Prop :=
  e.2 = false ∧ (parseRecord ParseIP e.1).isSome = true

instance (ParseIP : GoString → Option IP) (e : GoString × Bool) :
    Decidable (wellFormed ParseIP e) := by
  unfold wellFormed; infer_instance

/-- A line is accepted when it is well-formed and does not start with a
tab, that is, when its first field is not empty (`accepted_iff`). -/
def accepted (ParseIP : GoString → Option IP) (e : GoString × Bool) : Prop :=
  wellFormed ParseIP e ∧ e.1.head? ≠ some '\t'

instance (ParseIP : GoString → Option IP) (e : GoString × Bool) :
    Decidable (accepted ParseIP e) := by
  unfold accepted; infer_instance

/-- The records of a list of lines, in order. -/
def records (ParseIP : GoString → Option IP) (ls : List (GoString × Bool)) :
    List (GoString × IP) :=
  ls.filterMap (fun e => parseRecord ParseIP e.1)
/-- The error with which the loop of `makeHandler` returns at line `ln` when
that line is not well-formed. -/
def lineError (fileName : GoString) (ln : Nat) (e : GoString × Bool) : GoError :=
  if e.2 then
    GoError.Errorf (fileName ++ ":".toList ++ Itoa ln ++ " line too long".toList)
  else
    match SplitN e.1 '\t' 2 with
    | [_, _] =>
      GoError.Errorf (fileName ++ ":".toList ++ Itoa ln ++ " invalid IP address format".toList)
    | _ => GoError.Errorf (fileName ++ ":".toList ++ Itoa ln ++ " invalid record".toList)

/-- The names of a list of records, each once, in the order in which they
first occur. -/
def firstNames (recs : List (GoString × IP)) : List GoString :=
  recs.foldl (fun acc r => if r.1 ∈ acc then acc else acc ++ [r.1]) []

/-- The addresses of the records of name `n` that have a 4-byte form, in
order. -/
def v4Of (recs : List (GoString × IP)) (n : GoString) : List IP :=
  (recs.filter (fun r => r.1 = n ∧ To4 r.2 ≠ none)).map Prod.snd

/-- The addresses of the records of name `n` that have no 4-byte form, in
order. -/
def v6Of (recs : List (GoString × IP)) (n : GoString) : List IP :=
  (recs.filter (fun r => r.1 = n ∧ To4 r.2 = none)).map Prod.snd

/-- The RecordSet of name `n` that a list of records describes. -/
def recordSet (ttl : Nat) (recs : List (GoString × IP)) (n : GoString) : SimpleARecordHandler :=
  { Name := n, Ttl := ttl, V4Addrs := v4Of recs n, V6Addrs := v6Of recs n }

/-- The invariant of the loop of `makeHandler` after the records `done`: the
heap holds the RecordSets of the names seen, in the order of their first
occurrence, `pairs` maps each name to the position of its RecordSet, and
the same pairs were registered with `retval`, in that order. -/
structure Built (ttl : Nat) (t : Tables) (done : List (GoString × IP)) : Prop where
  heap_eq : t.heap = (firstNames done).map (recordSet ttl done)
  pairs_eq : t.pairs = (firstNames done).zip (List.range (firstNames done).length)
  retval_eq : t.retval = t.pairs

/-- A file system in which every name opens a file of the given content,
read to its end without error. -/
def fileOf (content : GoString) : GoString → Except IOError Reader :=
  fun _ => Except.ok { data := content, err := none }

/-! ## Transport specification parser -/

/-- The fields of `dns.Server` that `makeServers` sets. -/
structure Server (H : Type) where
  Addr : GoString
  Net : GoString
  Handler : H
deriving DecidableEq, Repr

/-- The cutset of the two calls of `strings.Trim` in `makeServers`. -/
def cutset : GoString := "\r\n \t".toList

/-- Lines 63 to 72 of `makeServers`: the protocol and the address that a
token of the specification stands for.  The result is `none` when an index
into `pair` is out of range. -/
def tokenPair (v : GoString) : Option (GoString × GoString) :=
  let v := Trim v cutset
  let pair := SplitN v ':' 2
  if pair.length = 2 then
    match pair.get? 0, pair.get? 1 with
    | some tp, some addr => some (tp, addr)
    | _, _ => none
  else
    match pair.get? 0 with
    | some tp => some (tp, "0.0.0.0".toList)
    | none => none

/-- The tokens of a transport specification: the range of the first loop of
`makeServers`. -/
def tokens (tpsString : GoString) : List GoString :=
  Split (Trim tpsString cutset) ','

/-- The first loop of `makeServers` from a given state of the map `tps`. -/
def tpsLoop : List GoString → List (GoString × GoString) → Option (List (GoString × GoString))
  | [], tps => some tps
  | v :: rest, tps =>
    match tokenPair v with
    | none => none
    | some (tp, addr) => tpsLoop rest (mapAssign tps tp addr)

/-- The function `makeServers`.  The second loop ranges over the map `tps`,
whose entries Go visits in an unspecified order: the list returned by the
program is a permutation of the list given here, which follows the order in
which the protocols first occur.  The result is `none` when the function
panics. -/
def makeServers {H : Type} (tpsString : GoString) (handler : H) :
    Option (List (Server H) × Option GoError) :=
  match tpsLoop (tokens tpsString) [] with
  | none => none
  | some tps =>
    let servers := tps.foldl
      (fun servers e => servers ++ [{ Addr := e.2, Net := e.1, Handler := handler }]) []
    some (servers, none)
/-- The map after a list of assignments, in order. -/
def assignAll {κ ν : Type} [DecidableEq κ] (m : List (κ × ν)) (es : List (κ × ν)) :
    List (κ × ν) :=
  es.foldl (fun m e => mapAssign m e.1 e.2) m

/-- The associations of protocol and address that the tokens of a transport
specification stand for, in order. -/
def tokenPairs (tpsString : GoString) : List (GoString × GoString) :=
  (tokens tpsString).filterMap tokenPair

/-! ## Start of the process -/

/-- What `main` does, in order. -/
inductive Step where
  /-- The call `flag.PrintDefaults()`. -/
  | PrintDefaults
  /-- The call `os.Exit(code)`, which ends the process. -/
  | Exit (code : Nat)
  /-- An error printed on the standard error stream. -/
  | Report (err : GoError)
  /-- The call of `makeServers`. -/
  | MakeServers (tpsString : GoString)
  /-- A worker started for a listener: `go func(i, server)`, which calls
  `server.ListenAndServe()`. -/
  | Go (i : Nat) (server : Server (Option ServeMux))
  /-- The call `signal.Notify(signalChan, os.Kill, os.Interrupt)`. -/
  | Notify
  /-- The watcher started: `go func()`, which waits for a signal. -/
  | GoWatcher
  /-- The call `wg.Wait()`. -/
  | Wait
deriving DecidableEq, Repr

/-- The conversion `uint32(*ttl)` of a Go `int`. -/
def uint32 (n : Int) : Nat := Int.toNat (n % 4294967296)

/-- The function `main`, from the values of the flags `listen` and `ttl` and
the remaining arguments, up to its last statement `wg.Wait()`.  The result
is `none` when a call does not return. -/
def main (ParseIP : GoString → Option IP) (Open : GoString → Except IOError Reader)
    (tpsString : GoString) (ttl : Int) (args : List GoString) : Option (List Step) :=
  match args with
  | [arg] =>
    match makeHandler ParseIP Open arg (uint32 ttl) with
    | none => none
    | some (_, some err) => some [Step.Report err, Step.Exit 1]
    | some (serveMux, none) =>
      match makeServers tpsString serveMux with
      | none => none
      | some (_, some err) => some [Step.MakeServers tpsString, Step.Report err, Step.Exit 1]
      | some (servers, none) =>
        some ([Step.MakeServers tpsString] ++ servers.enum.map (fun e => Step.Go e.1 e.2) ++
          [Step.Notify, Step.GoWatcher, Step.Wait])
  | _ => some [Step.PrintDefaults, Step.Exit 255]

/-! ## Auxiliary definitions of the statements -/

/-- The reader after `n` calls of `ReadLine`. -/
def readerAfter : Nat → Reader → Reader
  | 0, rdr => rdr
  | n + 1, rdr => readerAfter n (ReadLine rdr).2.2.2

/-- The function `strings.Join(elems, sep)` for a separator of one byte. -/
def Join : List GoString → Char → GoString
  | [], _ => []
  | [t], _ => t
  | t :: t2 :: rest, sep => t ++ sep :: Join (t2 :: rest) sep

/-- A token with `pad.1` put before it and `pad.2` after it. -/
def padToken (t : GoString) (pad : GoString × GoString) : GoString :=
  pad.1 ++ t ++ pad.2


/-! ## Theorems -/

/-- Appending one record per address to a message, as the loops of `ServeDNS`
do, leaves the message unchanged except for its answer section, which
receives the records in the order of the addresses. -/
theorem foldl_append_answer (mk : IP → RR) (addrs : List IP) (m : Msg) :
    addrs.foldl (fun (resp : Msg) addr => { resp with Answer := resp.Answer ++ [mk addr] }) m
      = { m with Answer := m.Answer ++ addrs.map mk } := by
  induction addrs generalizing m with
  | nil => simp
  | cons a as ih => simp [List.foldl_cons, ih, List.append_assoc]

/-- The reply `ServeDNS` builds from a list of addresses. -/
theorem ServeDNS_typeA (h : SimpleARecordHandler) (req : Msg) (q0 : Question)
    (qs : List Question) (hq : req.Question = q0 :: qs) (ht : q0.Qtype = TypeA)
    (hne : h.V4Addrs ≠ []) :
    ServeDNS h req = some [WriterCall.WriteMsg
      { SetReply {} req with Answer := h.V4Addrs.map (fun addr =>
          RR.A { Name := q0.Name, Rrtype := TypeA, Class := ClassINET, Ttl := h.Ttl } addr) }] := by
  have hlen : h.V4Addrs.length > 0 := List.length_pos.mpr hne
  simp [ServeDNS, hq, ht, hlen, foldl_append_answer, SetReply]

/-- The reply `ServeDNS` builds for the second branch of its conditional. -/
theorem ServeDNS_typeAAAA (h : SimpleARecordHandler) (req : Msg) (q0 : Question)
    (qs : List Question) (hq : req.Question = q0 :: qs) (ht : q0.Qtype = TypeAAAA)
    (hne : h.V6Addrs ≠ []) :
    ServeDNS h req = some [WriterCall.WriteMsg
      { SetReply {} req with Answer := h.V6Addrs.map (fun addr =>
          RR.AAAA { Name := q0.Name, Rrtype := TypeAAAA, Class := ClassINET, Ttl := h.Ttl }
            addr) }] := by
  have hlen : h.V6Addrs.length > 0 := List.length_pos.mpr hne
  have hT : ¬ (TypeAAAA = TypeA) := by decide
  simp [ServeDNS, hq, hT, ht, hlen, foldl_append_answer, SetReply]

/-- The last branch of `ServeDNS`. -/
theorem ServeDNS_otherwise (h : SimpleARecordHandler) (req : Msg) (q0 : Question)
    (qs : List Question) (hq : req.Question = q0 :: qs)
    (hA : ¬ (q0.Qtype = TypeA ∧ h.V4Addrs ≠ []))
    (hB : ¬ (q0.Qtype = TypeAAAA ∧ h.V6Addrs ≠ [])) :
    ServeDNS h req = some [WriterCall.HandleFailed req] := by
  rw [← List.length_pos] at hA hB
  simp only [ServeDNS, hq, gt_iff_lt, hA, hB, if_false]

/-- C1: for a request whose first question has type A (resp. AAAA) while
`V4Addrs` (resp. `V6Addrs`) is non-empty, `ServeDNS` makes exactly one call,
`WriteMsg`, with a success reply to the request whose answer section has one
record per stored address, in stored order, the i-th record carrying the i-th
address, the matching type, class INET, the handler's TTL and the name of the
first question as received. -/
theorem ServeDNS_success_reply (h : SimpleARecordHandler) (req : Msg) (q0 : Question)
    (qs : List Question) (hq : req.Question = q0 :: qs) :
    (q0.Qtype = TypeA → h.V4Addrs ≠ [] →
      ∃ resp, ServeDNS h req = some [WriterCall.WriteMsg resp] ∧
        resp.Response = true ∧ resp.Rcode = RcodeSuccess ∧ resp.Id = req.Id ∧
        resp.Answer.length = h.V4Addrs.length ∧
        resp.Answer = h.V4Addrs.map (fun addr =>
          RR.A { Name := q0.Name, Rrtype := TypeA, Class := ClassINET, Ttl := h.Ttl } addr)) ∧
    (q0.Qtype = TypeAAAA → h.V6Addrs ≠ [] →
      ∃ resp, ServeDNS h req = some [WriterCall.WriteMsg resp] ∧
        resp.Response = true ∧ resp.Rcode = RcodeSuccess ∧ resp.Id = req.Id ∧
        resp.Answer.length = h.V6Addrs.length ∧
        resp.Answer = h.V6Addrs.map (fun addr =>
          RR.AAAA { Name := q0.Name, Rrtype := TypeAAAA, Class := ClassINET, Ttl := h.Ttl }
            addr)) := by
  constructor
  · intro ht hne
    exact ⟨_, ServeDNS_typeA h req q0 qs hq ht hne, by simp [SetReply]⟩
  · intro ht hne
    exact ⟨_, ServeDNS_typeAAAA h req q0 qs hq ht hne, by simp [SetReply]⟩

/-- Witness of C1: a handler for `a.example.` holding two IPv4 addresses and
one IPv6 address, asked for `Q.example.` with type A and with type AAAA. -/
theorem ServeDNS_success_reply_witness :
    (∃ resp, ServeDNS ⟨"a.example.".toList, 300, [[1, 2, 3, 4], [5, 6, 7, 8]], [[9]]⟩
                { Id := 7, Question := [⟨"Q.example.".toList, TypeA, ClassINET⟩] }
              = some [WriterCall.WriteMsg resp] ∧
        resp.Response = true ∧ resp.Rcode = RcodeSuccess ∧ resp.Id = 7 ∧
        resp.Answer.length = 2 ∧
        resp.Answer =
          [RR.A ⟨"Q.example.".toList, TypeA, ClassINET, 300, 0⟩ [1, 2, 3, 4],
           RR.A ⟨"Q.example.".toList, TypeA, ClassINET, 300, 0⟩ [5, 6, 7, 8]]) ∧
    (∃ resp, ServeDNS ⟨"a.example.".toList, 300, [[1, 2, 3, 4], [5, 6, 7, 8]], [[9]]⟩
                { Id := 7, Question := [⟨"Q.example.".toList, TypeAAAA, ClassINET⟩] }
              = some [WriterCall.WriteMsg resp] ∧
        resp.Response = true ∧ resp.Rcode = RcodeSuccess ∧ resp.Id = 7 ∧
        resp.Answer.length = 1 ∧
        resp.Answer = [RR.AAAA ⟨"Q.example.".toList, TypeAAAA, ClassINET, 300, 0⟩ [9]]) :=
  ⟨(ServeDNS_success_reply ⟨"a.example.".toList, 300, [[1, 2, 3, 4], [5, 6, 7, 8]], [[9]]⟩
      { Id := 7, Question := [⟨"Q.example.".toList, TypeA, ClassINET⟩] }
      ⟨"Q.example.".toList, TypeA, ClassINET⟩ [] rfl).1 rfl (by decide),
   (ServeDNS_success_reply ⟨"a.example.".toList, 300, [[1, 2, 3, 4], [5, 6, 7, 8]], [[9]]⟩
      { Id := 7, Question := [⟨"Q.example.".toList, TypeAAAA, ClassINET⟩] }
      ⟨"Q.example.".toList, TypeAAAA, ClassINET⟩ [] rfl).2 rfl (by decide)⟩

/-- C2: for a request with a first question, `ServeDNS` makes the single call
`dns.HandleFailed(w, req)` (and so writes no answer message) if and only if
neither the question has type A with `V4Addrs` non-empty nor it has type AAAA
with `V6Addrs` non-empty.  In particular a question of type A (resp. AAAA)
to a handler without IPv4 (resp. IPv6) addresses gets the failure response,
and a message that is written never has an empty answer section. -/
theorem ServeDNS_failure_iff (h : SimpleARecordHandler) (req : Msg) (q0 : Question)
    (qs : List Question) (hq : req.Question = q0 :: qs) :
    (ServeDNS h req = some [WriterCall.HandleFailed req] ↔
      ¬ (q0.Qtype = TypeA ∧ h.V4Addrs ≠ []) ∧ ¬ (q0.Qtype = TypeAAAA ∧ h.V6Addrs ≠ [])) ∧
    ((∃ calls, ServeDNS h req = some calls ∧ WriterCall.HandleFailed req ∈ calls ∧
        ∀ resp, WriterCall.WriteMsg resp ∉ calls) ↔
      ¬ (q0.Qtype = TypeA ∧ h.V4Addrs ≠ []) ∧ ¬ (q0.Qtype = TypeAAAA ∧ h.V6Addrs ≠ [])) ∧
    (q0.Qtype = TypeA → h.V4Addrs = [] →
      ServeDNS h req = some [WriterCall.HandleFailed req]) ∧
    (q0.Qtype = TypeAAAA → h.V6Addrs = [] →
      ServeDNS h req = some [WriterCall.HandleFailed req]) ∧
    (∀ calls resp, ServeDNS h req = some calls → WriterCall.WriteMsg resp ∈ calls →
      resp.Answer ≠ []) := by
  have hT : ¬ (TypeAAAA = TypeA) := by decide
  by_cases hA : q0.Qtype = TypeA ∧ h.V4Addrs ≠ []
  · have hr := ServeDNS_typeA h req q0 qs hq hA.1 hA.2
    refine ⟨?_, ?_, ?_, ?_, ?_⟩
    · rw [hr]; simp [hA.1, hA.2]
    · simp [hr, hA.1, hA.2]
    · intro _ h0; exact absurd h0 hA.2
    · intro h1; rw [hA.1] at h1; exact absurd h1.symm hT
    · intro calls resp hc hm
      rw [hr] at hc
      simp only [Option.some.injEq] at hc
      subst hc
      simp only [List.mem_singleton, WriterCall.WriteMsg.injEq] at hm
      subst hm; simpa using hA.2
  · by_cases hB : q0.Qtype = TypeAAAA ∧ h.V6Addrs ≠ []
    · have hr := ServeDNS_typeAAAA h req q0 qs hq hB.1 hB.2
      refine ⟨?_, ?_, ?_, ?_, ?_⟩
      · rw [hr]; simp [hB.1, hB.2]
      · simp [hr, hB.1, hB.2]
      · intro h1; rw [hB.1] at h1; exact absurd h1 hT
      · intro _ h0; exact absurd h0 hB.2
      · intro calls resp hc hm
        rw [hr] at hc
        simp only [Option.some.injEq] at hc
        subst hc
        simp only [List.mem_singleton, WriterCall.WriteMsg.injEq] at hm
        subst hm; simpa using hB.2
    · have hf := ServeDNS_otherwise h req q0 qs hq hA hB
      refine ⟨?_, ?_, ?_, ?_, ?_⟩
      · simp [hf, hA, hB]
      · simp [hf, hA, hB]
      · intro _ _; exact hf
      · intro _ _; exact hf
      · intro calls resp hc hm
        rw [hf] at hc
        simp only [Option.some.injEq] at hc
        subst hc
        simp at hm

/-- Witness of C2: a handler with IPv4 addresses only gets an AAAA question,
and a question of another type (MX, 15), and answers both with the failure
response. -/
theorem ServeDNS_failure_iff_witness :
    ServeDNS ⟨"a.example.".toList, 300, [[1, 2, 3, 4]], []⟩
        { Id := 7, Question := [⟨"a.example.".toList, TypeAAAA, ClassINET⟩] }
      = some [WriterCall.HandleFailed
          { Id := 7, Question := [⟨"a.example.".toList, TypeAAAA, ClassINET⟩] }] ∧
    ServeDNS ⟨"a.example.".toList, 300, [[1, 2, 3, 4]], []⟩
        { Id := 8, Question := [⟨"a.example.".toList, 15, ClassINET⟩] }
      = some [WriterCall.HandleFailed
          { Id := 8, Question := [⟨"a.example.".toList, 15, ClassINET⟩] }] :=
  ⟨(ServeDNS_failure_iff ⟨"a.example.".toList, 300, [[1, 2, 3, 4]], []⟩
      { Id := 7, Question := [⟨"a.example.".toList, TypeAAAA, ClassINET⟩] }
      ⟨"a.example.".toList, TypeAAAA, ClassINET⟩ [] rfl).2.2.2.1 rfl rfl,
   (ServeDNS_failure_iff ⟨"a.example.".toList, 300, [[1, 2, 3, 4]], []⟩
      { Id := 8, Question := [⟨"a.example.".toList, 15, ClassINET⟩] }
      ⟨"a.example.".toList, 15, ClassINET⟩ [] rfl).1.mpr (by decide)⟩

/-! ### Lemmas on the record store builder -/

/-- The two results of `span` at the first occurrence of a byte. -/
theorem span_sep (sep : Char) (l : GoString) :
    (sep ∉ l ∧ l.span (fun c => c != sep) = (l, [])) ∨
    ∃ a b, l = a ++ sep :: b ∧ sep ∉ a ∧ l.span (fun c => c != sep) = (a, sep :: b) := by
  induction l with
  | nil => left; exact ⟨by simp, rfl⟩
  | cons c l ih =>
    by_cases hc : c = sep
    · right
      refine ⟨[], l, by simp [hc], by simp, ?_⟩
      simp [List.span_eq_take_drop, hc]
    · rcases ih with ⟨h1, h2⟩ | ⟨a, b, h1, h2, h3⟩
      · left
        refine ⟨by simp [h1, Ne.symm hc], ?_⟩
        rw [List.span_eq_take_drop] at h2 ⊢
        simp only [Prod.mk.injEq] at h2
        simp [hc, h2.1, h2.2]
      · right
        refine ⟨c :: a, b, by simp [h1], by simp [h2, Ne.symm hc], ?_⟩
        rw [List.span_eq_take_drop] at h3 ⊢
        simp only [Prod.mk.injEq] at h3
        simp [hc, h3.1, h3.2]

/-- Without the separator, `SplitN` into two gives the string itself. -/
theorem SplitN_two_of_not_mem (sep : Char) (l : GoString) (h : sep ∉ l) :
    SplitN l sep 2 = [l] := by
  rcases span_sep sep l with ⟨_, h2⟩ | ⟨a, b, h1, _, _⟩
  · simp only [SplitN, h2]
  · exact absurd (by simp [h1]) h

/-- With the separator, `SplitN` into two splits at its first occurrence. -/
theorem SplitN_two_of_append (sep : Char) (a b : GoString) (h : sep ∉ a) :
    SplitN (a ++ sep :: b) sep 2 = [a, b] := by
  rcases span_sep sep (a ++ sep :: b) with ⟨h1, _⟩ | ⟨a1, b1, h1, h2, h3⟩
  · exact absurd (by simp) h1
  · obtain ⟨rfl, hb⟩ : a = a1 ∧ b = b1 := by
      have := List.append_eq_append_iff.mp h1
      rcases this with ⟨c, hc1, hc2⟩ | ⟨c, hc1, hc2⟩
      · cases c with
        | nil => simp at hc1 hc2; exact ⟨hc1.symm, hc2.symm ▸ rfl⟩
        | cons x c =>
          simp at hc2
          exact absurd (by rw [hc1, hc2.1]; simp) h2
      · cases c with
        | nil => simp at hc1 hc2; exact ⟨hc1, hc2.symm⟩
        | cons x c =>
          simp at hc2
          exact absurd (by rw [hc1, hc2.1]; simp) h
    subst hb
    simp only [SplitN, h3]

/-- The result of `SplitN` into two has one or two pieces. -/
theorem SplitN_two_cases (sep : Char) (l : GoString) :
    (sep ∉ l ∧ SplitN l sep 2 = [l]) ∨
    ∃ a b, l = a ++ sep :: b ∧ sep ∉ a ∧ SplitN l sep 2 = [a, b] := by
  rcases span_sep sep l with ⟨h1, _⟩ | ⟨a, b, h1, h2, _⟩
  · exact Or.inl ⟨h1, SplitN_two_of_not_mem sep l h1⟩
  · exact Or.inr ⟨a, b, h1, h2, h1 ▸ SplitN_two_of_append sep a b h2⟩


/-- A line that is well-formed has a name and an address text around its
first tab, and the address text parses. -/
theorem wellFormed_iff (P : GoString → Option IP) (l : GoString) (pfx : Bool) :
    wellFormed P (l, pfx) ↔
      pfx = false ∧ ∃ name addrText ip, SplitN l '\t' 2 = [name, addrText] ∧
        P addrText = some ip ∧ parseRecord P l = some (name, ip) := by
  unfold wellFormed parseRecord
  rcases hs : SplitN l '\t' 2 with _ | ⟨a, _ | ⟨b, _ | ⟨c, r⟩⟩⟩ <;> simp
  cases hp : P b with
  | none => simp
  | some ip =>
    simp only [Option.map_some', Option.isSome_some, and_true, List.cons.injEq, and_true,
      Option.some.injEq, Prod.mk.injEq]
    intro _
    exact ⟨fun _ => ⟨a, b, ⟨rfl, rfl⟩, ip, hp, rfl, rfl⟩, fun _ => trivial⟩

/-- The records of a list of lines that starts with a line that has a
record. -/
theorem records_cons (P : GoString → Option IP) (l : GoString) (pfx : Bool)
    (rest : List (GoString × Bool)) (r : GoString × IP) (h : parseRecord P l = some r) :
    records P ((l, pfx) :: rest) = r :: records P rest := by
  simp [records, h]

/-- The loop of `makeHandler` stops at the first line that is not
well-formed, with the error of that line and its number, when no call of
`Handle` panics at the lines before it. -/
theorem makeHandlerLoop_error (P : GoString → Option IP) (fileName : GoString) (ttl : Nat) :
    ∀ (fuel ln : Nat) (rdr : Reader) (t : Tables) (pre : List (GoString × Bool))
      (e : GoString × Bool) (post : List (GoString × Bool)),
      readLines fuel rdr = pre ++ e :: post → (∀ x ∈ pre, wellFormed P x) →
      ¬ wellFormed P e → (addRecords ttl t (records P pre)).isSome = true →
      makeHandlerLoop P fileName ttl fuel ln rdr t =
        some (none, some (lineError fileName (ln + pre.length + 1) e)) := by
  intro fuel
  induction fuel with
  | zero => intro ln rdr t pre e post h; simp [readLines] at h
  | succ fuel ih =>
    intro ln rdr t pre e post h hpre he hadd
    rcases hr : ReadLine rdr with ⟨l, pfx, err, rdr1⟩
    cases err with
    | some err => simp [readLines, hr] at h
    | none =>
      simp only [readLines, hr] at h
      cases pre with
      | nil =>
        simp only [List.nil_append, List.cons.injEq] at h
        obtain ⟨rfl, -⟩ := h
        cases pfx with
        | true => simp [makeHandlerLoop, hr, lineError]
        | false =>
          rw [wellFormed_iff] at he
          rcases hs : SplitN l '\t' 2 with _ | ⟨a, _ | ⟨b, _ | ⟨c, r⟩⟩⟩
          · simp [makeHandlerLoop, hr, lineError, hs]
          · simp [makeHandlerLoop, hr, lineError, hs]
          · cases hp : P b with
            | none => simp [makeHandlerLoop, hr, lineError, hs, hp]
            | some ip => exact absurd ⟨rfl, a, b, ip, hs, hp, by simp [parseRecord, hs, hp]⟩ he
          · simp [makeHandlerLoop, hr, lineError, hs]
      | cons x pre =>
        simp only [List.cons_append, List.cons.injEq] at h
        obtain ⟨rfl, h⟩ := h
        have hx := hpre (l, pfx) (List.mem_cons_self _ _)
        rw [wellFormed_iff] at hx
        obtain ⟨rfl, name, addrText, ip, hs, hp, hrec⟩ := hx
        rw [records_cons P l false pre (name, ip) hrec] at hadd
        cases ha : addRecord ttl t name ip with
        | none => simp [addRecords, ha] at hadd
        | some t2 =>
          simp only [addRecords, ha] at hadd
          have := ih (ln + 1) rdr1 t2 pre e post h
            (fun x hx => hpre x (List.mem_cons_of_mem _ hx)) he hadd
          simp only [makeHandlerLoop, hr, hs, hp, ha]
          rw [this]
          have e1 : ln + 1 + pre.length + 1 = ln + (pre.length + 1) + 1 := by omega
          simp [e1]

/-- When the loop of `makeHandler` returns a table, every line is
well-formed, no call of `Handle` panicked, and the table is the one that the
records of the lines give, in order. -/
theorem makeHandlerLoop_success (P : GoString → Option IP) (fileName : GoString) (ttl : Nat) :
    ∀ (fuel ln : Nat) (rdr : Reader) (t : Tables) (mux : ServeMux),
      makeHandlerLoop P fileName ttl fuel ln rdr t = some (some mux, none) →
      (∀ e ∈ readLines fuel rdr, wellFormed P e) ∧
      ∃ t1, addRecords ttl t (records P (readLines fuel rdr)) = some t1 ∧ mux = t1.mux := by
  intro fuel
  induction fuel with
  | zero => intro ln rdr t mux h; simp [makeHandlerLoop] at h
  | succ fuel ih =>
    intro ln rdr t mux h
    rcases hr : ReadLine rdr with ⟨l, pfx, err, rdr1⟩
    cases err with
    | some err =>
      cases err with
      | EOF =>
        simp only [makeHandlerLoop, hr, Option.some.injEq, Prod.mk.injEq, and_true] at h
        simp [readLines, hr, records, addRecords, h]
      | other err => simp [makeHandlerLoop, hr] at h
    | none =>
      cases pfx with
      | true => simp [makeHandlerLoop, hr] at h
      | false =>
        rcases hs : SplitN l '\t' 2 with _ | ⟨a, _ | ⟨b, _ | ⟨c, r⟩⟩⟩
        · simp [makeHandlerLoop, hr, hs] at h
        · simp [makeHandlerLoop, hr, hs] at h
        · cases hp : P b with
          | none => simp [makeHandlerLoop, hr, hs, hp] at h
          | some ip =>
            cases ha : addRecord ttl t a ip with
            | none => simp [makeHandlerLoop, hr, hs, hp, ha] at h
            | some t2 =>
              simp only [makeHandlerLoop, hr, hs, hp, ha] at h
              obtain ⟨h1, t1, h2, h3⟩ := ih (ln + 1) rdr1 t2 mux (by simpa using h)
              have hrec : parseRecord P l = some (a, ip) := by simp [parseRecord, hs, hp]
              have hw : wellFormed P (l, false) :=
                (wellFormed_iff P l false).mpr ⟨rfl, a, b, ip, hs, hp, hrec⟩
              refine ⟨?_, t1, ?_, h3⟩
              · intro e he
                simp only [readLines, hr, List.mem_cons] at he
                rcases he with rfl | he
                · exact hw
                · exact h1 e he
              · simp only [readLines, hr]
                rw [records_cons P l false _ (a, ip) hrec]
                simp only [addRecords, ha]
                exact h2
        · simp [makeHandlerLoop, hr, hs] at h

/-- The loop of `makeHandler` returns a table or an error, never both. -/
theorem makeHandlerLoop_result (P : GoString → Option IP) (fileName : GoString) (ttl : Nat) :
    ∀ (fuel ln : Nat) (rdr : Reader) (t : Tables) (r : Option ServeMux × Option GoError),
      makeHandlerLoop P fileName ttl fuel ln rdr t = some r →
      (r.1 = none ∧ r.2 ≠ none) ∨ (r.1 ≠ none ∧ r.2 = none) := by
  intro fuel
  induction fuel with
  | zero => intro ln rdr t r h; simp [makeHandlerLoop] at h
  | succ fuel ih =>
    intro ln rdr t r h
    rcases hr : ReadLine rdr with ⟨l, pfx, err, rdr1⟩
    cases err with
    | some err =>
      cases err with
      | EOF =>
        simp only [makeHandlerLoop, hr, Option.some.injEq] at h
        subst h; simp
      | other err =>
        simp only [makeHandlerLoop, hr, Option.some.injEq] at h
        subst h; simp
    | none =>
      cases pfx with
      | true =>
        simp only [makeHandlerLoop, hr, if_true, Option.some.injEq] at h
        subst h; simp
      | false =>
        rcases hs : SplitN l '\t' 2 with _ | ⟨a, _ | ⟨b, _ | ⟨c, r⟩⟩⟩
        · simp only [makeHandlerLoop, hr, hs, Option.some.injEq] at h
          simp at h; subst h; simp
        · simp only [makeHandlerLoop, hr, hs, Option.some.injEq] at h
          simp at h; subst h; simp
        · cases hp : P b with
          | none =>
            simp only [makeHandlerLoop, hr, hs, hp] at h
            simp at h; subst h; simp
          | some ip =>
            cases ha : addRecord ttl t a ip with
            | none => simp [makeHandlerLoop, hr, hs, hp, ha] at h
            | some t2 =>
              simp only [makeHandlerLoop, hr, hs, hp, ha] at h
              exact ih (ln + 1) rdr1 t2 r (by simpa using h)
        · simp only [makeHandlerLoop, hr, hs, Option.some.injEq] at h
          simp at h; subst h; simp

/-- The loop of `makeHandler` panics when a call of `Handle` panics at one
of the lines that it reaches. -/
theorem makeHandlerLoop_panic (P : GoString → Option IP) (fileName : GoString) (ttl : Nat) :
    ∀ (fuel ln : Nat) (rdr : Reader) (t : Tables) (pre post : List (GoString × Bool)),
      readLines fuel rdr = pre ++ post → (∀ x ∈ pre, wellFormed P x) →
      addRecords ttl t (records P pre) = none →
      makeHandlerLoop P fileName ttl fuel ln rdr t = none := by
  intro fuel
  induction fuel with
  | zero => intro ln rdr t pre post _ _ _; simp [makeHandlerLoop]
  | succ fuel ih =>
    intro ln rdr t pre post h hpre hadd
    cases pre with
    | nil => simp [records, addRecords] at hadd
    | cons x pre =>
      rcases hr : ReadLine rdr with ⟨l, pfx, err, rdr1⟩
      cases err with
      | some err => simp [readLines, hr] at h
      | none =>
        simp only [readLines, hr, List.cons_append, List.cons.injEq] at h
        obtain ⟨rfl, h⟩ := h
        have hx := hpre (l, pfx) (List.mem_cons_self _ _)
        rw [wellFormed_iff] at hx
        obtain ⟨rfl, name, addrText, ip, hs, hp, hrec⟩ := hx
        rw [records_cons P l false pre (name, ip) hrec] at hadd
        cases ha : addRecord ttl t name ip with
        | none => simp [makeHandlerLoop, hr, hs, hp, ha]
        | some t2 =>
          simp only [addRecords, ha] at hadd
          have := ih (ln + 1) rdr1 t2 pre post h
            (fun x hx => hpre x (List.mem_cons_of_mem _ hx)) hadd
          simp only [makeHandlerLoop, hr, hs, hp, ha]
          simpa using this


/-- A `span` without a rest returns the whole list. -/
theorem span_nil_rest {p : Char → Bool} {xs line : List Char} (h : xs.span p = (line, [])) :
    line = xs := by
  rw [List.span_eq_take_drop] at h
  simp only [Prod.mk.injEq] at h
  have := List.takeWhile_append_dropWhile p xs
  rw [h.1, h.2, List.append_nil] at this
  exact this

/-- A call of `ReadLine` that returns no error consumes a byte at least. -/
theorem ReadLine_progress (rdr rdr1 : Reader) (l : GoString) (pfx : Bool)
    (h : ReadLine rdr = (l, pfx, none, rdr1)) : rdr1.data.length < rdr.data.length := by
  unfold ReadLine at h
  by_cases h0 : rdr.data = []
  · simp [h0] at h
  · have hpos : 0 < rdr.data.length := List.length_pos.mpr h0
    simp only [h0, if_false] at h
    rcases hsp : (rdr.data.take defaultBufSize).span (fun c => c != '\n') with ⟨line, rest⟩
    rw [hsp] at h
    cases rest with
    | cons c rest =>
      simp only [Prod.mk.injEq] at h
      obtain ⟨-, -, -, rfl⟩ := h
      simp only [List.length_drop]
      omega
    | nil =>
      have hl := span_nil_rest hsp
      simp only at h
      by_cases hfull : defaultBufSize ≤ rdr.data.length
      · have hlen : line.length = defaultBufSize := by
          rw [hl, List.length_take]; omega
        have hd : defaultBufSize = 4096 := rfl
        simp only [hfull, if_true] at h
        by_cases hcr : line.getLast? = some '\r'
        · simp only [hcr, if_true, Prod.mk.injEq] at h
          obtain ⟨-, -, -, rfl⟩ := h
          simp only [List.length_drop]
          omega
        · simp only [hcr, if_false, Prod.mk.injEq] at h
          obtain ⟨-, -, -, rfl⟩ := h
          simp only [List.length_drop]
          omega
      · simp only [hfull, if_false, Prod.mk.injEq] at h
        obtain ⟨-, -, -, rfl⟩ := h
        simpa using hpos

/-- When it may run once more than the file has bytes, the loop of
`makeHandler` returns, unless a call of `Handle` panics at one of the lines
that it reaches. -/
theorem makeHandlerLoop_none (P : GoString → Option IP) (fileName : GoString) (ttl : Nat) :
    ∀ (fuel ln : Nat) (rdr : Reader) (t : Tables), rdr.data.length < fuel →
      makeHandlerLoop P fileName ttl fuel ln rdr t = none →
      ∃ pre post, readLines fuel rdr = pre ++ post ∧ (∀ x ∈ pre, wellFormed P x) ∧
        addRecords ttl t (records P pre) = none := by
  intro fuel
  induction fuel with
  | zero => intro ln rdr t h; omega
  | succ fuel ih =>
    intro ln rdr t h hn
    rcases hr : ReadLine rdr with ⟨l, pfx, err, rdr1⟩
    cases err with
    | some err =>
      cases err with
      | EOF => simp [makeHandlerLoop, hr] at hn
      | other err => simp [makeHandlerLoop, hr] at hn
    | none =>
      have hp := ReadLine_progress rdr rdr1 l pfx hr
      cases pfx with
      | true => simp [makeHandlerLoop, hr] at hn
      | false =>
        rcases hs : SplitN l '\t' 2 with _ | ⟨a, _ | ⟨b, _ | ⟨c, r⟩⟩⟩
        · simp [makeHandlerLoop, hr, hs] at hn
        · simp [makeHandlerLoop, hr, hs] at hn
        · cases hp2 : P b with
          | none => simp [makeHandlerLoop, hr, hs, hp2] at hn
          | some ip =>
            have hrec : parseRecord P l = some (a, ip) := by simp [parseRecord, hs, hp2]
            have hw : wellFormed P (l, false) :=
              (wellFormed_iff P l false).mpr ⟨rfl, a, b, ip, hs, hp2, hrec⟩
            cases ha : addRecord ttl t a ip with
            | none =>
              refine ⟨[(l, false)], readLines fuel rdr1, by simp [readLines, hr], ?_, ?_⟩
              · intro x hx
                rw [List.mem_singleton.mp hx]
                exact hw
              · rw [records_cons P l false [] (a, ip) hrec]
                simp [addRecords, ha]
            | some t2 =>
              simp only [makeHandlerLoop, hr, hs, hp2, ha] at hn
              obtain ⟨pre, post, h1, h2, h3⟩ := ih (ln + 1) rdr1 t2 (by omega) (by simpa using hn)
              refine ⟨(l, false) :: pre, post, by simp [readLines, hr, h1], ?_, ?_⟩
              · intro x hx
                rcases List.mem_cons.mp hx with rfl | hx
                · exact hw
                · exact h2 x hx
              · rw [records_cons P l false pre (a, ip) hrec]
                simp only [addRecords, ha]
                exact h3
        · simp [makeHandlerLoop, hr, hs] at hn

/-- The lines read do not depend on the bound on the number of calls, once
it exceeds the number of bytes of the file. -/
theorem readLines_fuel : ∀ (fuel1 fuel2 : Nat) (rdr : Reader),
    rdr.data.length < fuel1 → rdr.data.length < fuel2 →
    readLines fuel1 rdr = readLines fuel2 rdr := by
  intro fuel1
  induction fuel1 with
  | zero => intro fuel2 rdr h; omega
  | succ fuel1 ih =>
    intro fuel2 rdr h1 h2
    cases fuel2 with
    | zero => omega
    | succ fuel2 =>
      rcases hr : ReadLine rdr with ⟨l, pfx, err, rdr1⟩
      cases err with
      | some err => simp [readLines, hr]
      | none =>
        have hp := ReadLine_progress rdr rdr1 l pfx hr
        simp only [readLines, hr]
        rw [ih fuel2 rdr1 (by omega) (by omega)]


/-- The names after one more record. -/
theorem firstNames_append_singleton (done : List (GoString × IP)) (r : GoString × IP) :
    firstNames (done ++ [r]) =
      if r.1 ∈ firstNames done then firstNames done else firstNames done ++ [r.1] := by
  simp [firstNames, List.foldl_append]

/-- The names of a list of records are the first fields of the records. -/
theorem mem_firstNames (recs : List (GoString × IP)) (n : GoString) :
    n ∈ firstNames recs ↔ n ∈ recs.map Prod.fst := by
  induction recs using List.reverseRecOn with
  | nil => simp [firstNames]
  | append_singleton done r ih =>
    rw [firstNames_append_singleton]
    by_cases h : r.1 ∈ firstNames done
    · simp only [h, if_true, List.map_append, List.mem_append, List.map_cons, List.map_nil,
        List.mem_singleton]
      constructor
      · intro hn; exact Or.inl (ih.mp hn)
      · rintro (hn | rfl)
        · exact ih.mpr hn
        · exact h
    · simp only [h, if_false, List.map_append, List.mem_append, List.map_cons, List.map_nil,
        List.mem_singleton, ih]

/-- No name occurs twice among the names of a list of records. -/
theorem nodup_firstNames (recs : List (GoString × IP)) : (firstNames recs).Nodup := by
  induction recs using List.reverseRecOn with
  | nil => simp [firstNames]
  | append_singleton done r ih =>
    rw [firstNames_append_singleton]
    by_cases h : r.1 ∈ firstNames done
    · simpa [h] using ih
    · simp only [h, if_false]
      exact List.Nodup.append ih (List.nodup_singleton _) (by simpa using h)

/-- A key without an entry in a map. -/
theorem mapIndex_eq_none {κ ν : Type} [DecidableEq κ] (m : List (κ × ν)) (k : κ) :
    mapIndex m k = none ↔ k ∉ m.map Prod.fst := by
  induction m with
  | nil => simp [mapIndex]
  | cons e m ih =>
    obtain ⟨k1, v1⟩ := e
    by_cases h : k1 = k
    · simp [mapIndex, h]
    · simp [mapIndex, h, ih, Ne.symm h]

/-- The value of a key is the value of one of its entries. -/
theorem mem_of_mapIndex {κ ν : Type} [DecidableEq κ] (m : List (κ × ν)) (k : κ) (v : ν)
    (h : mapIndex m k = some v) : (k, v) ∈ m := by
  induction m with
  | nil => simp [mapIndex] at h
  | cons e m ih =>
    obtain ⟨k1, v1⟩ := e
    by_cases h1 : k1 = k
    · simp [mapIndex, h1] at h
      simp [h1, h]
    · simp [mapIndex, h1] at h
      exact List.mem_cons_of_mem _ (ih h)

/-- An assignment to a new key adds an entry at the end of the map. -/
theorem mapAssign_of_not_mem {κ ν : Type} [DecidableEq κ] (m : List (κ × ν)) (k : κ) (v : ν)
    (h : k ∉ m.map Prod.fst) : mapAssign m k v = m ++ [(k, v)] := by
  induction m with
  | nil => simp [mapAssign]
  | cons e m ih =>
    obtain ⟨k1, v1⟩ := e
    simp only [List.map_cons, List.mem_cons, not_or] at h
    simp [mapAssign, Ne.symm h.1, ih h.2]

/-- Numbering one more name. -/
theorem zip_range_append_singleton {α : Type} (names : List α) (m : α) :
    (names ++ [m]).zip (List.range (names ++ [m]).length) =
      names.zip (List.range names.length) ++ [(m, names.length)] := by
  rw [List.length_append, List.length_singleton, List.range_succ,
    List.zip_append (by simp)]
  simp

/-- The number of a name is its position. -/
theorem get?_of_mem_zip_range {α : Type} (names : List α) (k : α) (v : Nat)
    (h : (k, v) ∈ names.zip (List.range names.length)) : names.get? v = some k := by
  induction names using List.reverseRecOn with
  | nil => simp at h
  | append_singleton names m ih =>
    rw [zip_range_append_singleton, List.mem_append] at h
    rcases h with h | h
    · have := ih h
      have hv : v < names.length := by
        rcases Nat.lt_or_ge v names.length with hv | hv
        · exact hv
        · rw [List.get?_eq_none.mpr hv] at this; cases this
      rw [List.get?_eq_getElem?, List.getElem?_append_left hv, ← List.get?_eq_getElem?]
      exact this
    · simp only [List.mem_singleton, Prod.mk.injEq] at h
      obtain ⟨rfl, rfl⟩ := h
      simp [List.get?_eq_getElem?]


/-- An assignment through the pointer of a name changes the RecordSet of
that name only. -/
theorem heapModify_map (g : SimpleARecordHandler → SimpleARecordHandler)
    (mk : GoString → SimpleARecordHandler) (n : GoString) :
    ∀ (names : List GoString) (p : Nat), names.Nodup → names.get? p = some n →
      heapModify (names.map mk) p g = names.map (fun m => if m = n then g (mk m) else mk m) := by
  intro names
  induction names with
  | nil => intro p _ h; simp at h
  | cons a names ih =>
    intro p hnd h
    rw [List.nodup_cons] at hnd
    cases p with
    | zero =>
      simp only [List.get?_cons_zero, Option.some.injEq] at h
      subst h
      simp only [List.map_cons, heapModify, if_true, List.cons.injEq, true_and]
      apply List.map_congr_left
      intro m hm
      have : m ≠ a := fun e => hnd.1 (e ▸ hm)
      simp [this]
    | succ p =>
      simp only [List.get?_cons_succ] at h
      have hn : n ∈ names := List.get?_mem h
      have : a ≠ n := fun e => hnd.1 (e ▸ hn)
      simp only [List.map_cons, heapModify, this, if_false, List.cons.injEq, true_and]
      exact ih p hnd.2 h

/-- The RecordSet of a name after one more record: the address of a record
of that name is appended to `V6Addrs` when it has no 4-byte form and to
`V4Addrs` otherwise; the RecordSets of the other names are unchanged. -/
theorem recordSet_append_singleton (ttl : Nat) (done : List (GoString × IP)) (n : GoString)
    (ip : IP) (m : GoString) :
    recordSet ttl (done ++ [(n, ip)]) m =
      if m = n then
        if To4 ip = none then
          { recordSet ttl done m with V6Addrs := (recordSet ttl done m).V6Addrs ++ [ip] }
        else
          { recordSet ttl done m with V4Addrs := (recordSet ttl done m).V4Addrs ++ [ip] }
      else recordSet ttl done m := by
  by_cases hm : m = n
  · subst hm
    by_cases h4 : To4 ip = none
    · simp [recordSet, v4Of, v6Of, List.filter_append, h4, List.filter_cons]
    · simp [recordSet, v4Of, v6Of, List.filter_append, h4, List.filter_cons]
  · have hm2 : ¬ n = m := fun e => hm e.symm
    simp [recordSet, v4Of, v6Of, List.filter_append, hm, hm2, List.filter_cons]

/-- Following the registered pointers gives each name with its RecordSet. -/
theorem filterMap_deref (mk : GoString → SimpleARecordHandler) (names : List GoString) :
    (names.zip (List.range names.length)).filterMap
        (fun e => ((names.map mk).get? e.2).map (fun h => (e.1, h)))
      = names.map (fun n => (n, mk n)) := by
  have key : ∀ e ∈ names.zip (List.range names.length),
      ((names.map mk).get? e.2).map (fun h => (e.1, h)) = some (e.1, mk e.1) := by
    intro e he
    have := get?_of_mem_zip_range names e.1 e.2 he
    simp [List.get?_eq_getElem?] at this ⊢
    simp [this]
  rw [List.filterMap_congr key]
  have hf : (fun x : GoString × Nat => some (x.1, mk x.1)) =
      some ∘ ((fun n => (n, mk n)) ∘ Prod.fst) := rfl
  rw [hf, List.filterMap_eq_map, ← List.map_map, List.map_fst_zip]
  simp


/-- One iteration of the loop of `makeHandler` in which the call of `Handle`
returns keeps the invariant of the loop. -/
theorem Built_updateTables (ttl : Nat) (t : Tables) (done : List (GoString × IP)) (n : GoString)
    (ip : IP) (h : Built ttl t done) : Built ttl (updateTables ttl t n ip) (done ++ [(n, ip)]) := by
  obtain ⟨hheap, hpairs, hretval⟩ := h
  have hfst : (t.pairs.map Prod.fst) = firstNames done := by
    rw [hpairs, List.map_fst_zip]; simp
  cases hi : mapIndex t.pairs n with
  | some p =>
    have hmem : n ∈ firstNames done := by
      rw [← hfst]
      by_contra hc
      rw [(mapIndex_eq_none t.pairs n).mpr hc] at hi
      cases hi
    have hget : (firstNames done).get? p = some n := by
      apply get?_of_mem_zip_range
      rw [← hpairs]
      exact mem_of_mapIndex _ _ _ hi
    have hnames : firstNames (done ++ [(n, ip)]) = firstNames done := by
      rw [firstNames_append_singleton]; simp [hmem]
    have hrs : (fun m => recordSet ttl (done ++ [(n, ip)]) m) =
        fun m => if m = n then
          (if To4 ip = none then
            { recordSet ttl done m with V6Addrs := (recordSet ttl done m).V6Addrs ++ [ip] }
          else
            { recordSet ttl done m with V4Addrs := (recordSet ttl done m).V4Addrs ++ [ip] })
        else recordSet ttl done m := by
      funext m; exact recordSet_append_singleton ttl done n ip m
    by_cases h4 : To4 ip = none
    · refine ⟨?_, ?_, ?_⟩
      · simp only [updateTables, hi, h4, if_true, hnames]
        rw [hheap, heapModify_map _ _ n _ p (nodup_firstNames done) hget]
        show _ = List.map (fun m => recordSet ttl (done ++ [(n, ip)]) m) _
        rw [hrs]
        simp only [h4, if_true]
      · simp only [updateTables, hi, h4, if_true, hnames]; exact hpairs
      · simp only [updateTables, hi, h4, if_true]; exact hretval
    · refine ⟨?_, ?_, ?_⟩
      · simp only [updateTables, hi, h4, if_false, hnames]
        rw [hheap, heapModify_map _ _ n _ p (nodup_firstNames done) hget]
        show _ = List.map (fun m => recordSet ttl (done ++ [(n, ip)]) m) _
        rw [hrs]
        simp only [h4, if_false]
      · simp only [updateTables, hi, h4, if_false, hnames]; exact hpairs
      · simp only [updateTables, hi, h4, if_false]; exact hretval
  | none =>
    have hnot : n ∉ firstNames done := by
      rw [← hfst]; exact (mapIndex_eq_none t.pairs n).mp hi
    have hnames : firstNames (done ++ [(n, ip)]) = firstNames done ++ [n] := by
      rw [firstNames_append_singleton]; simp [hnot]
    have hlen : t.heap.length = (firstNames done).length := by rw [hheap]; simp
    have hold : ∀ m ∈ firstNames done,
        recordSet ttl (done ++ [(n, ip)]) m = recordSet ttl done m := by
      intro m hm
      have : m ≠ n := fun e => hnot (e ▸ hm)
      rw [recordSet_append_singleton]; simp [this]
    have hnew : ∀ g : SimpleARecordHandler → SimpleARecordHandler,
        heapModify (t.heap ++ [{ Name := n, Ttl := ttl, V4Addrs := [], V6Addrs := [] }])
          t.heap.length g =
        t.heap ++ [g { Name := n, Ttl := ttl, V4Addrs := [], V6Addrs := [] }] := by
      intro g
      generalize t.heap = hp
      induction hp with
      | nil => simp [heapModify]
      | cons a hp ih => simp [heapModify, ih]
    have hv4 : v4Of done n = [] := by
      simp only [v4Of, List.map_eq_nil_iff, List.filter_eq_nil_iff]
      intro r hr
      have : r.1 ≠ n := fun e => hnot ((mem_firstNames done n).mpr (e ▸ List.mem_map_of_mem _ hr))
      simp [this]
    have hv6 : v6Of done n = [] := by
      simp only [v6Of, List.map_eq_nil_iff, List.filter_eq_nil_iff]
      intro r hr
      have : r.1 ≠ n := fun e => hnot ((mem_firstNames done n).mpr (e ▸ List.mem_map_of_mem _ hr))
      simp [this]
    have hrs := recordSet_append_singleton ttl done n ip n
    simp only [if_true] at hrs
    have hpairs2 : mapAssign t.pairs n t.heap.length =
        (firstNames done ++ [n]).zip (List.range (firstNames done ++ [n]).length) := by
      rw [mapAssign_of_not_mem _ _ _ (by rw [hfst]; exact hnot), zip_range_append_singleton,
        hpairs, hlen]
    by_cases h4 : To4 ip = none
    · simp only [h4, if_true] at hrs
      refine ⟨?_, ?_, ?_⟩
      · simp only [updateTables, hi, h4, if_true, hnames, hnew, List.map_append, List.map_cons,
          List.map_nil]
        rw [hrs, hheap, List.map_congr_left hold]
        simp [recordSet, hv4, hv6]
      · simp only [updateTables, hi, h4, if_true, hnames]; exact hpairs2
      · simp only [updateTables, hi, h4, if_true]
        rw [hretval, mapAssign_of_not_mem _ _ _ (by rw [hfst]; exact hnot)]
    · simp only [h4, if_false] at hrs
      refine ⟨?_, ?_, ?_⟩
      · simp only [updateTables, hi, h4, if_false, hnames, hnew, List.map_append, List.map_cons,
          List.map_nil]
        rw [hrs, hheap, List.map_congr_left hold]
        simp [recordSet, hv4, hv6]
      · simp only [updateTables, hi, h4, if_false, hnames]; exact hpairs2
      · simp only [updateTables, hi, h4, if_false]
        rw [hretval, mapAssign_of_not_mem _ _ _ (by rw [hfst]; exact hnot)]

/-- The invariant of the loop of `makeHandler` holds after any number of
iterations. -/
theorem Built_foldl (ttl : Nat) (rest : List (GoString × IP)) :
    ∀ (t : Tables) (done : List (GoString × IP)), Built ttl t done →
      Built ttl (rest.foldl (fun t r => updateTables ttl t r.1 r.2) t) (done ++ rest) := by
  induction rest with
  | nil => intro t done h; simpa using h
  | cons r rest ih =>
    intro t done h
    have := ih (updateTables ttl t r.1 r.2) (done ++ [r]) (Built_updateTables ttl t done r.1 r.2 h)
    simpa using this

/-- The table that `makeHandler` returns for a list of records: each name
once, in the order of first occurrence, registered with its RecordSet. -/
theorem mux_foldl (ttl : Nat) (recs : List (GoString × IP)) :
    (recs.foldl (fun t r => updateTables ttl t r.1 r.2)
        { heap := [], pairs := [], retval := [] }).mux
      = { z := (firstNames recs).map (fun n => (n, recordSet ttl recs n)) } := by
  have h0 : Built ttl { heap := [], pairs := [], retval := [] } [] :=
    ⟨by simp [firstNames], by simp [firstNames], rfl⟩
  obtain ⟨h1, h2, h3⟩ := Built_foldl ttl recs _ [] h0
  simp only [List.nil_append] at h1 h2 h3
  simp only [Tables.mux, h3, h2, h1]
  rw [filterMap_deref]


/-- The empty tables satisfy the invariant of the loop of `makeHandler`. -/
theorem Built_nil (ttl : Nat) : Built ttl { heap := [], pairs := [], retval := [] } [] :=
  ⟨by simp [firstNames], by simp [firstNames], rfl⟩

/-- Lines 114 to 124 of `makeHandler` panic on the name that is empty and
not known, and give the tables of `updateTables` on any other name. -/
theorem addRecord_eq (ttl : Nat) (t : Tables) (n : GoString) (ip : IP) :
    addRecord ttl t n ip =
      if mapIndex t.pairs n = none ∧ n = [] then none else some (updateTables ttl t n ip) := by
  unfold addRecord updateTables Handle appendAddr
  cases hi : mapIndex t.pairs n with
  | some h => simp
  | none =>
    by_cases hn : n = []
    · simp [hn]
    · simp [hn]

/-- Lines 114 to 124 of `makeHandler` do not panic on a name that is not
empty. -/
theorem addRecord_of_ne_nil (ttl : Nat) (t : Tables) (n : GoString) (ip : IP) (hn : n ≠ []) :
    addRecord ttl t n ip = some (updateTables ttl t n ip) := by
  rw [addRecord_eq]; simp [hn]

/-- Lines 114 to 124 of `makeHandler` panic on the empty name when no record
before had it. -/
theorem addRecord_nil (ttl : Nat) (t : Tables) (done : List (GoString × IP)) (ip : IP)
    (hb : Built ttl t done) (hn : [] ∉ firstNames done) : addRecord ttl t [] ip = none := by
  have hfst : (t.pairs.map Prod.fst) = firstNames done := by
    rw [hb.pairs_eq, List.map_fst_zip]; simp
  have hi : mapIndex t.pairs [] = none := (mapIndex_eq_none t.pairs []).mpr (by rw [hfst]; exact hn)
  rw [addRecord_eq]; simp [hi]

/-- No call of `Handle` panics on records whose names are not empty. -/
theorem addRecords_of_ne_nil (ttl : Nat) (recs : List (GoString × IP)) :
    ∀ (t : Tables), (∀ r ∈ recs, r.1 ≠ []) →
      addRecords ttl t recs = some (recs.foldl (fun t r => updateTables ttl t r.1 r.2) t) := by
  induction recs with
  | nil => intro t _; rfl
  | cons r recs ih =>
    intro t h
    simp only [addRecords, addRecord_of_ne_nil ttl t r.1 r.2 (h r (List.mem_cons_self _ _)),
      List.foldl_cons]
    exact ih _ (fun x hx => h x (List.mem_cons_of_mem _ hx))

/-- From tables that hold no empty name, a call of `Handle` panics exactly
when a record has the empty name. -/
theorem addRecords_eq_none (ttl : Nat) (recs : List (GoString × IP)) :
    ∀ (t : Tables) (done : List (GoString × IP)), Built ttl t done → [] ∉ firstNames done →
      (addRecords ttl t recs = none ↔ ∃ r ∈ recs, r.1 = []) := by
  induction recs with
  | nil => intro t done _ _; simp [addRecords]
  | cons r recs ih =>
    intro t done hb hn
    by_cases hr : r.1 = []
    · have : addRecord ttl t r.1 r.2 = none := by rw [hr]; exact addRecord_nil ttl t done r.2 hb hn
      simp only [addRecords, this, true_iff]
      exact ⟨r, List.mem_cons_self _ _, hr⟩
    · have hb1 := Built_updateTables ttl t done r.1 r.2 hb
      have hn1 : [] ∉ firstNames (done ++ [(r.1, r.2)]) := by
        rw [firstNames_append_singleton]
        by_cases hm : r.1 ∈ firstNames done
        · simpa [hm] using hn
        · simp only [hm, if_false, List.mem_append, List.mem_singleton, not_or]
          exact ⟨hn, fun e => hr e.symm⟩
      simp only [addRecords, addRecord_of_ne_nil ttl t r.1 r.2 hr, ih _ _ hb1 hn1,
        List.mem_cons, exists_eq_or_imp, hr, false_or]

/-- When no call of `Handle` panics from the empty tables, no record has the
empty name and the tables are those of `updateTables`, record by record. -/
theorem addRecords_eq_some (ttl : Nat) (recs : List (GoString × IP)) (t1 : Tables)
    (h : addRecords ttl { heap := [], pairs := [], retval := [] } recs = some t1) :
    (∀ r ∈ recs, r.1 ≠ []) ∧
    t1 = recs.foldl (fun t r => updateTables ttl t r.1 r.2)
      { heap := [], pairs := [], retval := [] } := by
  have hne : ∀ r ∈ recs, r.1 ≠ [] := by
    intro r hr he
    have := (addRecords_eq_none ttl recs _ [] (Built_nil ttl) (by simp [firstNames])).mpr
      ⟨r, hr, he⟩
    rw [this] at h
    cases h
  refine ⟨hne, ?_⟩
  rw [addRecords_of_ne_nil ttl recs _ hne] at h
  exact (Option.some.inj h).symm

/-- The first field of the record of a line is empty exactly when the line
starts with a tab. -/
theorem parseRecord_fst_eq_nil (P : GoString → Option IP) (l : GoString) (r : GoString × IP)
    (h : parseRecord P l = some r) : r.1 = [] ↔ l.head? = some '\t' := by
  rcases SplitN_two_cases '\t' l with ⟨_, hs⟩ | ⟨a, b, hl, ha, hs⟩
  · simp [parseRecord, hs] at h
  · simp only [parseRecord, hs, Option.map_eq_some'] at h
    obtain ⟨ip, -, rfl⟩ := h
    subst hl
    cases a with
    | nil => simp
    | cons x a =>
      have hx : x ≠ '\t' := fun e => ha (e ▸ List.mem_cons_self _ _)
      simp [hx]

/-- A line is accepted when `ReadLine` delivers it whole, it has a tab, the
text after its first tab is parsed as an address, and the text before it is
not empty. -/
theorem accepted_iff (P : GoString → Option IP) (l : GoString) (pfx : Bool) :
    accepted P (l, pfx) ↔
      pfx = false ∧ ∃ name addrText ip, SplitN l '\t' 2 = [name, addrText] ∧
        P addrText = some ip ∧ parseRecord P l = some (name, ip) ∧ name ≠ [] := by
  unfold accepted
  rw [wellFormed_iff]
  constructor
  · rintro ⟨⟨hp, name, addrText, ip, hs, hpa, hrec⟩, hh⟩
    exact ⟨hp, name, addrText, ip, hs, hpa, hrec,
      fun e => hh ((parseRecord_fst_eq_nil P l _ hrec).mp e)⟩
  · rintro ⟨hp, name, addrText, ip, hs, hpa, hrec, hne⟩
    exact ⟨⟨hp, name, addrText, ip, hs, hpa, hrec⟩,
      fun e => hne ((parseRecord_fst_eq_nil P l _ hrec).mpr e)⟩

/-- The records of lines that are accepted have names that are not empty. -/
theorem records_ne_nil (P : GoString → Option IP) (ls : List (GoString × Bool))
    (h : ∀ x ∈ ls, accepted P x) : ∀ r ∈ records P ls, r.1 ≠ [] := by
  intro r hr he
  simp only [records, List.mem_filterMap] at hr
  obtain ⟨e, hm, hrec⟩ := hr
  exact (h e hm).2 ((parseRecord_fst_eq_nil P e.1 r hrec).mp he)

/-- Lines that are well-formed and whose records have names that are not
empty are accepted. -/
theorem accepted_of_records (P : GoString → Option IP) (ls : List (GoString × Bool))
    (hw : ∀ x ∈ ls, wellFormed P x) (hn : ∀ r ∈ records P ls, r.1 ≠ []) :
    ∀ x ∈ ls, accepted P x := by
  intro x hx
  refine ⟨hw x hx, ?_⟩
  obtain ⟨r, hr⟩ := Option.isSome_iff_exists.mp (hw x hx).2
  have hm : r ∈ records P ls := by
    simp only [records, List.mem_filterMap]
    exact ⟨x, hx, hr⟩
  exact fun e => hn r hm ((parseRecord_fst_eq_nil P x.1 r hr).mpr e)


/-- A call of `ReadLine` that returns no error returns a prefix exactly when
the next `defaultBufSize` bytes exist and hold no line feed. -/
theorem ReadLine_isPfx_iff (rdr rdr1 : Reader) (l : GoString) (pfx : Bool)
    (h : ReadLine rdr = (l, pfx, none, rdr1)) :
    pfx = true ↔ defaultBufSize ≤ rdr.data.length ∧ '\n' ∉ rdr.data.take defaultBufSize := by
  unfold ReadLine at h
  by_cases h0 : rdr.data = []
  · simp [h0] at h
  · simp only [h0, if_false] at h
    rcases span_sep '\n' (rdr.data.take defaultBufSize) with ⟨h1, h2⟩ | ⟨a, b, h1, h2, h3⟩
    · rw [h2] at h
      by_cases hfull : defaultBufSize ≤ rdr.data.length
      · simp only [hfull, if_true] at h
        by_cases hcr : (List.take defaultBufSize rdr.data).getLast? = some '\r'
        · simp only [hcr, if_true, Prod.mk.injEq] at h
          simp [← h.2.1, hfull, h1]
        · simp only [hcr, if_false, Prod.mk.injEq] at h
          simp [← h.2.1, hfull, h1]
      · simp only [hfull, if_false, Prod.mk.injEq] at h
        simp [← h.2.1, hfull]
    · rw [h3] at h
      simp only [Prod.mk.injEq] at h
      have : '\n' ∈ rdr.data.take defaultBufSize := by rw [h1]; simp
      simp [← h.2.1, this]

/-- A file whose next `defaultBufSize` bytes hold no line feed: `ReadLine`
returns a prefix. -/
theorem ReadLine_of_long (rdr : Reader) (h1 : defaultBufSize ≤ rdr.data.length)
    (h2 : '\n' ∉ rdr.data.take defaultBufSize) :
    ∃ l rdr1, ReadLine rdr = (l, true, none, rdr1) := by
  have h0 : rdr.data ≠ [] := by
    intro h; rw [h] at h1; simp [defaultBufSize] at h1
  rcases span_sep '\n' (rdr.data.take defaultBufSize) with ⟨_, h3⟩ | ⟨a, b, h3, _, _⟩
  · by_cases hcr : (List.take defaultBufSize rdr.data).getLast? = some '\r'
    · refine ⟨(List.take defaultBufSize rdr.data).dropLast,
        { rdr with data := rdr.data.drop ((List.take defaultBufSize rdr.data).length - 1) }, ?_⟩
      simp only [ReadLine, h0, if_false, h3, h1, if_true, hcr]
    · refine ⟨List.take defaultBufSize rdr.data,
        { rdr with data := rdr.data.drop (List.take defaultBufSize rdr.data).length }, ?_⟩
      simp only [ReadLine, h0, if_false, h3, h1, if_true, hcr]
  · exact absurd (by rw [h3]; simp) h2

/-- The function `makeHandler` on a file that opens is its loop on the
lines of the file. -/
theorem makeHandler_of_open (P : GoString → Option IP) (Open : GoString → Except IOError Reader)
    (fileName : GoString) (ttl : Nat) (rdr : Reader) (ho : Open fileName = Except.ok rdr) :
    makeHandler P Open fileName ttl =
      makeHandlerLoop P fileName ttl (rdr.data.length + 1) 0 rdr
        { heap := [], pairs := [], retval := [] } := by
  simp only [makeHandler, ho]

/-- The function `makeHandler` fails at the first line that is not
well-formed, with the error of that line and its number, when the lines
before it are accepted. -/
theorem makeHandler_error (P : GoString → Option IP) (Open : GoString → Except IOError Reader)
    (fileName : GoString) (ttl : Nat) (rdr : Reader) (pre : List (GoString × Bool))
    (e : GoString × Bool) (post : List (GoString × Bool))
    (ho : Open fileName = Except.ok rdr) (hl : rdr.lines = pre ++ e :: post)
    (hpre : ∀ x ∈ pre, accepted P x) (he : ¬ wellFormed P e) :
    makeHandler P Open fileName ttl =
      some (none, some (lineError fileName (pre.length + 1) e)) := by
  rw [makeHandler_of_open P Open fileName ttl rdr ho,
    makeHandlerLoop_error P fileName ttl _ 0 rdr _ pre e post hl (fun x hx => (hpre x hx).1) he
      (by rw [addRecords_of_ne_nil ttl _ _ (records_ne_nil P pre hpre)]; rfl)]
  simp

/-- The function `makeHandler` panics when a line that is well-formed and
starts with a tab comes after lines that are well-formed. -/
theorem makeHandler_panic (P : GoString → Option IP) (Open : GoString → Except IOError Reader)
    (fileName : GoString) (ttl : Nat) (rdr : Reader) (pre : List (GoString × Bool))
    (l : GoString) (post : List (GoString × Bool))
    (ho : Open fileName = Except.ok rdr) (hl : rdr.lines = pre ++ (l, false) :: post)
    (hpre : ∀ x ∈ pre, wellFormed P x) (hw : wellFormed P (l, false))
    (hh : l.head? = some '\t') :
    makeHandler P Open fileName ttl = none := by
  obtain ⟨r, hr⟩ := Option.isSome_iff_exists.mp hw.2
  have hr0 : r.1 = [] := (parseRecord_fst_eq_nil P l r hr).mpr hh
  have hmem : r ∈ records P (pre ++ [(l, false)]) := by
    simp only [records, List.mem_filterMap]
    exact ⟨(l, false), by simp, hr⟩
  rw [makeHandler_of_open P Open fileName ttl rdr ho]
  apply makeHandlerLoop_panic P fileName ttl _ 0 rdr _ (pre ++ [(l, false)]) post
  · rw [List.append_assoc]; exact hl
  · intro x hx
    rcases List.mem_append.mp hx with hx | hx
    · exact hpre x hx
    · rw [List.mem_singleton.mp hx]; exact hw
  · exact (addRecords_eq_none ttl _ _ [] (Built_nil ttl) (by simp [firstNames])).mpr
      ⟨r, hmem, hr0⟩

/-- A list that has an element with a property splits at the first such
element. -/
theorem exists_first {α : Type} (p : α → Prop) [DecidablePred p] :
    ∀ (l : List α), (∃ x ∈ l, p x) →
      ∃ a x b, l = a ++ x :: b ∧ p x ∧ ∀ y ∈ a, ¬ p y := by
  intro l
  induction l with
  | nil => rintro ⟨x, hx, -⟩; cases hx
  | cons z l ih =>
    rintro ⟨x, hx, hp⟩
    by_cases hz : p z
    · exact ⟨[], z, l, rfl, hz, by simp⟩
    · have : ∃ x ∈ l, p x := by
        rcases List.mem_cons.mp hx with rfl | hx
        · exact absurd hp hz
        · exact ⟨x, hx, hp⟩
      obtain ⟨a, y, b, rfl, hy, ha⟩ := ih this
      refine ⟨z :: a, y, b, rfl, hy, ?_⟩
      intro w hw
      rcases List.mem_cons.mp hw with rfl | hw
      · exact hz
      · exact ha w hw

/-- The function `makeHandler` returns a result on every file, with one
exception: it panics, in the call of `Handle`, exactly when the file opens
and one of its lines is well-formed and starts with a tab, the lines before
it being accepted. -/
theorem makeHandler_eq_none_iff (P : GoString → Option IP)
    (Open : GoString → Except IOError Reader) (fileName : GoString) (ttl : Nat) :
    makeHandler P Open fileName ttl = none ↔
      ∃ rdr pre l post, Open fileName = Except.ok rdr ∧ rdr.lines = pre ++ (l, false) :: post ∧
        (∀ x ∈ pre, accepted P x) ∧ wellFormed P (l, false) ∧ l.head? = some '\t' := by
  constructor
  · intro h
    cases ho : Open fileName with
    | error err => simp [makeHandler, ho] at h
    | ok rdr =>
      rw [makeHandler_of_open P Open fileName ttl rdr ho] at h
      obtain ⟨pre0, post0, h1, h2, h3⟩ :=
        makeHandlerLoop_none P fileName ttl _ 0 rdr _ (Nat.lt_succ_self _) h
      obtain ⟨r, hr, hr0⟩ :=
        (addRecords_eq_none ttl _ _ [] (Built_nil ttl) (by simp [firstNames])).mp h3
      simp only [records, List.mem_filterMap] at hr
      obtain ⟨e, he, hrec⟩ := hr
      have hex : ∃ x ∈ pre0, x.1.head? = some '\t' :=
        ⟨e, he, (parseRecord_fst_eq_nil P e.1 r hrec).mp hr0⟩
      obtain ⟨a, x, b, rfl, hx, ha⟩ := exists_first (fun x : GoString × Bool => x.1.head? = some '\t')
        pre0 hex
      have hwx : wellFormed P x := h2 x (by simp)
      obtain ⟨l, pfx⟩ := x
      have hpfx : pfx = false := hwx.1
      subst hpfx
      refine ⟨rdr, a, l, b ++ post0, rfl, ?_, ?_, hwx, hx⟩
      · show readLines _ rdr = _
        rw [h1]; simp
      · intro y hy
        exact ⟨h2 y (by simp [hy]), ha y hy⟩
  · rintro ⟨rdr, pre, l, post, ho, hl, hpre, hw, hh⟩
    exact makeHandler_panic P Open fileName ttl rdr pre l post ho hl
      (fun x hx => (hpre x hx).1) hw hh

/-- When `makeHandler` returns a table, the file opened, each of its lines is
accepted, and the table registers each name once, in the order of first
occurrence, with the RecordSet of its records. -/
theorem makeHandler_success (P : GoString → Option IP) (Open : GoString → Except IOError Reader)
    (fileName : GoString) (ttl : Nat) (mux : ServeMux)
    (hs : makeHandler P Open fileName ttl = some (some mux, none)) :
    ∃ rdr, Open fileName = Except.ok rdr ∧ (∀ e ∈ rdr.lines, accepted P e) ∧
      mux = { z := (firstNames (records P rdr.lines)).map
                (fun n => (n, recordSet ttl (records P rdr.lines) n)) } := by
  cases ho : Open fileName with
  | error err => simp [makeHandler, ho] at hs
  | ok rdr =>
    rw [makeHandler_of_open P Open fileName ttl rdr ho] at hs
    obtain ⟨h1, t1, h2, h3⟩ := makeHandlerLoop_success P fileName ttl _ 0 rdr _ mux hs
    obtain ⟨h4, h5⟩ := addRecords_eq_some ttl _ t1 h2
    exact ⟨rdr, rfl, accepted_of_records P _ h1 h4, by rw [h3, h5, mux_foldl]; rfl⟩

/-- Lines that are all well-formed have one record each. -/
theorem records_length (P : GoString → Option IP) (ls : List (GoString × Bool))
    (h : ∀ e ∈ ls, wellFormed P e) : (records P ls).length = ls.length := by
  induction ls with
  | nil => rfl
  | cons e ls ih =>
    have he := (h e (List.mem_cons_self _ _)).2
    obtain ⟨r, hr⟩ := Option.isSome_iff_exists.mp he
    have := ih (fun x hx => h x (List.mem_cons_of_mem _ hx))
    simp only [records] at this ⊢
    simp [List.filterMap_cons, hr, this]

/-- Among names that are distinct, one name has one entry. -/
theorem filter_map_of_nodup {β : Type} (f : GoString → β) (n : GoString) :
    ∀ (names : List GoString), names.Nodup → n ∈ names →
      (names.map (fun m => (m, f m))).filter (fun e => e.1 = n) = [(n, f n)] := by
  intro names
  induction names with
  | nil => intro _ h; simp at h
  | cons a names ih =>
    intro hnd hn
    rw [List.nodup_cons] at hnd
    by_cases ha : a = n
    · subst ha
      have : (names.map (fun m => (m, f m))).filter (fun e => e.1 = a) = [] := by
        simp only [List.filter_eq_nil_iff, List.mem_map]
        rintro e ⟨m, hm, rfl⟩
        have : m ≠ a := fun e => hnd.1 (e ▸ hm)
        simpa using this
      simp [List.filter_cons, this]
    · have hn2 : n ∈ names := by
        rcases List.mem_cons.mp hn with h | h
        · exact absurd h.symm ha
        · exact h
      simp [List.filter_cons, ha, ih hnd.2 hn2]


/-! ### The record store builder -/

/-- C3: when `makeHandler` succeeds, every line of the file is a record, and
for every name `n` that occurs as a first field the table has exactly one
registration for `n`, whose RecordSet has as `V4Addrs` the parsed addresses of
the lines of name `n` that have a 4-byte form, in file order, and as `V6Addrs`
the parsed addresses of the other lines of name `n`, in file order; no
address is dropped, merged or moved. -/
theorem makeHandler_address_lists (P : GoString → Option IP)
    (Open : GoString → Except IOError Reader) (fileName : GoString) (ttl : Nat)
    (rdr : Reader) (mux : ServeMux) (ho : Open fileName = Except.ok rdr)
    (hs : makeHandler P Open fileName ttl = some (some mux, none)) :
    (records P rdr.lines).length = rdr.lines.length ∧
    ∀ n ∈ (records P rdr.lines).map Prod.fst,
      ∃ h, mux.z.filter (fun e => e.1 = n) = [(n, h)] ∧
        h.V4Addrs = ((records P rdr.lines).filter
          (fun r => r.1 = n ∧ To4 r.2 ≠ none)).map Prod.snd ∧
        h.V6Addrs = ((records P rdr.lines).filter
          (fun r => r.1 = n ∧ To4 r.2 = none)).map Prod.snd := by
  obtain ⟨rdr1, ho1, hw, hm⟩ := makeHandler_success P Open fileName ttl mux hs
  rw [ho] at ho1
  cases ho1
  refine ⟨records_length P _ (fun e he => (hw e he).1), ?_⟩
  intro n hn
  refine ⟨recordSet ttl (records P rdr.lines) n, ?_, rfl, rfl⟩
  rw [hm]
  exact filter_map_of_nodup _ n _ (nodup_firstNames _) ((mem_firstNames _ n).mpr hn)

/-- Witness of C3: the lines `x<TAB>1.1.1.1` and `x<TAB>2.2.2.2`, with a line
for another name and an IPv6 address of `x` between them. -/
theorem makeHandler_address_lists_witness :
    makeHandler ParseIP (fileOf "x\t1.1.1.1\ny\t1.1.1.1\nx\t::1\nx\t2.2.2.2\n".toList)
        "f".toList 300
      = some (some { z := [("x".toList, ⟨"x".toList, 300, [IPv4 1 1 1 1, IPv4 2 2 2 2],
                              [[0, 0, 0, 0, 0, 0, 0, 0, 0, 0, 0, 0, 0, 0, 0, 1]]⟩),
                           ("y".toList, ⟨"y".toList, 300, [IPv4 1 1 1 1], []⟩)] }, none) ∧
    ∃ h, [("x".toList, (⟨"x".toList, 300, [IPv4 1 1 1 1, IPv4 2 2 2 2],
              [[0, 0, 0, 0, 0, 0, 0, 0, 0, 0, 0, 0, 0, 0, 0, 1]]⟩ : SimpleARecordHandler))]
          = [("x".toList, h)] ∧
      h.V4Addrs = [IPv4 1 1 1 1, IPv4 2 2 2 2] ∧
      h.V6Addrs = [[0, 0, 0, 0, 0, 0, 0, 0, 0, 0, 0, 0, 0, 0, 0, 1]] := by
  have hs : makeHandler ParseIP (fileOf "x\t1.1.1.1\ny\t1.1.1.1\nx\t::1\nx\t2.2.2.2\n".toList)
        "f".toList 300
      = some (some { z := [("x".toList, ⟨"x".toList, 300, [IPv4 1 1 1 1, IPv4 2 2 2 2],
                              [[0, 0, 0, 0, 0, 0, 0, 0, 0, 0, 0, 0, 0, 0, 0, 1]]⟩),
                           ("y".toList, ⟨"y".toList, 300, [IPv4 1 1 1 1], []⟩)] }, none) := by
    decide
  obtain ⟨h, h1, h2, h3⟩ :=
    (makeHandler_address_lists ParseIP
      (fileOf "x\t1.1.1.1\ny\t1.1.1.1\nx\t::1\nx\t2.2.2.2\n".toList) "f".toList 300
      { data := "x\t1.1.1.1\ny\t1.1.1.1\nx\t::1\nx\t2.2.2.2\n".toList, err := none } _ rfl hs).2
      "x".toList (by decide)
  exact ⟨hs, h, h1, h2.trans (by decide), h3.trans (by decide)⟩

/-- A line without a tab is not well-formed, and its error is the one of an
invalid record. -/
theorem lineError_of_no_tab (P : GoString → Option IP) (fileName l : GoString) (ln : Nat)
    (htab : '\t' ∉ l) :
    ¬ wellFormed P (l, false) ∧
    lineError fileName ln (l, false) =
      GoError.Errorf (fileName ++ ":".toList ++ Itoa ln ++ " invalid record".toList) := by
  have hs := SplitN_two_of_not_mem '\t' l htab
  constructor
  · rw [wellFormed_iff]
    rintro ⟨-, name, addrText, ip, h, -⟩
    rw [hs] at h
    cases h
  · simp [lineError, hs]

/-- A line whose text after the first tab is no address is not well-formed,
and its error is the one of an invalid address. -/
theorem lineError_of_bad_address (P : GoString → Option IP)
    (fileName name addrText : GoString) (ln : Nat) (hname : '\t' ∉ name)
    (hp : P addrText = none) :
    ¬ wellFormed P (name ++ '\t' :: addrText, false) ∧
    lineError fileName ln (name ++ '\t' :: addrText, false) =
      GoError.Errorf
        (fileName ++ ":".toList ++ Itoa ln ++ " invalid IP address format".toList) := by
  have hs := SplitN_two_of_append '\t' name addrText hname
  constructor
  · rw [wellFormed_iff]
    rintro ⟨-, name1, addrText1, ip, h, h2, -⟩
    rw [hs] at h
    simp only [List.cons.injEq, and_true] at h
    rw [← h.2, hp] at h2
    cases h2
  · simp [lineError, hs]

/-- A file that starts with `defaultBufSize` bytes or more without a line
feed: `makeHandler` fails at line 1 with the error of a line too long. -/
theorem makeHandler_of_long (P : GoString → Option IP) (fileName : GoString) (ttl : Nat)
    (content : GoString) (h1 : defaultBufSize ≤ content.length)
    (h2 : '\n' ∉ content.take defaultBufSize) :
    makeHandler P (fileOf content) fileName ttl =
      some (none, some (GoError.Errorf
        (fileName ++ ":".toList ++ Itoa 1 ++ " line too long".toList))) := by
  obtain ⟨l, rdr1, hr⟩ := ReadLine_of_long { data := content, err := none } h1 h2
  rw [makeHandler_of_open P (fileOf content) fileName ttl { data := content, err := none } rfl]
  simp [makeHandlerLoop, hr]

/-- C4, amended: when line `k` of the file is delivered whole by the line
reader (it is not a prefix cut at the 4096 bytes of the buffer), contains no
tab, and the lines before it are well-formed and have a first field that is
not empty, `makeHandler` fails with the error `<file>:<k> invalid record`;
the empty line is such a line. -/
theorem makeHandler_invalid_record (P : GoString → Option IP)
    (Open : GoString → Except IOError Reader) (fileName : GoString) (ttl : Nat)
    (rdr : Reader) (pre : List (GoString × Bool)) (l : GoString)
    (post : List (GoString × Bool))
    (ho : Open fileName = Except.ok rdr) (hl : rdr.lines = pre ++ (l, false) :: post)
    (hpre : ∀ x ∈ pre, accepted P x) (htab : '\t' ∉ l) :
    makeHandler P Open fileName ttl =
      some (none, some (GoError.Errorf
        (fileName ++ ":".toList ++ Itoa (pre.length + 1) ++ " invalid record".toList))) := by
  obtain ⟨h1, h2⟩ := lineError_of_no_tab P fileName l (pre.length + 1) htab
  rw [makeHandler_error P Open fileName ttl rdr pre (l, false) post ho hl hpre h1, h2]

/-- Witness of C4: an empty second line between two valid lines. -/
theorem makeHandler_invalid_record_witness :
    makeHandler ParseIP (fileOf "x\t1.1.1.1\n\ny\t::1\n".toList) "zone.txt".toList 300 =
      some (none, some (GoError.Errorf "zone.txt:2 invalid record".toList)) :=
  makeHandler_invalid_record ParseIP (fileOf "x\t1.1.1.1\n\ny\t::1\n".toList)
    "zone.txt".toList 300 { data := "x\t1.1.1.1\n\ny\t::1\n".toList, err := none }
    [("x\t1.1.1.1".toList, false)] [] [("y\t::1".toList, false)] rfl (by decide) (by decide)
    (by decide)

/-- A file that starts with a line of `n` letters after some bytes, 4096
letters at least: `makeHandler` fails at line 1 with the error of a line too
long. -/
theorem makeHandler_of_replicate (P : GoString → Option IP) (fileName : GoString) (ttl : Nat)
    (start : GoString) (n : Nat) (hn : defaultBufSize ≤ n) (hs : '\n' ∉ start) :
    makeHandler P (fileOf (start ++ List.replicate n 'a')) fileName ttl =
      some (none, some (GoError.Errorf
        (fileName ++ ":".toList ++ Itoa 1 ++ " line too long".toList))) := by
  apply makeHandler_of_long
  · rw [List.length_append, List.length_replicate]; omega
  · intro hm
    rcases List.mem_append.mp (List.mem_of_mem_take hm) with h | h
    · exact hs h
    · exact absurd (List.eq_of_mem_replicate h) (by decide)

/-- Counterexample to C4 as stated, on two files.  A file of one line of 5000
bytes without a tab: line 1 is its first malformed line and has no tab, and
the error is `f:1 line too long`, not `f:1 invalid record`.  The file of the
lines `<TAB>1.2.3.4` and `foo`: line 2 is its first malformed line and has no
tab, and `makeHandler` panics at line 1, in the call of `Handle` with the
empty name, so that it returns no error. -/
theorem makeHandler_invalid_record_counterexample :
    ('\t' ∉ List.replicate 5000 'a' ∧
     makeHandler ParseIP (fileOf (List.replicate 5000 'a')) "f".toList 300 =
       some (none, some (GoError.Errorf "f:1 line too long".toList)) ∧
     makeHandler ParseIP (fileOf (List.replicate 5000 'a')) "f".toList 300 ≠
       some (none, some (GoError.Errorf "f:1 invalid record".toList))) ∧
    (Reader.lines { data := "\t1.2.3.4\nfoo\n".toList, err := none } =
       [("\t1.2.3.4".toList, false), ("foo".toList, false)] ∧
     wellFormed ParseIP ("\t1.2.3.4".toList, false) ∧ '\t' ∉ "foo".toList ∧
     makeHandler ParseIP (fileOf "\t1.2.3.4\nfoo\n".toList) "f".toList 300 = none ∧
     makeHandler ParseIP (fileOf "\t1.2.3.4\nfoo\n".toList) "f".toList 300 ≠
       some (none, some (GoError.Errorf "f:2 invalid record".toList))) := by
  have h : makeHandler ParseIP (fileOf (List.replicate 5000 'a')) "f".toList 300 =
      some (none, some (GoError.Errorf "f:1 line too long".toList)) :=
    (makeHandler_of_replicate ParseIP "f".toList 300 [] 5000 (by decide) (by decide)).trans
      (by decide)
  refine ⟨⟨fun hm => absurd (List.eq_of_mem_replicate hm) (by decide), h, ?_⟩, ?_⟩
  · rw [h]
    decide
  · decide

/-- C5, amended: when line `k` of the file is delivered whole by the line
reader (it is not a prefix cut at the 4096 bytes of the buffer), has a tab,
the text after its first tab is not parsed as an address, and the lines
before it are well-formed and have a first field that is not empty,
`makeHandler` fails with the error `<file>:<k> invalid IP address format`. -/
theorem makeHandler_invalid_address (P : GoString → Option IP)
    (Open : GoString → Except IOError Reader) (fileName : GoString) (ttl : Nat)
    (rdr : Reader) (pre : List (GoString × Bool)) (name addrText : GoString)
    (post : List (GoString × Bool))
    (ho : Open fileName = Except.ok rdr)
    (hl : rdr.lines = pre ++ (name ++ '\t' :: addrText, false) :: post)
    (hpre : ∀ x ∈ pre, accepted P x) (hname : '\t' ∉ name) (hp : P addrText = none) :
    makeHandler P Open fileName ttl =
      some (none, some (GoError.Errorf
        (fileName ++ ":".toList ++ Itoa (pre.length + 1) ++
          " invalid IP address format".toList))) := by
  obtain ⟨h1, h2⟩ := lineError_of_bad_address P fileName name addrText (pre.length + 1) hname hp
  rw [makeHandler_error P Open fileName ttl rdr pre _ post ho hl hpre h1, h2]

/-- Witness of C5: the third line has a second tab after its first one, so
that its address text is `1.1.1.1<TAB>2.2.2.2`. -/
theorem makeHandler_invalid_address_witness :
    makeHandler ParseIP (fileOf "x\t1.1.1.1\ny\t::1\nz\t1.1.1.1\t2.2.2.2\n".toList)
        "zone.txt".toList 300 =
      some (none, some (GoError.Errorf "zone.txt:3 invalid IP address format".toList)) :=
  makeHandler_invalid_address ParseIP
    (fileOf "x\t1.1.1.1\ny\t::1\nz\t1.1.1.1\t2.2.2.2\n".toList) "zone.txt".toList 300
    { data := "x\t1.1.1.1\ny\t::1\nz\t1.1.1.1\t2.2.2.2\n".toList, err := none }
    [("x\t1.1.1.1".toList, false), ("y\t::1".toList, false)] "z".toList
    "1.1.1.1\t2.2.2.2".toList [] rfl (by decide) (by decide) (by decide) (by decide)

/-- A string of one repeated letter is no address. -/
theorem ParseIP_replicate (n : Nat) : ParseIP (List.replicate n 'a') = none := by
  have : (List.replicate n 'a').find? (fun c => c == '.' || c == ':') = none := by
    rw [List.find?_eq_none]
    intro c hc
    rw [List.mem_replicate] at hc
    rw [hc.2]
    decide
  simp only [ParseIP, this]

/-- Counterexample to C5 as stated, on two files.  A file of one line, `x`, a
tab and 5000 bytes that are no address: line 1 is its first malformed line,
it has a tab and the text after it is no address, and the error is
`f:1 line too long`, not `f:1 invalid IP address format`.  The file of the
lines `<TAB>1.2.3.4` and `foo<TAB>bar`: line 2 is its first malformed line,
it has a tab and the text after it is no address, and `makeHandler` panics at
line 1, in the call of `Handle` with the empty name, so that it returns no
error. -/
theorem makeHandler_invalid_address_counterexample :
    (ParseIP (List.replicate 5000 'a') = none ∧
     makeHandler ParseIP (fileOf ("x\t".toList ++ List.replicate 5000 'a')) "f".toList 300 =
       some (none, some (GoError.Errorf "f:1 line too long".toList)) ∧
     makeHandler ParseIP (fileOf ("x\t".toList ++ List.replicate 5000 'a')) "f".toList 300 ≠
       some (none, some (GoError.Errorf "f:1 invalid IP address format".toList))) ∧
    (Reader.lines { data := "\t1.2.3.4\nfoo\tbar\n".toList, err := none } =
       [("\t1.2.3.4".toList, false), ("foo\tbar".toList, false)] ∧
     wellFormed ParseIP ("\t1.2.3.4".toList, false) ∧ ParseIP "bar".toList = none ∧
     makeHandler ParseIP (fileOf "\t1.2.3.4\nfoo\tbar\n".toList) "f".toList 300 = none ∧
     makeHandler ParseIP (fileOf "\t1.2.3.4\nfoo\tbar\n".toList) "f".toList 300 ≠
       some (none, some (GoError.Errorf "f:2 invalid IP address format".toList))) := by
  have h : makeHandler ParseIP (fileOf ("x\t".toList ++ List.replicate 5000 'a'))
        "f".toList 300 =
      some (none, some (GoError.Errorf "f:1 line too long".toList)) :=
    (makeHandler_of_replicate ParseIP "f".toList 300 "x\t".toList 5000 (by decide)
      (by decide)).trans (by decide)
  refine ⟨⟨ParseIP_replicate 5000, h, ?_⟩, ?_⟩
  · rw [h]
    decide
  · decide

/-- The function `makeHandler` returns a table or an error, never both and
never neither. -/
theorem makeHandler_result (P : GoString → Option IP) (Open : GoString → Except IOError Reader)
    (fileName : GoString) (ttl : Nat) (r : Option ServeMux × Option GoError)
    (h : makeHandler P Open fileName ttl = some r) :
    (r.1 = none ∧ r.2 ≠ none) ∨ (r.1 ≠ none ∧ r.2 = none) := by
  cases ho : Open fileName with
  | error err =>
    simp only [makeHandler, ho, Option.some.injEq] at h
    subst h; simp
  | ok rdr =>
    rw [makeHandler_of_open P Open fileName ttl rdr ho] at h
    exact makeHandlerLoop_result P fileName ttl _ 0 rdr _ r h

/-- C6: whenever `makeHandler` returns an error the table it returns is nil,
whatever the kind of the error and the line at which it occurs; in `main`, an
error of `makeHandler` is reported and followed by `os.Exit(1)`, with no call
of `makeServers` and no listener started.  And `makeHandler` does return on
every file but those on which it panics in the call of `Handle`: the files
with a line that is well-formed and starts with a tab after lines that are
accepted. -/
theorem makeHandler_error_no_table (P : GoString → Option IP)
    (Open : GoString → Except IOError Reader) (fileName : GoString) (ttl : Nat)
    (tpsString : GoString) (ttlFlag : Int) :
    (makeHandler P Open fileName ttl = none ↔
      ∃ rdr pre l post, Open fileName = Except.ok rdr ∧ rdr.lines = pre ++ (l, false) :: post ∧
        (∀ x ∈ pre, accepted P x) ∧ wellFormed P (l, false) ∧ l.head? = some '\t') ∧
    (∀ mux err, makeHandler P Open fileName ttl = some (mux, some err) → mux = none) ∧
    (∀ e, Open fileName = Except.error e →
      makeHandler P Open fileName ttl = some (none, some (GoError.io e))) ∧
    (∀ mux err, makeHandler P Open fileName (uint32 ttlFlag) = some (mux, some err) →
      main P Open tpsString ttlFlag [fileName] = some [Step.Report err, Step.Exit 1] ∧
      ∀ s ∈ [Step.Report err, Step.Exit 1],
        (∀ x, s ≠ Step.MakeServers x) ∧ (∀ i srv, s ≠ Step.Go i srv)) := by
  refine ⟨makeHandler_eq_none_iff P Open fileName ttl, ?_, ?_, ?_⟩
  · intro mux err h
    rcases makeHandler_result P Open fileName ttl _ h with ⟨h1, -⟩ | ⟨-, h2⟩
    · exact h1
    · simp at h2
  · intro e he; simp only [makeHandler, he]
  · intro mux err h
    refine ⟨by simp only [main, h], ?_⟩
    intro s hs
    simp only [List.mem_cons, List.mem_singleton, List.not_mem_nil, or_false] at hs
    rcases hs with rfl | rfl <;> simp

/-- Witness of C6: a file whose third line has no tab, after two valid
lines, a file that cannot be opened, and a file whose second line starts with
a tab, on which `makeHandler` panics. -/
theorem makeHandler_error_no_table_witness :
    (makeHandler ParseIP (fileOf "x\t1.1.1.1\ny\t::1\nz 2.2.2.2\n".toList) "zone.txt".toList
        (uint32 300) =
      some (none, some (GoError.Errorf "zone.txt:3 invalid record".toList)) ∧
     main ParseIP (fileOf "x\t1.1.1.1\ny\t::1\nz 2.2.2.2\n".toList) "udp:127.0.0.1:8053".toList
        300 ["zone.txt".toList] =
      some [Step.Report (GoError.Errorf "zone.txt:3 invalid record".toList), Step.Exit 1]) ∧
    makeHandler ParseIP (fun _ => Except.error ⟨"*os.PathError".toList, "open".toList⟩)
        "zone.txt".toList 300 =
      some (none, some (GoError.io ⟨"*os.PathError".toList, "open".toList⟩)) ∧
    makeHandler ParseIP (fileOf "x\t1.1.1.1\n\t1.2.3.4\nz 2.2.2.2\n".toList) "zone.txt".toList
        300 = none :=
  ⟨⟨by decide,
    ((makeHandler_error_no_table ParseIP (fileOf "x\t1.1.1.1\ny\t::1\nz 2.2.2.2\n".toList)
      "zone.txt".toList 300 "udp:127.0.0.1:8053".toList 300).2.2.2 none
      (GoError.Errorf "zone.txt:3 invalid record".toList) (by decide)).1⟩,
   (makeHandler_error_no_table ParseIP
      (fun _ => Except.error ⟨"*os.PathError".toList, "open".toList⟩)
      "zone.txt".toList 300 [] 0).2.2.1 ⟨"*os.PathError".toList, "open".toList⟩ rfl,
   (makeHandler_error_no_table ParseIP (fileOf "x\t1.1.1.1\n\t1.2.3.4\nz 2.2.2.2\n".toList)
      "zone.txt".toList 300 [] 0).1.mpr
      ⟨{ data := "x\t1.1.1.1\n\t1.2.3.4\nz 2.2.2.2\n".toList, err := none },
       [("x\t1.1.1.1".toList, false)], "\t1.2.3.4".toList, [("z 2.2.2.2".toList, false)],
       rfl, by decide, by decide, by decide, by decide⟩⟩


/-! ### Lemmas on the transport specification parser -/

/-- The value of a key after an assignment. -/
theorem mapIndex_mapAssign {κ ν : Type} [DecidableEq κ] (m : List (κ × ν)) (k k1 : κ) (v : ν) :
    mapIndex (mapAssign m k v) k1 = if k1 = k then some v else mapIndex m k1 := by
  induction m with
  | nil =>
    by_cases h : k1 = k
    · simp [mapAssign, mapIndex, h]
    · simp [mapAssign, mapIndex, h, Ne.symm h]
  | cons e m ih =>
    obtain ⟨k2, v2⟩ := e
    by_cases h2 : k2 = k
    · subst h2
      by_cases h : k1 = k2
      · simp [mapAssign, mapIndex, h]
      · simp [mapAssign, mapIndex, h, Ne.symm h]
    · by_cases h : k1 = k
      · subst h
        simp [mapAssign, mapIndex, h2, ih]
      · by_cases h3 : k2 = k1
        · simp [mapAssign, mapIndex, h2, h, h3]
        · simp [mapAssign, mapIndex, h2, h, h3, ih]

/-- The keys of a map after an assignment. -/
theorem keys_mapAssign {κ ν : Type} [DecidableEq κ] (m : List (κ × ν)) (k : κ) (v : ν) :
    (mapAssign m k v).map Prod.fst =
      if k ∈ m.map Prod.fst then m.map Prod.fst else m.map Prod.fst ++ [k] := by
  induction m with
  | nil => simp [mapAssign]
  | cons e m ih =>
    obtain ⟨k2, v2⟩ := e
    by_cases h2 : k2 = k
    · simp [mapAssign, h2]
    · have h3 : ¬ k = k2 := fun e => h2 e.symm
      by_cases h : k ∈ m.map Prod.fst
      · simp only [mapAssign, h2, if_false, List.map_cons, ih, h, if_true, List.mem_cons,
          or_true]
      · simp only [mapAssign, h2, if_false, List.map_cons, ih, h, List.mem_cons, h3, or_self,
          List.cons_append]

/-- An assignment keeps the keys of a map distinct. -/
theorem nodup_keys_mapAssign {κ ν : Type} [DecidableEq κ] (m : List (κ × ν)) (k : κ) (v : ν)
    (h : (m.map Prod.fst).Nodup) : ((mapAssign m k v).map Prod.fst).Nodup := by
  rw [keys_mapAssign]
  by_cases hk : k ∈ m.map Prod.fst
  · simpa [hk] using h
  · simp only [hk, if_false]
    exact List.Nodup.append h (List.nodup_singleton _) (by simpa using hk)

/-- In a map with distinct keys, the entries are the values of the keys. -/
theorem mem_iff_mapIndex {κ ν : Type} [DecidableEq κ] (m : List (κ × ν)) (k : κ) (v : ν)
    (h : (m.map Prod.fst).Nodup) : (k, v) ∈ m ↔ mapIndex m k = some v := by
  constructor
  · intro hm
    induction m with
    | nil => simp at hm
    | cons e m ih =>
      obtain ⟨k2, v2⟩ := e
      simp only [List.map_cons, List.nodup_cons] at h
      rcases List.mem_cons.mp hm with he | he
      · cases he; simp [mapIndex]
      · have : k2 ≠ k := fun e => h.1 (e ▸ List.mem_map_of_mem Prod.fst he)
        simp [mapIndex, this, ih h.2 he]
  · exact mem_of_mapIndex m k v

/-- The keys of a map after a list of assignments are its keys and those
assigned to. -/
theorem mem_keys_assignAll {κ ν : Type} [DecidableEq κ] (es : List (κ × ν)) :
    ∀ (m : List (κ × ν)) (k : κ),
      k ∈ (assignAll m es).map Prod.fst ↔ k ∈ m.map Prod.fst ∨ k ∈ es.map Prod.fst := by
  induction es with
  | nil => intro m k; simp [assignAll]
  | cons e es ih =>
    intro m k
    have := ih (mapAssign m e.1 e.2) k
    simp only [assignAll, List.foldl_cons] at this ⊢
    rw [this, keys_mapAssign]
    by_cases he : e.1 ∈ m.map Prod.fst
    · simp only [he, if_true, List.map_cons, List.mem_cons]
      constructor
      · rintro (h | h)
        · exact Or.inl h
        · exact Or.inr (Or.inr h)
      · rintro (h | h | h)
        · exact Or.inl h
        · exact Or.inl (h ▸ he)
        · exact Or.inr h
    · simp only [he, if_false, List.mem_append, List.mem_singleton, List.map_cons,
        List.mem_cons, or_assoc, List.not_mem_nil, false_or]

/-- A list of assignments keeps the keys of a map distinct. -/
theorem nodup_keys_assignAll {κ ν : Type} [DecidableEq κ] (es : List (κ × ν)) :
    ∀ (m : List (κ × ν)), (m.map Prod.fst).Nodup → ((assignAll m es).map Prod.fst).Nodup := by
  induction es with
  | nil => intro m h; simpa [assignAll] using h
  | cons e es ih =>
    intro m h
    exact ih (mapAssign m e.1 e.2) (nodup_keys_mapAssign m e.1 e.2 h)

/-- Assignments to other keys leave the value of a key unchanged. -/
theorem mapIndex_assignAll_of_not_mem {κ ν : Type} [DecidableEq κ] (es : List (κ × ν)) (k : κ)
    (hk : k ∉ es.map Prod.fst) :
    ∀ (m : List (κ × ν)), mapIndex (assignAll m es) k = mapIndex m k := by
  induction es with
  | nil => intro m; rfl
  | cons e es ih =>
    intro m
    simp only [List.map_cons, List.mem_cons, not_or] at hk
    have := ih hk.2 (mapAssign m e.1 e.2)
    simp only [assignAll, List.foldl_cons] at this ⊢
    rw [this, mapIndex_mapAssign]
    simp [hk.1]

/-- The value of a key after a list of assignments is the one of the last
assignment to it. -/
theorem mapIndex_assignAll_last {κ ν : Type} [DecidableEq κ] (m pre post : List (κ × ν))
    (k : κ) (v : ν) (hk : k ∉ post.map Prod.fst) :
    mapIndex (assignAll m (pre ++ (k, v) :: post)) k = some v := by
  have h1 : assignAll m (pre ++ (k, v) :: post) =
      assignAll (mapAssign (assignAll m pre) k v) post := by
    simp [assignAll, List.foldl_append]
  rw [h1, mapIndex_assignAll_of_not_mem post k hk, mapIndex_mapAssign]
  simp

/-- The number of keys after a list of assignments to the empty map is the
number of distinct keys assigned to. -/
theorem length_assignAll {κ ν : Type} [DecidableEq κ] (es : List (κ × ν)) :
    (assignAll [] es).length = (es.map Prod.fst).dedup.length := by
  have hnd := nodup_keys_assignAll es [] (by simp)
  have hp : ((assignAll [] es).map Prod.fst).Perm (es.map Prod.fst).dedup := by
    rw [List.perm_ext_iff_of_nodup hnd (List.nodup_dedup _)]
    intro k
    rw [mem_keys_assignAll, List.mem_dedup]
    simp
  have := hp.length_eq
  simpa using this

/-- A token without a colon stands for itself as the protocol and for the
address `0.0.0.0`. -/
theorem tokenPair_of_no_colon (v : GoString) (h : ':' ∉ Trim v cutset) :
    tokenPair v = some (Trim v cutset, "0.0.0.0".toList) := by
  simp [tokenPair, SplitN_two_of_not_mem ':' _ h]

/-- A token with a colon stands for the part before its first colon as the
protocol and for all of the rest as the address. -/
theorem tokenPair_of_colon (v p r : GoString) (h : Trim v cutset = p ++ ':' :: r)
    (hp : ':' ∉ p) : tokenPair v = some (p, r) := by
  simp [tokenPair, h, SplitN_two_of_append ':' p r hp]

/-- Every token stands for a protocol and an address, and the protocol has
no colon. -/
theorem tokenPair_total (v : GoString) : ∃ p a, tokenPair v = some (p, a) ∧ ':' ∉ p := by
  rcases SplitN_two_cases ':' (Trim v cutset) with ⟨h, -⟩ | ⟨a, b, h1, h2, -⟩
  · exact ⟨_, _, tokenPair_of_no_colon v h, h⟩
  · exact ⟨a, b, tokenPair_of_colon v a b h1 h2, h2⟩

/-- The first loop of `makeServers` does not panic: it makes the assignments
that the tokens stand for, in order. -/
theorem tpsLoop_eq (ts : List GoString) :
    ∀ m, tpsLoop ts m = some (assignAll m (ts.filterMap tokenPair)) := by
  induction ts with
  | nil => intro m; rfl
  | cons v ts ih =>
    intro m
    obtain ⟨p, a, h, -⟩ := tokenPair_total v
    simp [tpsLoop, h, ih, assignAll, List.filterMap_cons]

/-- The second loop of `makeServers` makes one server of each entry. -/
theorem foldl_append_server {H : Type} (handler : H) (tps : List (GoString × GoString))
    (init : List (Server H)) :
    tps.foldl (fun servers e => servers ++ [{ Addr := e.2, Net := e.1, Handler := handler }])
        init
      = init ++ tps.map (fun e => { Addr := e.2, Net := e.1, Handler := handler }) := by
  induction tps generalizing init with
  | nil => simp
  | cons e tps ih => simp [List.foldl_cons, ih]

/-- The function `makeServers` returns a server for each entry of the map of
the assignments that the tokens stand for, and no error. -/
theorem makeServers_eq {H : Type} (tpsString : GoString) (handler : H) :
    makeServers tpsString handler =
      some ((assignAll [] (tokenPairs tpsString)).map
        (fun e => { Addr := e.2, Net := e.1, Handler := handler }), none) := by
  simp only [makeServers, tpsLoop_eq, foldl_append_server, List.nil_append, tokenPairs]

/-- The function `SplitN` returns a piece at least when it may return one. -/
theorem SplitN_succ_ne_nil (s : GoString) (sep : Char) (n : Nat) : SplitN s sep (n + 1) ≠ [] := by
  cases n with
  | zero => simp [SplitN]
  | succ n =>
    rcases hsp : s.span (fun c => c != sep) with ⟨a, rest⟩
    cases rest with
    | nil => simp only [SplitN, hsp]; simp
    | cons c rest => simp only [SplitN, hsp]; simp

/-- A transport specification has a token at least. -/
theorem tokens_ne_nil (tpsString : GoString) : tokens tpsString ≠ [] :=
  SplitN_succ_ne_nil _ _ _

/-- The associations of a list of tokens that is split at a token. -/
theorem filterMap_tokenPair_split (pre post : List GoString) (v p addr : GoString)
    (hv : tokenPair v = some (p, addr)) :
    (pre ++ v :: post).filterMap tokenPair =
      pre.filterMap tokenPair ++ (p, addr) :: post.filterMap tokenPair := by
  simp [List.filterMap_append, List.filterMap_cons, hv]

/-- A protocol that no token of a list stands for is no key of its
associations. -/
theorem not_mem_keys_of_tokens (post : List GoString) (p : GoString)
    (h : ∀ u ∈ post, ∀ a, tokenPair u ≠ some (p, a)) :
    p ∉ (post.filterMap tokenPair).map Prod.fst := by
  intro hm
  simp only [List.mem_map, List.mem_filterMap] at hm
  obtain ⟨⟨p1, a⟩, ⟨u, hu, hua⟩, rfl⟩ := hm
  exact h u hu a hua

/-- The endpoint of the last token of a protocol: the map of `makeServers`
holds the association of that token. -/
theorem mem_assignAll_of_last (tpsString : GoString) (pre post : List GoString)
    (v p addr : GoString) (ht : tokens tpsString = pre ++ v :: post)
    (hv : tokenPair v = some (p, addr)) (hlast : ∀ u ∈ post, ∀ a, tokenPair u ≠ some (p, a)) :
    mapIndex (assignAll [] (tokenPairs tpsString)) p = some addr := by
  rw [tokenPairs, ht, filterMap_tokenPair_split pre post v p addr hv]
  exact mapIndex_assignAll_last [] _ _ p addr (not_mem_keys_of_tokens post p hlast)

/-- The servers that `makeServers` returns, in any order: their protocols are
distinct, and each comes from an entry of the map of the assignments. -/
theorem servers_perm {H : Type} (handler : H) (tps : List (GoString × GoString))
    (hnd : (tps.map Prod.fst).Nodup) (l : List (Server H))
    (hl : l.Perm (tps.map (fun e => { Addr := e.2, Net := e.1, Handler := handler }))) :
    (l.map Server.Net).Nodup ∧ l.length = tps.length ∧
    ∀ srv, srv ∈ l ↔ srv.Handler = handler ∧ mapIndex tps srv.Net = some srv.Addr := by
  refine ⟨?_, ?_, ?_⟩
  · have := (hl.map Server.Net).nodup_iff
    rw [this, List.map_map]
    exact hnd
  · simpa using hl.length_eq
  · intro srv
    rw [hl.mem_iff, ← mem_iff_mapIndex tps _ _ hnd]
    simp only [List.mem_map]
    constructor
    · rintro ⟨e, he, rfl⟩
      exact ⟨rfl, he⟩
    · rintro ⟨h1, h2⟩
      exact ⟨(srv.Net, srv.Addr), h2, by cases srv; simp at h1; simp [h1]⟩

/-- Every token has an association. -/
theorem tokenPairs_length (tpsString : GoString) :
    (tokenPairs tpsString).length = (tokens tpsString).length := by
  unfold tokenPairs
  generalize tokens tpsString = ts
  induction ts with
  | nil => rfl
  | cons v ts ih =>
    obtain ⟨p, a, h, -⟩ := tokenPair_total v
    simp [List.filterMap_cons, h, ih]

/-- The protocols of the map of `makeServers` have no colon. -/
theorem no_colon_of_mapIndex (tpsString p addr : GoString)
    (h : mapIndex (assignAll [] (tokenPairs tpsString)) p = some addr) : ':' ∉ p := by
  have hm : p ∈ (assignAll [] (tokenPairs tpsString)).map Prod.fst :=
    List.mem_map_of_mem Prod.fst (mem_of_mapIndex _ _ _ h)
  rw [mem_keys_assignAll] at hm
  simp only [List.map_nil, List.not_mem_nil, false_or, tokenPairs, List.mem_map,
    List.mem_filterMap] at hm
  obtain ⟨⟨p1, a⟩, ⟨u, -, hua⟩, rfl⟩ := hm
  obtain ⟨p2, a2, h2, hp2⟩ := tokenPair_total u
  rw [hua] at h2
  cases h2
  exact hp2

/-! ### The transport specification parser -/

/-- C7: `makeServers` returns a list of endpoints and, in whatever order the
map is ranged over, no two endpoints have the same protocol, there are as
many endpoints as the tokens have distinct protocols, and the endpoint of a
protocol has the address of the last token of that protocol. -/
theorem makeServers_one_per_protocol {H : Type} (tpsString : GoString) (handler : H) :
    ∃ servers, makeServers tpsString handler = some (servers, none) ∧
      ∀ l : List (Server H), l.Perm servers →
        (l.map Server.Net).Nodup ∧
        (tokenPairs tpsString).length = (tokens tpsString).length ∧
        l.length = ((tokenPairs tpsString).map Prod.fst).dedup.length ∧
        ∀ (pre : List GoString) (v : GoString) (post : List GoString) (p addr : GoString),
          tokens tpsString = pre ++ v :: post → tokenPair v = some (p, addr) →
          (∀ u ∈ post, ∀ a, tokenPair u ≠ some (p, a)) →
          { Addr := addr, Net := p, Handler := handler } ∈ l ∧
          ∀ srv ∈ l, srv.Net = p → srv.Addr = addr := by
  refine ⟨_, makeServers_eq tpsString handler, ?_⟩
  intro l hl
  have hnd := nodup_keys_assignAll (tokenPairs tpsString) [] (by simp)
  obtain ⟨h1, h2, h3⟩ := servers_perm handler _ hnd l hl
  refine ⟨h1, tokenPairs_length tpsString, by rw [h2, length_assignAll], ?_⟩
  intro pre v post p addr ht hv hlast
  have hi := mem_assignAll_of_last tpsString pre post v p addr ht hv hlast
  refine ⟨(h3 _).mpr ⟨rfl, hi⟩, ?_⟩
  intro srv hsrv hp
  have := ((h3 srv).mp hsrv).2
  rw [hp, hi] at this
  exact (Option.some.inj this).symm

/-- Witness of C7: the specification `udp:1.2.3.4:53,udp:5.6.7.8:53` gives
one endpoint, udp at `5.6.7.8:53`. -/
theorem makeServers_one_per_protocol_witness :
    makeServers "udp:1.2.3.4:53,udp:5.6.7.8:53".toList () =
      some ([{ Addr := "5.6.7.8:53".toList, Net := "udp".toList, Handler := () }], none) ∧
    ∃ servers, makeServers "udp:1.2.3.4:53,udp:5.6.7.8:53".toList () = some (servers, none) ∧
      servers.length = 1 ∧
      { Addr := "5.6.7.8:53".toList, Net := "udp".toList, Handler := () } ∈ servers ∧
      ∀ srv ∈ servers, srv.Net = "udp".toList → srv.Addr = "5.6.7.8:53".toList := by
  obtain ⟨servers, hs, h⟩ :=
    makeServers_one_per_protocol "udp:1.2.3.4:53,udp:5.6.7.8:53".toList ()
  obtain ⟨-, -, h2, h3⟩ := h servers (List.Perm.refl _)
  have h4 := h3 ["udp:1.2.3.4:53".toList] "udp:5.6.7.8:53".toList [] "udp".toList
    "5.6.7.8:53".toList (by decide) (by decide) (by simp)
  exact ⟨by decide, servers, hs, h2.trans (by decide), h4.1, h4.2⟩

/-- C8: a token that, once trimmed, has no colon stands for itself as the
protocol and for the address `0.0.0.0`; when no later token has the same
protocol, the endpoint of that protocol is bound to `0.0.0.0`. -/
theorem makeServers_default_address {H : Type} (tpsString : GoString) (handler : H)
    (pre : List GoString) (v : GoString) (post : List GoString)
    (ht : tokens tpsString = pre ++ v :: post) (hc : ':' ∉ Trim v cutset) :
    tokenPair v = some (Trim v cutset, "0.0.0.0".toList) ∧
    ((∀ u ∈ post, ∀ a, tokenPair u ≠ some (Trim v cutset, a)) →
      ∃ servers, makeServers tpsString handler = some (servers, none) ∧
        ∀ l : List (Server H), l.Perm servers →
          { Addr := "0.0.0.0".toList, Net := Trim v cutset, Handler := handler } ∈ l ∧
          ∀ srv ∈ l, srv.Net = Trim v cutset → srv.Addr = "0.0.0.0".toList) := by
  have hv := tokenPair_of_no_colon v hc
  refine ⟨hv, ?_⟩
  intro hlast
  refine ⟨_, makeServers_eq tpsString handler, ?_⟩
  intro l hl
  have hnd := nodup_keys_assignAll (tokenPairs tpsString) [] (by simp)
  obtain ⟨-, -, h3⟩ := servers_perm handler _ hnd l hl
  have hi := mem_assignAll_of_last tpsString pre post v _ _ ht hv hlast
  refine ⟨(h3 _).mpr ⟨rfl, hi⟩, ?_⟩
  intro srv hsrv hp
  have := ((h3 srv).mp hsrv).2
  rw [hp, hi] at this
  exact (Option.some.inj this).symm

/-- Witness of C8: the specification `udp` gives one endpoint, udp at
`0.0.0.0`. -/
theorem makeServers_default_address_witness :
    makeServers "udp".toList () =
      some ([{ Addr := "0.0.0.0".toList, Net := "udp".toList, Handler := () }], none) ∧
    tokenPair "udp".toList = some ("udp".toList, "0.0.0.0".toList) ∧
    ∃ servers, makeServers "udp".toList () = some (servers, none) ∧
      { Addr := "0.0.0.0".toList, Net := "udp".toList, Handler := () } ∈ servers := by
  obtain ⟨h1, h2⟩ := makeServers_default_address "udp".toList () [] "udp".toList []
    (by decide) (by decide)
  obtain ⟨servers, hs, h⟩ := h2 (by simp)
  exact ⟨by decide, h1.trans (by decide), servers, hs,
    (by decide : Trim "udp".toList cutset = "udp".toList) ▸ (h servers (List.Perm.refl _)).1⟩

/-- C9: a token that, once trimmed, is `p`, a colon and `r`, where `p` has
no colon, stands for the protocol `p` and the address `r`, whatever colons
`r` has; when no later token has the same protocol, the endpoint of `p` is
bound to `r`; and the protocol of an endpoint never has a colon. -/
theorem makeServers_first_colon {H : Type} (tpsString : GoString) (handler : H)
    (pre : List GoString) (v : GoString) (post : List GoString) (p r : GoString)
    (ht : tokens tpsString = pre ++ v :: post)
    (hv : Trim v cutset = p ++ ':' :: r) (hp : ':' ∉ p) :
    tokenPair v = some (p, r) ∧
    ∃ servers, makeServers tpsString handler = some (servers, none) ∧
      ∀ l : List (Server H), l.Perm servers →
        (∀ srv ∈ l, ':' ∉ srv.Net) ∧
        ((∀ u ∈ post, ∀ a, tokenPair u ≠ some (p, a)) →
          { Addr := r, Net := p, Handler := handler } ∈ l ∧
          ∀ srv ∈ l, srv.Net = p → srv.Addr = r) := by
  have hv2 := tokenPair_of_colon v p r hv hp
  refine ⟨hv2, _, makeServers_eq tpsString handler, ?_⟩
  intro l hl
  have hnd := nodup_keys_assignAll (tokenPairs tpsString) [] (by simp)
  obtain ⟨-, -, h3⟩ := servers_perm handler _ hnd l hl
  refine ⟨?_, ?_⟩
  · intro srv hsrv
    exact no_colon_of_mapIndex tpsString _ _ ((h3 srv).mp hsrv).2
  · intro hlast
    have hi := mem_assignAll_of_last tpsString pre post v p r ht hv2 hlast
    refine ⟨(h3 _).mpr ⟨rfl, hi⟩, ?_⟩
    intro srv hsrv hp
    have := ((h3 srv).mp hsrv).2
    rw [hp, hi] at this
    exact (Option.some.inj this).symm

/-- Witness of C9: the tokens `udp:127.0.0.1:8053` and `tcp6:[::1]:53`. -/
theorem makeServers_first_colon_witness :
    makeServers "udp:127.0.0.1:8053,tcp6:[::1]:53".toList () =
      some ([{ Addr := "127.0.0.1:8053".toList, Net := "udp".toList, Handler := () },
             { Addr := "[::1]:53".toList, Net := "tcp6".toList, Handler := () }], none) ∧
    tokenPair "udp:127.0.0.1:8053".toList = some ("udp".toList, "127.0.0.1:8053".toList) ∧
    tokenPair "tcp6:[::1]:53".toList = some ("tcp6".toList, "[::1]:53".toList) :=
  ⟨by decide,
   (makeServers_first_colon "udp:127.0.0.1:8053,tcp6:[::1]:53".toList () []
      "udp:127.0.0.1:8053".toList ["tcp6:[::1]:53".toList] "udp".toList
      "127.0.0.1:8053".toList (by decide) (by decide) (by decide)).1,
   (makeServers_first_colon "udp:127.0.0.1:8053,tcp6:[::1]:53".toList ()
      ["udp:127.0.0.1:8053".toList] "tcp6:[::1]:53".toList [] "tcp6".toList
      "[::1]:53".toList (by decide) (by decide) (by decide)).1⟩

/-- C10: `makeServers` does not panic and returns no error, whatever its
argument; the list it returns is not empty and has an endpoint for every
token, and the empty string gives the one endpoint of the empty protocol at
`0.0.0.0`. -/
theorem makeServers_no_failure {H : Type} (tpsString : GoString) (handler : H) :
    (∃ servers, makeServers tpsString handler = some (servers, none) ∧ servers ≠ [] ∧
      ∀ v ∈ tokens tpsString, ∃ p a, tokenPair v = some (p, a) ∧
        ∃ srv ∈ servers, srv.Net = p) ∧
    makeServers [] handler =
      some ([{ Addr := "0.0.0.0".toList, Net := [], Handler := handler }], none) := by
  refine ⟨⟨_, makeServers_eq tpsString handler, ?_, ?_⟩, ?_⟩
  · have h1 : (tokenPairs tpsString).map Prod.fst ≠ [] := by
      intro h
      have h2 := tokenPairs_length tpsString
      rw [List.map_eq_nil_iff] at h
      rw [h] at h2
      exact tokens_ne_nil tpsString (List.length_eq_zero.mp h2.symm)
    obtain ⟨k, hk⟩ := List.exists_mem_of_ne_nil _ h1
    have hk2 : k ∈ (assignAll [] (tokenPairs tpsString)).map Prod.fst :=
      (mem_keys_assignAll _ [] k).mpr (Or.inr hk)
    intro h
    rw [List.map_eq_nil_iff] at h
    rw [h] at hk2
    simp at hk2
  · intro v hv
    obtain ⟨p, a, h, -⟩ := tokenPair_total v
    refine ⟨p, a, h, ?_⟩
    have hk : p ∈ (assignAll [] (tokenPairs tpsString)).map Prod.fst := by
      rw [mem_keys_assignAll]
      right
      simp only [tokenPairs, List.mem_map, List.mem_filterMap]
      exact ⟨(p, a), ⟨v, hv, h⟩, rfl⟩
    obtain ⟨e, he, rfl⟩ := List.mem_map.mp hk
    exact ⟨_, List.mem_map_of_mem _ he, rfl⟩
  · rw [makeServers_eq]
    rfl

/-- Witness of C10: the specification `,:x,` of three tokens, two of them
empty and one without a protocol. -/
theorem makeServers_no_failure_witness :
    makeServers ",:x,".toList () =
      some ([{ Addr := "0.0.0.0".toList, Net := [], Handler := () }], none) ∧
    makeServers [] () = some ([{ Addr := "0.0.0.0".toList, Net := [], Handler := () }], none) :=
  ⟨by decide, (makeServers_no_failure [] ()).2⟩


/-! ### The query responder and the question list -/

/-- C16: two requests with the same first question get the same outcome from
`ServeDNS`, whatever their further questions: both get the failure response,
or both get a reply, and the two replies have the same answer section, the
same code and the same question; when the requests also have the same id,
the two replies are equal. -/
theorem ServeDNS_first_question_only (h : SimpleARecordHandler) (req1 req2 : Msg)
    (q0 : Question) (qs1 qs2 : List Question)
    (h1 : req1.Question = q0 :: qs1) (h2 : req2.Question = q0 :: qs2) :
    (ServeDNS h req1 = some [WriterCall.HandleFailed req1] ∧
      ServeDNS h req2 = some [WriterCall.HandleFailed req2]) ∨
    ∃ resp1 resp2, ServeDNS h req1 = some [WriterCall.WriteMsg resp1] ∧
      ServeDNS h req2 = some [WriterCall.WriteMsg resp2] ∧
      resp1.Answer = resp2.Answer ∧ resp1.Rcode = resp2.Rcode ∧
      resp1.Question = resp2.Question ∧ (req1.Id = req2.Id → resp1 = resp2) := by
  by_cases hA : q0.Qtype = TypeA ∧ h.V4Addrs ≠ []
  · right
    refine ⟨_, _, ServeDNS_typeA h req1 q0 qs1 h1 hA.1 hA.2,
      ServeDNS_typeA h req2 q0 qs2 h2 hA.1 hA.2, rfl, rfl, ?_, ?_⟩
    · simp [SetReply, h1, h2]
    · intro hid; simp [SetReply, h1, h2, hid]
  · by_cases hB : q0.Qtype = TypeAAAA ∧ h.V6Addrs ≠ []
    · right
      refine ⟨_, _, ServeDNS_typeAAAA h req1 q0 qs1 h1 hB.1 hB.2,
        ServeDNS_typeAAAA h req2 q0 qs2 h2 hB.1 hB.2, rfl, rfl, ?_, ?_⟩
      · simp [SetReply, h1, h2]
      · intro hid; simp [SetReply, h1, h2, hid]
    · left
      exact ⟨ServeDNS_otherwise h req1 q0 qs1 h1 hA hB, ServeDNS_otherwise h req2 q0 qs2 h2 hA hB⟩

/-- Witness of C16: a question of type A for `a.example.`, alone and followed
by a question of type AAAA for another name. -/
theorem ServeDNS_first_question_only_witness :
    ServeDNS ⟨"a.example.".toList, 300, [[1, 2, 3, 4]], [[9]]⟩
        { Id := 7, Question := [⟨"a.example.".toList, TypeA, ClassINET⟩] } =
      ServeDNS ⟨"a.example.".toList, 300, [[1, 2, 3, 4]], [[9]]⟩
        { Id := 7, Question := [⟨"a.example.".toList, TypeA, ClassINET⟩,
                                ⟨"b.example.".toList, TypeAAAA, ClassINET⟩] } := by
  rcases ServeDNS_first_question_only ⟨"a.example.".toList, 300, [[1, 2, 3, 4]], [[9]]⟩
      { Id := 7, Question := [⟨"a.example.".toList, TypeA, ClassINET⟩] }
      { Id := 7, Question := [⟨"a.example.".toList, TypeA, ClassINET⟩,
                              ⟨"b.example.".toList, TypeAAAA, ClassINET⟩] }
      ⟨"a.example.".toList, TypeA, ClassINET⟩ [] [⟨"b.example.".toList, TypeAAAA, ClassINET⟩]
      rfl rfl with ⟨hf, -⟩ | ⟨resp1, resp2, hr1, hr2, -, -, -, heq⟩
  · exact absurd hf (by decide)
  · rw [hr1, hr2, heq rfl]

/-- C19: `ServeDNS` indexes the question list without a check.  On a request
with a question the index is in range and exactly one call is made on the
writer, which is either `WriteMsg` or `HandleFailed`; on a request without
a question the index is out of range and no call is made. -/
theorem ServeDNS_question_index (h : SimpleARecordHandler) (req : Msg) :
    (req.Question ≠ [] →
      ∃ call, ServeDNS h req = some [call] ∧
        ((∃ resp, call = WriterCall.WriteMsg resp) ∨ call = WriterCall.HandleFailed req)) ∧
    (req.Question = [] → ServeDNS h req = none) := by
  constructor
  · intro hne
    obtain ⟨q0, qs, hq⟩ := List.exists_cons_of_ne_nil hne
    by_cases hA : q0.Qtype = TypeA ∧ h.V4Addrs ≠ []
    · exact ⟨_, ServeDNS_typeA h req q0 qs hq hA.1 hA.2, Or.inl ⟨_, rfl⟩⟩
    · by_cases hB : q0.Qtype = TypeAAAA ∧ h.V6Addrs ≠ []
      · exact ⟨_, ServeDNS_typeAAAA h req q0 qs hq hB.1 hB.2, Or.inl ⟨_, rfl⟩⟩
      · exact ⟨_, ServeDNS_otherwise h req q0 qs hq hA hB, Or.inr rfl⟩
  · intro h0
    simp [ServeDNS, h0]

/-- Witness of C19: a request without a question, and a request with a
question of type MX (15). -/
theorem ServeDNS_question_index_witness :
    ServeDNS ⟨"a.example.".toList, 300, [[1, 2, 3, 4]], []⟩ { Id := 7, Question := [] } = none ∧
    ∃ call, ServeDNS ⟨"a.example.".toList, 300, [[1, 2, 3, 4]], []⟩
        { Id := 7, Question := [⟨"a.example.".toList, 15, ClassINET⟩] } = some [call] ∧
      ((∃ resp, call = WriterCall.WriteMsg resp) ∨
        call = WriterCall.HandleFailed
          { Id := 7, Question := [⟨"a.example.".toList, 15, ClassINET⟩] }) :=
  ⟨(ServeDNS_question_index ⟨"a.example.".toList, 300, [[1, 2, 3, 4]], []⟩
      { Id := 7, Question := [] }).2 rfl,
   (ServeDNS_question_index ⟨"a.example.".toList, 300, [[1, 2, 3, 4]], []⟩
      { Id := 7, Question := [⟨"a.example.".toList, 15, ClassINET⟩] }).1 (by decide)⟩


/-! ### Lemmas on replies and on files without a malformed line -/

/-- The answer section of a message that `ServeDNS` writes: the records of
`V4Addrs` for a question of type A, those of `V6Addrs` for one of type AAAA. -/
theorem ServeDNS_answer (h : SimpleARecordHandler) (req : Msg) (calls : List WriterCall)
    (resp : Msg) (hs : ServeDNS h req = some calls) (hm : WriterCall.WriteMsg resp ∈ calls) :
    ∃ q0 qs, req.Question = q0 :: qs ∧
      ((q0.Qtype = TypeA ∧ h.V4Addrs ≠ [] ∧ resp.Answer = h.V4Addrs.map (fun addr =>
          RR.A { Name := q0.Name, Rrtype := TypeA, Class := ClassINET, Ttl := h.Ttl } addr)) ∨
       (q0.Qtype = TypeAAAA ∧ h.V6Addrs ≠ [] ∧ resp.Answer = h.V6Addrs.map (fun addr =>
          RR.AAAA { Name := q0.Name, Rrtype := TypeAAAA, Class := ClassINET, Ttl := h.Ttl }
            addr))) := by
  cases hq : req.Question with
  | nil => simp [ServeDNS, hq] at hs
  | cons q0 qs =>
    refine ⟨q0, qs, rfl, ?_⟩
    by_cases hA : q0.Qtype = TypeA ∧ h.V4Addrs ≠ []
    · rw [ServeDNS_typeA h req q0 qs hq hA.1 hA.2, Option.some.injEq] at hs
      subst hs
      simp only [List.mem_singleton, WriterCall.WriteMsg.injEq] at hm
      subst hm
      exact Or.inl ⟨hA.1, hA.2, rfl⟩
    · by_cases hB : q0.Qtype = TypeAAAA ∧ h.V6Addrs ≠ []
      · rw [ServeDNS_typeAAAA h req q0 qs hq hB.1 hB.2, Option.some.injEq] at hs
        subst hs
        simp only [List.mem_singleton, WriterCall.WriteMsg.injEq] at hm
        subst hm
        exact Or.inr ⟨hB.1, hB.2, rfl⟩
      · rw [ServeDNS_otherwise h req q0 qs hq hA hB, Option.some.injEq] at hs
        subst hs
        simp at hm

/-- A call of `ReadLine` leaves the end of the stream as it is, and the
error it returns, when it is not `io.EOF`, is the error of the stream. -/
theorem ReadLine_err (rdr rdr1 : Reader) (l : GoString) (pfx : Bool) (e : Option ReadError)
    (h : ReadLine rdr = (l, pfx, e, rdr1)) :
    rdr1.err = rdr.err ∧ ∀ x, e = some (ReadError.other x) → rdr.err = some x := by
  unfold ReadLine at h
  by_cases h0 : rdr.data = []
  · simp only [h0, if_true, Prod.mk.injEq] at h
    obtain ⟨-, -, he, hr⟩ := h
    subst hr
    refine ⟨rfl, ?_⟩
    intro x hx
    rw [← he] at hx
    cases hre : rdr.err with
    | none => simp [hre] at hx
    | some y => simp [hre] at hx; rw [hx]
  · simp only [h0, if_false] at h
    rcases hsp : (rdr.data.take defaultBufSize).span (fun c => c != '\n') with ⟨line, rest⟩
    rw [hsp] at h
    cases rest with
    | cons c rest =>
      simp only [Prod.mk.injEq] at h
      obtain ⟨-, -, he, hr⟩ := h
      subst hr; subst he
      exact ⟨rfl, fun x hx => by cases hx⟩
    | nil =>
      simp only at h
      by_cases hfull : defaultBufSize ≤ rdr.data.length
      · simp only [hfull, if_true] at h
        by_cases hcr : line.getLast? = some '\r'
        · simp only [hcr, if_true, Prod.mk.injEq] at h
          obtain ⟨-, -, he, hr⟩ := h
          subst hr; subst he
          exact ⟨rfl, fun x hx => by cases hx⟩
        · simp only [hcr, if_false, Prod.mk.injEq] at h
          obtain ⟨-, -, he, hr⟩ := h
          subst hr; subst he
          exact ⟨rfl, fun x hx => by cases hx⟩
      · simp only [hfull, if_false, Prod.mk.injEq] at h
        obtain ⟨-, -, he, hr⟩ := h
        subst hr; subst he
        exact ⟨rfl, fun x hx => by cases hx⟩

/-- On a file that ends without a read error and whose lines are all
well-formed, the loop of `makeHandler` returns the table of the records of
the lines, when no call of `Handle` panics. -/
theorem makeHandlerLoop_wellFormed (P : GoString → Option IP) (fileName : GoString)
    (ttl : Nat) :
    ∀ (fuel ln : Nat) (rdr : Reader) (t t1 : Tables), rdr.data.length < fuel →
      rdr.err = none → (∀ e ∈ readLines fuel rdr, wellFormed P e) →
      addRecords ttl t (records P (readLines fuel rdr)) = some t1 →
      makeHandlerLoop P fileName ttl fuel ln rdr t = some (some t1.mux, none) := by
  intro fuel
  induction fuel with
  | zero => intro ln rdr t t1 h; omega
  | succ fuel ih =>
    intro ln rdr t t1 hlen herr hw hadd
    rcases hr : ReadLine rdr with ⟨l, pfx, err, rdr1⟩
    obtain ⟨he1, he2⟩ := ReadLine_err rdr rdr1 l pfx err hr
    cases err with
    | some err =>
      cases err with
      | EOF =>
        simp only [readLines, hr, records, List.filterMap_nil, addRecords,
          Option.some.injEq] at hadd
        simp [makeHandlerLoop, hr, hadd]
      | other x =>
        have := he2 x rfl
        rw [herr] at this
        cases this
    | none =>
      have hp := ReadLine_progress rdr rdr1 l pfx hr
      have hmem : (l, pfx) ∈ readLines (fuel + 1) rdr := by simp [readLines, hr]
      have hwl := hw _ hmem
      rw [wellFormed_iff] at hwl
      obtain ⟨rfl, name, addrText, ip, hs, hpa, hrec⟩ := hwl
      have hw2 : ∀ e ∈ readLines fuel rdr1, wellFormed P e := by
        intro e he
        apply hw
        simp [readLines, hr, he]
      simp only [readLines, hr] at hadd
      rw [records_cons P l false _ (name, ip) hrec] at hadd
      cases ha : addRecord ttl t name ip with
      | none => simp [addRecords, ha] at hadd
      | some t2 =>
        simp only [addRecords, ha] at hadd
        have := ih (ln + 1) rdr1 t2 t1 (by omega) (he1.trans herr) hw2 hadd
        simp only [makeHandlerLoop, hr, hs, hpa, ha]
        simp only [Bool.false_eq_true, if_false]
        rw [this]

/-- On a file that opens, ends without a read error and has accepted lines
only, `makeHandler` returns the table that registers each name once, in the
order of first occurrence, with the RecordSet of its records. -/
theorem makeHandler_of_accepted (P : GoString → Option IP)
    (Open : GoString → Except IOError Reader) (fileName : GoString) (ttl : Nat) (rdr : Reader)
    (ho : Open fileName = Except.ok rdr) (herr : rdr.err = none)
    (hw : ∀ e ∈ rdr.lines, accepted P e) :
    makeHandler P Open fileName ttl =
      some (some { z := (firstNames (records P rdr.lines)).map
                          (fun n => (n, recordSet ttl (records P rdr.lines) n)) }, none) := by
  rw [makeHandler_of_open P Open fileName ttl rdr ho,
    makeHandlerLoop_wellFormed P fileName ttl _ 0 rdr _ _ (Nat.lt_succ_self _) herr
      (fun e he => (hw e he).1) (addRecords_of_ne_nil ttl _ _ (records_ne_nil P _ hw)),
    mux_foldl]
  rfl

/-- The records of a name split into those with and those without a 4-byte
form. -/
theorem v4Of_length_add_v6Of_length (recs : List (GoString × IP)) (n : GoString) :
    (v4Of recs n).length + (v6Of recs n).length = (recs.filter (fun r => r.1 = n)).length := by
  simp only [v4Of, v6Of, List.length_map, ne_eq]
  induction recs with
  | nil => rfl
  | cons r recs ih =>
    simp only [List.filter_cons]
    by_cases hn : r.1 = n
    · by_cases h4 : To4 r.2 = none
      · simp only [hn, h4, ne_eq, not_true_eq_false, and_false, and_self, decide_True,
          decide_False, if_true, if_false, List.length_cons, Bool.false_eq_true]
        omega
      · simp only [hn, h4, ne_eq, not_false_eq_true, and_false, and_self, decide_True,
          decide_False, if_true, if_false, List.length_cons, Bool.false_eq_true]
        omega
    · simp only [hn, false_and, decide_False, if_false, Bool.false_eq_true]
      exact ih


/-! ### The table that the record store builder returns -/

/-- C12: when `makeHandler(file, t)` succeeds, every RecordSet of the table
has `Ttl = t`, and every record of every message that such a RecordSet makes
`ServeDNS` write has the TTL `t`. -/
theorem makeHandler_ttl (P : GoString → Option IP) (Open : GoString → Except IOError Reader)
    (fileName : GoString) (t : Nat) (mux : ServeMux)
    (hs : makeHandler P Open fileName t = some (some mux, none)) :
    ∀ e ∈ mux.z, e.2.Ttl = t ∧
      ∀ req calls resp, ServeDNS e.2 req = some calls → WriterCall.WriteMsg resp ∈ calls →
        ∀ rr ∈ resp.Answer, rr.Header.Ttl = t := by
  obtain ⟨rdr, -, -, hm⟩ := makeHandler_success P Open fileName t mux hs
  intro e he
  rw [hm] at he
  simp only [List.mem_map] at he
  obtain ⟨n, -, rfl⟩ := he
  refine ⟨rfl, ?_⟩
  intro req calls resp hc hw rr hrr
  obtain ⟨q0, qs, -, h | h⟩ := ServeDNS_answer _ req calls resp hc hw
  · rw [h.2.2] at hrr
    simp only [List.mem_map] at hrr
    obtain ⟨addr, -, rfl⟩ := hrr
    rfl
  · rw [h.2.2] at hrr
    simp only [List.mem_map] at hrr
    obtain ⟨addr, -, rfl⟩ := hrr
    rfl

/-- Witness of C12: the file of the one line `a.example.<TAB>1.2.3.4`, the
TTL 300 and a question of type A for `a.example.`. -/
theorem makeHandler_ttl_witness :
    makeHandler ParseIP (fileOf "a.example.\t1.2.3.4\n".toList) "f".toList 300 =
      some (some { z := [("a.example.".toList,
        ⟨"a.example.".toList, 300, [IPv4 1 2 3 4], []⟩)] }, none) ∧
    ServeDNS ⟨"a.example.".toList, 300, [IPv4 1 2 3 4], []⟩
        { Id := 1, Question := [⟨"a.example.".toList, TypeA, ClassINET⟩] } =
      some [WriterCall.WriteMsg
        { Id := 1, Response := true, Rcode := RcodeSuccess,
          Question := [⟨"a.example.".toList, TypeA, ClassINET⟩],
          Answer := [RR.A ⟨"a.example.".toList, TypeA, ClassINET, 300, 0⟩ (IPv4 1 2 3 4)] }] ∧
    (RR.A ⟨"a.example.".toList, TypeA, ClassINET, 300, 0⟩ (IPv4 1 2 3 4)).Header.Ttl = 300 := by
  have hs : makeHandler ParseIP (fileOf "a.example.\t1.2.3.4\n".toList) "f".toList 300 =
      some (some { z := [("a.example.".toList,
        ⟨"a.example.".toList, 300, [IPv4 1 2 3 4], []⟩)] }, none) := by decide
  have hq : ServeDNS ⟨"a.example.".toList, 300, [IPv4 1 2 3 4], []⟩
        { Id := 1, Question := [⟨"a.example.".toList, TypeA, ClassINET⟩] } =
      some [WriterCall.WriteMsg
        { Id := 1, Response := true, Rcode := RcodeSuccess,
          Question := [⟨"a.example.".toList, TypeA, ClassINET⟩],
          Answer := [RR.A ⟨"a.example.".toList, TypeA, ClassINET, 300, 0⟩ (IPv4 1 2 3 4)] }] := by
    decide
  exact ⟨hs, hq,
    (makeHandler_ttl ParseIP (fileOf "a.example.\t1.2.3.4\n".toList) "f".toList 300 _ hs
      ("a.example.".toList, ⟨"a.example.".toList, 300, [IPv4 1 2 3 4], []⟩)
      (List.mem_singleton.mpr rfl)).2 _ _ _ hq (List.mem_singleton.mpr rfl) _
      (List.mem_singleton.mpr rfl)⟩

/-- C13: when `makeHandler` succeeds, the address of each record is in
exactly one list of the RecordSet of its name, `V4Addrs` when it has a 4-byte
form and `V6Addrs` when it has none; each RecordSet holds as many addresses
as its name has lines; so a message written for a question of type A carries
only addresses with a 4-byte form and one written for a question of type
AAAA only addresses without one. -/
theorem makeHandler_address_family (P : GoString → Option IP)
    (Open : GoString → Except IOError Reader) (fileName : GoString) (ttl : Nat)
    (rdr : Reader) (mux : ServeMux) (ho : Open fileName = Except.ok rdr)
    (hs : makeHandler P Open fileName ttl = some (some mux, none)) :
    (∀ r ∈ records P rdr.lines, ∃ h, (r.1, h) ∈ mux.z ∧
      (To4 r.2 ≠ none → r.2 ∈ h.V4Addrs ∧ r.2 ∉ h.V6Addrs) ∧
      (To4 r.2 = none → r.2 ∈ h.V6Addrs ∧ r.2 ∉ h.V4Addrs)) ∧
    ∀ e ∈ mux.z,
      (∀ ip ∈ e.2.V4Addrs, To4 ip ≠ none) ∧ (∀ ip ∈ e.2.V6Addrs, To4 ip = none) ∧
      e.2.V4Addrs.length + e.2.V6Addrs.length =
        ((records P rdr.lines).filter (fun r => r.1 = e.1)).length ∧
      ∀ req calls resp q0 qs, ServeDNS e.2 req = some calls →
        WriterCall.WriteMsg resp ∈ calls → req.Question = q0 :: qs →
        (q0.Qtype = TypeA → ∀ rr ∈ resp.Answer, To4 rr.addr ≠ none) ∧
        (q0.Qtype = TypeAAAA → ∀ rr ∈ resp.Answer, To4 rr.addr = none) := by
  obtain ⟨rdr1, ho1, -, hm⟩ := makeHandler_success P Open fileName ttl mux hs
  rw [ho] at ho1
  cases ho1
  have h4 : ∀ n, ∀ ip ∈ (recordSet ttl (records P rdr.lines) n).V4Addrs, To4 ip ≠ none := by
    intro n ip hip
    simp only [recordSet, v4Of, List.mem_map, List.mem_filter, decide_eq_true_eq] at hip
    obtain ⟨r, ⟨-, -, hr⟩, rfl⟩ := hip
    exact hr
  have h6 : ∀ n, ∀ ip ∈ (recordSet ttl (records P rdr.lines) n).V6Addrs, To4 ip = none := by
    intro n ip hip
    simp only [recordSet, v6Of, List.mem_map, List.mem_filter, decide_eq_true_eq] at hip
    obtain ⟨r, ⟨-, -, hr⟩, rfl⟩ := hip
    exact hr
  constructor
  · intro r hr
    refine ⟨recordSet ttl (records P rdr.lines) r.1, ?_, ?_, ?_⟩
    · rw [hm]
      simp only [List.mem_map, Prod.mk.injEq]
      exact ⟨r.1, (mem_firstNames _ _).mpr (List.mem_map_of_mem _ hr), rfl, rfl⟩
    · intro hr4
      refine ⟨?_, fun hc => hr4 (h6 _ _ hc)⟩
      simp only [recordSet, v4Of, List.mem_map, List.mem_filter, decide_eq_true_eq]
      exact ⟨r, ⟨hr, rfl, hr4⟩, rfl⟩
    · intro hr6
      refine ⟨?_, fun hc => h4 _ _ hc hr6⟩
      simp only [recordSet, v6Of, List.mem_map, List.mem_filter, decide_eq_true_eq]
      exact ⟨r, ⟨hr, rfl, hr6⟩, rfl⟩
  · intro e he
    rw [hm] at he
    simp only [List.mem_map] at he
    obtain ⟨n, -, rfl⟩ := he
    refine ⟨h4 n, h6 n, v4Of_length_add_v6Of_length _ n, ?_⟩
    intro req calls resp q0 qs hc hw hq
    obtain ⟨q1, qs1, hq1, h | h⟩ := ServeDNS_answer _ req calls resp hc hw
    · rw [hq] at hq1
      cases hq1
      refine ⟨?_, ?_⟩
      · intro _ rr hrr
        rw [h.2.2] at hrr
        simp only [List.mem_map] at hrr
        obtain ⟨addr, ha, rfl⟩ := hrr
        exact h4 n addr ha
      · intro hq6
        rw [h.1] at hq6
        exact absurd hq6 (by decide)
    · rw [hq] at hq1
      cases hq1
      refine ⟨?_, ?_⟩
      · intro hq4
        rw [h.1] at hq4
        exact absurd hq4 (by decide)
      · intro _ rr hrr
        rw [h.2.2] at hrr
        simp only [List.mem_map] at hrr
        obtain ⟨addr, ha, rfl⟩ := hrr
        exact h6 n addr ha


/-- Witness of C13: the lines `a.example.<TAB>1.2.3.4` and
`a.example.<TAB>::1`; the question of type A gets the first address only and
the question of type AAAA the second one only. -/
theorem makeHandler_address_family_witness :
    makeHandler ParseIP (fileOf "a.example.\t1.2.3.4\na.example.\t::1\n".toList) "f".toList 300 =
      some (some { z := [("a.example.".toList, ⟨"a.example.".toList, 300, [IPv4 1 2 3 4],
        [[0, 0, 0, 0, 0, 0, 0, 0, 0, 0, 0, 0, 0, 0, 0, 1]]⟩)] }, none) ∧
    ServeDNS ⟨"a.example.".toList, 300, [IPv4 1 2 3 4],
          [[0, 0, 0, 0, 0, 0, 0, 0, 0, 0, 0, 0, 0, 0, 0, 1]]⟩
        { Id := 1, Question := [⟨"a.example.".toList, TypeA, ClassINET⟩] } =
      some [WriterCall.WriteMsg
        { Id := 1, Response := true, Rcode := RcodeSuccess,
          Question := [⟨"a.example.".toList, TypeA, ClassINET⟩],
          Answer := [RR.A ⟨"a.example.".toList, TypeA, ClassINET, 300, 0⟩ (IPv4 1 2 3 4)] }] ∧
    ServeDNS ⟨"a.example.".toList, 300, [IPv4 1 2 3 4],
          [[0, 0, 0, 0, 0, 0, 0, 0, 0, 0, 0, 0, 0, 0, 0, 1]]⟩
        { Id := 2, Question := [⟨"a.example.".toList, TypeAAAA, ClassINET⟩] } =
      some [WriterCall.WriteMsg
        { Id := 2, Response := true, Rcode := RcodeSuccess,
          Question := [⟨"a.example.".toList, TypeAAAA, ClassINET⟩],
          Answer := [RR.AAAA ⟨"a.example.".toList, TypeAAAA, ClassINET, 300, 0⟩
            [0, 0, 0, 0, 0, 0, 0, 0, 0, 0, 0, 0, 0, 0, 0, 1]] }] ∧
    To4 (IPv4 1 2 3 4) ≠ none ∧ To4 [0, 0, 0, 0, 0, 0, 0, 0, 0, 0, 0, 0, 0, 0, 0, 1] = none := by
  have hs : makeHandler ParseIP (fileOf "a.example.\t1.2.3.4\na.example.\t::1\n".toList)
        "f".toList 300 =
      some (some { z := [("a.example.".toList, ⟨"a.example.".toList, 300, [IPv4 1 2 3 4],
        [[0, 0, 0, 0, 0, 0, 0, 0, 0, 0, 0, 0, 0, 0, 0, 1]]⟩)] }, none) := by decide
  have h := (makeHandler_address_family ParseIP
    (fileOf "a.example.\t1.2.3.4\na.example.\t::1\n".toList) "f".toList 300
    { data := "a.example.\t1.2.3.4\na.example.\t::1\n".toList, err := none } _ rfl hs).2
    ("a.example.".toList, ⟨"a.example.".toList, 300, [IPv4 1 2 3 4],
        [[0, 0, 0, 0, 0, 0, 0, 0, 0, 0, 0, 0, 0, 0, 0, 1]]⟩) (List.mem_singleton.mpr rfl)
  exact ⟨hs, by decide, by decide, h.1 _ (List.mem_singleton.mpr rfl),
    h.2.1 _ (List.mem_singleton.mpr rfl)⟩

/-- C14, amended: a line that starts with a tab and whose text after the tab
is parsed as an address passes the checks of `makeHandler`: it is well-formed
and its record has the empty name and that address.  It is not accepted:
when the lines before it are well-formed, `makeHandler` calls `Handle` with
the empty name, at that line or before it, the call panics, and `makeHandler`
returns neither a table nor an error. -/
theorem makeHandler_empty_name (P : GoString → Option IP)
    (Open : GoString → Except IOError Reader) (fileName : GoString) (ttl : Nat)
    (rdr : Reader) (pre post : List (GoString × Bool)) (addrText : GoString) (ip : IP)
    (ho : Open fileName = Except.ok rdr)
    (hl : rdr.lines = pre ++ ('\t' :: addrText, false) :: post)
    (hpre : ∀ x ∈ pre, wellFormed P x) (hp : P addrText = some ip) :
    wellFormed P ('\t' :: addrText, false) ∧
    parseRecord P ('\t' :: addrText) = some ([], ip) ∧
    (∀ retval h, Handle retval [] h = none) ∧
    makeHandler P Open fileName ttl = none := by
  have hsplit : SplitN ('\t' :: addrText) '\t' 2 = [[], addrText] :=
    SplitN_two_of_append '\t' [] addrText (by simp)
  have hrec : parseRecord P ('\t' :: addrText) = some ([], ip) := by
    simp [parseRecord, hsplit, hp]
  have hw : wellFormed P ('\t' :: addrText, false) :=
    (wellFormed_iff P _ false).mpr ⟨rfl, [], addrText, ip, hsplit, hp, hrec⟩
  exact ⟨hw, hrec, fun _ _ => rfl,
    makeHandler_panic P Open fileName ttl rdr pre _ post ho hl hpre hw rfl⟩

/-- Witness of C14: the line `<TAB>1.2.3.4` between two lines of the name
`x`. -/
theorem makeHandler_empty_name_witness :
    wellFormed ParseIP ("\t1.2.3.4".toList, false) ∧
    parseRecord ParseIP "\t1.2.3.4".toList = some ([], IPv4 1 2 3 4) ∧
    (∀ retval h, Handle retval [] h = none) ∧
    makeHandler ParseIP (fileOf "x\t1.1.1.1\n\t1.2.3.4\nx\t::1\n".toList) "f".toList 300 =
      none :=
  makeHandler_empty_name ParseIP (fileOf "x\t1.1.1.1\n\t1.2.3.4\nx\t::1\n".toList)
    "f".toList 300 { data := "x\t1.1.1.1\n\t1.2.3.4\nx\t::1\n".toList, err := none }
    [("x\t1.1.1.1".toList, false)] [("x\t::1".toList, false)] "1.2.3.4".toList (IPv4 1 2 3 4)
    rfl (by decide) (by decide) (by decide)

/-- Counterexample to C14 as stated: the file of the one line `<TAB>1.2.3.4`.
The text after the tab is a valid address, and `makeHandler` returns no
table: it panics in the call of `Handle` with the empty name. -/
theorem makeHandler_empty_name_counterexample :
    ParseIP "1.2.3.4".toList = some (IPv4 1 2 3 4) ∧
    Reader.lines { data := "\t1.2.3.4\n".toList, err := none } =
      [("\t1.2.3.4".toList, false)] ∧
    makeHandler ParseIP (fileOf "\t1.2.3.4\n".toList) "f".toList 300 = none ∧
    ¬ ∃ mux, makeHandler ParseIP (fileOf "\t1.2.3.4\n".toList) "f".toList 300 =
      some (some mux, none) := by
  have h : makeHandler ParseIP (fileOf "\t1.2.3.4\n".toList) "f".toList 300 = none := by
    decide
  refine ⟨by decide, by decide, h, ?_⟩
  rw [h]
  simp


/-- The tables after a list of records, from the empty tables, satisfy the
invariant of the loop. -/
theorem Built_records (ttl : Nat) (done : List (GoString × IP)) :
    Built ttl (done.foldl (fun t r => updateTables ttl t r.1 r.2)
      { heap := [], pairs := [], retval := [] }) done := by
  simpa using Built_foldl ttl done _ [] (Built_nil ttl)

/-- The RecordSet of a name that a list of records does not have, after one
record of that name. -/
theorem recordSet_of_new (ttl : Nat) (done : List (GoString × IP)) (r : GoString × IP)
    (h : r.1 ∉ done.map Prod.fst) :
    recordSet ttl (done ++ [r]) r.1 = recordSet ttl [r] r.1 := by
  have h4 : v4Of done r.1 = [] := by
    simp only [v4Of, List.map_eq_nil_iff, List.filter_eq_nil_iff]
    intro x hx
    have : x.1 ≠ r.1 := fun e => h (e ▸ List.mem_map_of_mem _ hx)
    simp [this]
  have h6 : v6Of done r.1 = [] := by
    simp only [v6Of, List.map_eq_nil_iff, List.filter_eq_nil_iff]
    intro x hx
    have : x.1 ≠ r.1 := fun e => h (e ▸ List.mem_map_of_mem _ hx)
    simp [this]
  have e4 : v4Of (done ++ [r]) r.1 = v4Of done r.1 ++ v4Of [r] r.1 := by
    simp only [v4Of, List.filter_append, List.map_append]
  have e6 : v6Of (done ++ [r]) r.1 = v6Of done r.1 ++ v6Of [r] r.1 := by
    simp only [v6Of, List.filter_append, List.map_append]
  simp only [recordSet, e4, e6, h4, h6, List.nil_append]

/-- C15: when `makeHandler` succeeds, the names registered with the table are
the first fields of the lines, each once, in the order in which they first
occur, and the RecordSet registered under a name has that very string as its
`Name`.  In the loop, the records `done` lead to tables `t` and the next
record to tables `t1`, without a panic; a record of a name that has not
occurred makes one new RecordSet, which is registered once, and a record of
a name that has occurred registers nothing, makes no RecordSet, and leaves
the name and the TTL of every RecordSet as they are and its two lists as
they are or longer by one address at the end. -/
theorem makeHandler_registration (P : GoString → Option IP)
    (Open : GoString → Except IOError Reader) (fileName : GoString) (ttl : Nat)
    (rdr : Reader) (mux : ServeMux) (ho : Open fileName = Except.ok rdr)
    (hs : makeHandler P Open fileName ttl = some (some mux, none)) :
    mux.z.map Prod.fst = firstNames (records P rdr.lines) ∧
    (mux.z.map Prod.fst).Nodup ∧
    (∀ n, n ∈ mux.z.map Prod.fst ↔ n ∈ (records P rdr.lines).map Prod.fst) ∧
    (∀ e ∈ mux.z, e.2.Name = e.1) ∧
    ∀ (done : List (GoString × IP)) (r : GoString × IP) (rest : List (GoString × IP)),
      records P rdr.lines = done ++ r :: rest →
      ∃ t t1, addRecords ttl { heap := [], pairs := [], retval := [] } done = some t ∧
      addRecord ttl t r.1 r.2 = some t1 ∧
      (t.retval.map Prod.fst = firstNames done) ∧
      (r.1 ∉ done.map Prod.fst →
        t1.retval = t.retval ++ [(r.1, t.heap.length)] ∧
        t1.heap = t.heap ++ [recordSet ttl [r] r.1]) ∧
      (r.1 ∈ done.map Prod.fst →
        t1.retval = t.retval ∧ t1.pairs = t.pairs ∧
        List.Forall₂ (fun h h1 => h1.Name = h.Name ∧ h1.Ttl = h.Ttl ∧
          h.V4Addrs <+: h1.V4Addrs ∧ h.V6Addrs <+: h1.V6Addrs) t.heap t1.heap) := by
  obtain ⟨rdr1, ho1, hacc, hm⟩ := makeHandler_success P Open fileName ttl mux hs
  rw [ho] at ho1
  cases ho1
  have hnames : mux.z.map Prod.fst = firstNames (records P rdr.lines) := by
    rw [hm]; simp [List.map_map, Function.comp_def]
  refine ⟨hnames, hnames ▸ nodup_firstNames _, ?_, ?_, ?_⟩
  · intro n; rw [hnames]; exact mem_firstNames _ n
  · intro e he
    rw [hm] at he
    simp only [List.mem_map] at he
    obtain ⟨n, -, rfl⟩ := he
    rfl
  · intro done r rest hrec
    have hne := records_ne_nil P _ hacc
    rw [hrec] at hne
    obtain ⟨t, ht⟩ : ∃ t, t = done.foldl (fun t r => updateTables ttl t r.1 r.2)
        { heap := [], pairs := [], retval := [] } := ⟨_, rfl⟩
    obtain ⟨t1, ht1⟩ : ∃ t1, t1 = updateTables ttl t r.1 r.2 := ⟨_, rfl⟩
    have hb : Built ttl t done := ht ▸ Built_records ttl done
    have hb1 : Built ttl t1 (done ++ [(r.1, r.2)]) :=
      ht1 ▸ Built_updateTables ttl t done r.1 r.2 hb
    refine ⟨t, t1, ?_, ?_, ?_⟩
    · rw [ht]
      exact addRecords_of_ne_nil ttl done _ (fun x hx => hne x (by simp [hx]))
    · rw [ht1]
      exact addRecord_of_ne_nil ttl t r.1 r.2 (hne r (by simp))
    obtain ⟨hheap, hpairs, hretval⟩ := hb
    obtain ⟨hheap1, hpairs1, hretval1⟩ := hb1
    have hlen : t.heap.length = (firstNames done).length := by rw [hheap]; simp
    refine ⟨by rw [hretval, hpairs, List.map_fst_zip]; simp, ?_, ?_⟩
    · intro hnew
      have hnot : r.1 ∉ firstNames done := fun hc => hnew ((mem_firstNames _ _).mp hc)
      have hn1 : firstNames (done ++ [(r.1, r.2)]) = firstNames done ++ [r.1] := by
        rw [firstNames_append_singleton]; simp [hnot]
      constructor
      · rw [hretval1, hpairs1, hn1, zip_range_append_singleton, hretval, hpairs, hlen]
      · rw [hheap1, hn1, List.map_append, hheap]
        congr 1
        · apply List.map_congr_left
          intro m hm1
          have : m ≠ r.1 := fun e => hnot (e ▸ hm1)
          rw [recordSet_append_singleton]; simp [this]
        · simp only [List.map_cons, List.map_nil, List.cons.injEq, and_true]
          exact recordSet_of_new ttl done r hnew
    · intro hold
      have hin : r.1 ∈ firstNames done := (mem_firstNames _ _).mpr hold
      have hn1 : firstNames (done ++ [(r.1, r.2)]) = firstNames done := by
        rw [firstNames_append_singleton]; simp [hin]
      refine ⟨?_, ?_, ?_⟩
      · rw [hretval1, hpairs1, hn1, hretval, hpairs]
      · rw [hpairs1, hn1, hpairs]
      · rw [hheap1, hn1, hheap, List.forall₂_map_left_iff, List.forall₂_map_right_iff,
          List.forall₂_same]
        intro m _
        rw [recordSet_append_singleton]
        by_cases hmr : m = r.1
        · by_cases h4 : To4 r.2 = none
          · simp [hmr, h4, recordSet]
          · simp [hmr, h4, recordSet]
        · simp [hmr]

/-- Witness of C15: the names `A.example` and `a.example`, the first one on
two lines, give two RecordSets. -/
theorem makeHandler_registration_witness :
    makeHandler ParseIP
        (fileOf "A.example\t1.1.1.1\na.example\t2.2.2.2\nA.example\t::1\n".toList)
        "f".toList 300 =
      some (some { z := [("A.example".toList, ⟨"A.example".toList, 300, [IPv4 1 1 1 1],
                            [[0, 0, 0, 0, 0, 0, 0, 0, 0, 0, 0, 0, 0, 0, 0, 1]]⟩),
                         ("a.example".toList, ⟨"a.example".toList, 300, [IPv4 2 2 2 2], []⟩)] },
        none) ∧
    ["A.example".toList, "a.example".toList] =
      firstNames (records ParseIP (Reader.lines
        { data := "A.example\t1.1.1.1\na.example\t2.2.2.2\nA.example\t::1\n".toList,
          err := none })) := by
  have hs : makeHandler ParseIP
        (fileOf "A.example\t1.1.1.1\na.example\t2.2.2.2\nA.example\t::1\n".toList)
        "f".toList 300 =
      some (some { z := [("A.example".toList, ⟨"A.example".toList, 300, [IPv4 1 1 1 1],
                            [[0, 0, 0, 0, 0, 0, 0, 0, 0, 0, 0, 0, 0, 0, 0, 1]]⟩),
                         ("a.example".toList, ⟨"a.example".toList, 300, [IPv4 2 2 2 2], []⟩)] },
        none) := by decide
  exact ⟨hs, (makeHandler_registration ParseIP
    (fileOf "A.example\t1.1.1.1\na.example\t2.2.2.2\nA.example\t::1\n".toList) "f".toList 300
    { data := "A.example\t1.1.1.1\na.example\t2.2.2.2\nA.example\t::1\n".toList, err := none }
    _ rfl hs).1⟩


/-! ### Lines that do not fit the buffer of the reader -/

/-- The `span` of a list at the first occurrence of a byte. -/
theorem span_append_sep (sep : Char) (a b : GoString) (h : sep ∉ a) :
    (a ++ sep :: b).span (fun c => c != sep) = (a, sep :: b) := by
  rcases span_sep sep (a ++ sep :: b) with ⟨h1, _⟩ | ⟨a1, b1, h1, h2, h3⟩
  · exact absurd (by simp) h1
  · obtain ⟨rfl, hb⟩ : a = a1 ∧ b = b1 := by
      rcases List.append_eq_append_iff.mp h1 with ⟨c, hc1, hc2⟩ | ⟨c, hc1, hc2⟩
      · cases c with
        | nil => simp at hc1 hc2; exact ⟨hc1.symm, hc2.symm ▸ rfl⟩
        | cons x c =>
          simp at hc2
          exact absurd (by rw [hc1, hc2.1]; simp) h2
      · cases c with
        | nil => simp at hc1 hc2; exact ⟨hc1, hc2.symm⟩
        | cons x c =>
          simp at hc2
          exact absurd (by rw [hc1, hc2.1]; simp) h
    subst hb
    exact h3

/-- A line that fits the buffer, with its line feed: `ReadLine` returns it
whole, without the line feed and without a carriage return before it. -/
theorem ReadLine_of_line (l rest : GoString) (err : Option IOError) (h1 : '\n' ∉ l)
    (h2 : l.length < defaultBufSize) :
    ReadLine { data := l ++ '\n' :: rest, err := err } =
      (if l.getLast? = some '\r' then l.dropLast else l, false, none,
        { data := rest, err := err }) := by
  have h0 : l ++ '\n' :: rest ≠ [] := by simp
  have ht : (l ++ '\n' :: rest).take defaultBufSize =
      l ++ '\n' :: rest.take (defaultBufSize - l.length - 1) := by
    rw [List.take_append_eq_append_take, List.take_of_length_le (by omega)]
    obtain ⟨k, hk⟩ : ∃ k, defaultBufSize - l.length = k + 1 := ⟨defaultBufSize - l.length - 1, by omega⟩
    rw [hk, List.take_succ_cons]
    simp
  simp only [ReadLine, h0, if_false, ht, span_append_sep '\n' l _ h1]
  simp

/-- The lines of a file after a number of them. -/
theorem readLines_after (pre : List (GoString × Bool)) :
    ∀ (fuel : Nat) (rdr : Reader), rdr.data.length < fuel → pre <+: readLines fuel rdr →
      readLines fuel rdr =
        pre ++ readLines (fuel - pre.length) (readerAfter pre.length rdr) ∧
      (readerAfter pre.length rdr).data.length < fuel - pre.length := by
  induction pre with
  | nil => intro fuel rdr h _; exact ⟨rfl, by simpa [readerAfter] using h⟩
  | cons x pre ih =>
    intro fuel rdr hlen hpre
    cases fuel with
    | zero => omega
    | succ fuel =>
      rcases hr : ReadLine rdr with ⟨l, pfx, err, rdr1⟩
      cases err with
      | some err =>
        simp only [readLines, hr] at hpre
        exact absurd (List.prefix_nil.mp hpre) (by simp)
      | none =>
        have hp := ReadLine_progress rdr rdr1 l pfx hr
        simp only [readLines, hr] at hpre ⊢
        obtain ⟨rfl, hpre2⟩ := List.cons_prefix_cons.mp hpre
        obtain ⟨h1, h2⟩ := ih fuel rdr1 (by omega) hpre2
        have hra : readerAfter (pre.length + 1) rdr = readerAfter pre.length rdr1 := by
          simp only [readerAfter, hr]
        simp only [List.length_cons, hra, Nat.add_sub_add_right, List.cons_append,
          List.cons.injEq, true_and]
        exact ⟨h1, h2⟩

/-- A list whose part before the first line feed has `n` bytes has `n` bytes
and no line feed among its first `n` bytes. -/
theorem of_le_length_takeWhile (d : GoString) (n : Nat)
    (h : n ≤ (d.takeWhile (fun c => c != '\n')).length) :
    n ≤ d.length ∧ '\n' ∉ d.take n := by
  have hd := List.takeWhile_append_dropWhile (fun c => c != '\n') d
  constructor
  · have := congrArg List.length hd
    rw [List.length_append] at this
    omega
  · intro hm
    rw [← hd, List.take_append_of_le_length h] at hm
    have := List.mem_takeWhile_imp (List.mem_of_mem_take hm)
    simp at this

/-- C20, amended: when the lines before line `k` of the file are well-formed
and have a first field that is not empty, and the bytes of line `k`, up to
the next line feed or to the end of the file, are 4096 or more, `makeHandler`
fails with the error `<file>:<k> line too long` and returns no table,
whatever line `k` contains. -/
theorem makeHandler_line_too_long (P : GoString → Option IP)
    (Open : GoString → Except IOError Reader) (fileName : GoString) (ttl : Nat)
    (rdr : Reader) (pre : List (GoString × Bool))
    (ho : Open fileName = Except.ok rdr) (hl : pre <+: rdr.lines)
    (hpre : ∀ x ∈ pre, accepted P x)
    (hlong : defaultBufSize ≤
      ((readerAfter pre.length rdr).data.takeWhile (fun c => c != '\n')).length) :
    makeHandler P Open fileName ttl =
      some (none, some (GoError.Errorf
        (fileName ++ ":".toList ++ Itoa (pre.length + 1) ++ " line too long".toList))) := by
  obtain ⟨h1, h2⟩ := readLines_after pre _ rdr (Nat.lt_succ_self _) hl
  obtain ⟨h3, h4⟩ := of_le_length_takeWhile _ _ hlong
  obtain ⟨l, rdr1, hr⟩ := ReadLine_of_long _ h3 h4
  obtain ⟨m, hm⟩ : ∃ m, rdr.data.length + 1 - pre.length = m + 1 :=
    ⟨rdr.data.length + 1 - pre.length - 1, by omega⟩
  rw [hm] at h1
  simp only [readLines, hr] at h1
  have he : ¬ wellFormed P (l, true) := by simp [wellFormed]
  rw [makeHandler_error P Open fileName ttl rdr pre (l, true) _ ho h1 hpre he]
  simp [lineError]


/-- A first line that fits the buffer is the first of the lines of the file,
and the reader after it holds the rest of the file. -/
theorem lines_of_first_line (l rest : GoString) (err : Option IOError) (h1 : '\n' ∉ l)
    (h2 : l.length < defaultBufSize) (h3 : l.getLast? ≠ some '\r') :
    [(l, false)] <+: Reader.lines { data := l ++ '\n' :: rest, err := err } ∧
    readerAfter 1 { data := l ++ '\n' :: rest, err := err } = { data := rest, err := err } := by
  have hr := ReadLine_of_line l rest err h1 h2
  simp only [h3, if_false] at hr
  constructor
  · simp only [Reader.lines, readLines, hr]
    exact ⟨_, rfl⟩
  · simp only [readerAfter, hr]

/-- A line that starts with `n` letters has `n` bytes or more. -/
theorem le_length_takeWhile_replicate (n : Nat) (rest : GoString) :
    n ≤ ((List.replicate n 'a' ++ rest).takeWhile (fun c => c != '\n')).length := by
  rw [List.takeWhile_append_of_pos, List.length_append, List.length_replicate]
  · omega
  · intro c hc
    rw [List.eq_of_mem_replicate hc]
    decide

/-- A line of `n` letters, a tab and an address literal has a record. -/
theorem parseRecord_replicate (n : Nat) :
    parseRecord ParseIP (List.replicate n 'a' ++ '\t' :: "1.2.3.4".toList) =
      some (List.replicate n 'a', IPv4 1 2 3 4) := by
  have hs := SplitN_two_of_append '\t' (List.replicate n 'a') "1.2.3.4".toList
    (fun hm => absurd (List.eq_of_mem_replicate hm) (by decide))
  have hp : ParseIP "1.2.3.4".toList = some (IPv4 1 2 3 4) := by decide
  simp only [parseRecord, hs, hp, Option.map_some']

/-- Witness of C20: after the line `x<TAB>1.1.1.1`, a line of a name of 5000
letters, a tab and the address `1.2.3.4`.  The second line has a record, and
the file is rejected at line 2 as too long. -/
theorem makeHandler_line_too_long_witness :
    parseRecord ParseIP (List.replicate 5000 'a' ++ '\t' :: "1.2.3.4".toList) =
      some (List.replicate 5000 'a', IPv4 1 2 3 4) ∧
    makeHandler ParseIP
        (fileOf ("x\t1.1.1.1".toList ++
          '\n' :: (List.replicate 5000 'a' ++ "\t1.2.3.4\n".toList)))
        "f".toList 300 =
      some (none, some (GoError.Errorf "f:2 line too long".toList)) :=
  ⟨parseRecord_replicate 5000,
   (makeHandler_line_too_long ParseIP
      (fileOf ("x\t1.1.1.1".toList ++
        '\n' :: (List.replicate 5000 'a' ++ "\t1.2.3.4\n".toList)))
      "f".toList 300
      { data := "x\t1.1.1.1".toList ++
          '\n' :: (List.replicate 5000 'a' ++ "\t1.2.3.4\n".toList), err := none }
      [("x\t1.1.1.1".toList, false)] rfl
      (lines_of_first_line "x\t1.1.1.1".toList _ none (by decide) (by decide) (by decide)).1
      (by decide)
      (by
        rw [show ([("x\t1.1.1.1".toList, false)] : List (GoString × Bool)).length = 1 from rfl,
          (lines_of_first_line "x\t1.1.1.1".toList _ none (by decide) (by decide)
            (by decide)).2]
        exact Nat.le_trans (by decide) (le_length_takeWhile_replicate 5000 _))).trans
    (by decide)⟩


/-- Counterexample to C20 as stated: the line `<TAB>1.2.3.4`, which is
well-formed, followed by a line of 5000 letters.  Line 2 is longer than the
buffer of the reader and the line before it is well-formed, and `makeHandler`
panics at line 1, in the call of `Handle` with the empty name: it does not
return the error `f:2 line too long`. -/
theorem makeHandler_line_too_long_counterexample :
    wellFormed ParseIP ("\t1.2.3.4".toList, false) ∧
    [("\t1.2.3.4".toList, false)] <+: Reader.lines
      { data := "\t1.2.3.4".toList ++ '\n' :: (List.replicate 5000 'a' ++ "\n".toList),
        err := none } ∧
    defaultBufSize ≤ ((readerAfter 1
      { data := "\t1.2.3.4".toList ++ '\n' :: (List.replicate 5000 'a' ++ "\n".toList),
        err := none }).data.takeWhile (fun c => c != '\n')).length ∧
    makeHandler ParseIP
        (fileOf ("\t1.2.3.4".toList ++ '\n' :: (List.replicate 5000 'a' ++ "\n".toList)))
        "f".toList 300 = none ∧
    makeHandler ParseIP
        (fileOf ("\t1.2.3.4".toList ++ '\n' :: (List.replicate 5000 'a' ++ "\n".toList)))
        "f".toList 300 ≠
      some (none, some (GoError.Errorf "f:2 line too long".toList)) := by
  obtain ⟨h1, h2⟩ := lines_of_first_line "\t1.2.3.4".toList
    (List.replicate 5000 'a' ++ "\n".toList) none (by decide) (by decide) (by decide)
  have hw : wellFormed ParseIP ("\t1.2.3.4".toList, false) := by decide
  obtain ⟨post, hpost⟩ := h1
  have h : makeHandler ParseIP
        (fileOf ("\t1.2.3.4".toList ++ '\n' :: (List.replicate 5000 'a' ++ "\n".toList)))
        "f".toList 300 = none :=
    makeHandler_panic ParseIP _ "f".toList 300
      { data := "\t1.2.3.4".toList ++ '\n' :: (List.replicate 5000 'a' ++ "\n".toList),
        err := none } [] "\t1.2.3.4".toList post rfl hpost.symm (by simp) hw rfl
  refine ⟨hw, ⟨post, hpost⟩, ?_, h, ?_⟩
  · rw [h2]
    exact Nat.le_trans (by decide) (le_length_takeWhile_replicate 5000 _)
  · rw [h]
    simp


/-! ### Lemmas on trimming, splitting and joining -/

/-- Bytes of the cutset around a string do not change what `Trim` returns. -/
theorem Trim_pad (cs l t r : GoString) (hl : ∀ c ∈ l, c ∈ cs) (hr : ∀ c ∈ r, c ∈ cs) :
    Trim (l ++ t ++ r) cs = Trim t cs := by
  have hl2 : ∀ c ∈ l, (fun c => cs.contains c) c = true := by
    intro c hc; simpa using hl c hc
  have hr2 : ∀ c ∈ r.reverse, (fun c => cs.contains c) c = true := by
    intro c hc; simpa using hr c (List.mem_reverse.mp hc)
  have hl3 : ∀ c ∈ l.reverse, (fun c => cs.contains c) c = true := by
    intro c hc; simpa using hl c (List.mem_reverse.mp hc)
  unfold Trim List.rdropWhile
  rw [List.reverse_append, List.reverse_append,
    List.dropWhile_append_of_pos hr2, List.dropWhile_append]
  by_cases he : (List.dropWhile (fun c => cs.contains c) t.reverse).isEmpty = true
  · have he2 : List.dropWhile (fun c => cs.contains c) t.reverse = [] := List.isEmpty_iff.mp he
    rw [if_pos he, he2, List.dropWhile_eq_nil_iff.mpr hl3]
  · rw [if_neg he, List.reverse_append, List.reverse_reverse, List.dropWhile_append_of_pos hl2]

/-- `Trim` of a string without its leading bytes of the cutset. -/
theorem Trim_dropWhile (cs t : GoString) :
    Trim (t.dropWhile (fun c => cs.contains c)) cs = Trim t cs := by
  have h := Trim_pad cs (t.takeWhile (fun c => cs.contains c))
    (t.dropWhile (fun c => cs.contains c)) []
    (fun c hc => by simpa using List.mem_takeWhile_imp hc) (by simp)
  rw [List.append_nil, List.takeWhile_append_dropWhile] at h
  exact h.symm

/-- `Trim` of a string without its trailing bytes of the cutset. -/
theorem Trim_rdropWhile (cs t : GoString) :
    Trim (t.rdropWhile (fun c => cs.contains c)) cs = Trim t cs := by
  unfold Trim
  rw [List.rdropWhile_idempotent]

/-- `Trim` of a trimmed string. -/
theorem Trim_Trim (cs t : GoString) : Trim (Trim t cs) cs = Trim t cs := by
  show Trim ((t.rdropWhile (fun c => cs.contains c)).dropWhile (fun c => cs.contains c)) cs = _
  rw [Trim_dropWhile, Trim_rdropWhile]

/-- A trimmed string has only bytes of the string. -/
theorem mem_of_mem_Trim (cs t : GoString) (c : Char) (h : c ∈ Trim t cs) : c ∈ t :=
  (List.rdropWhile_prefix _ _).subset ((List.dropWhile_suffix _).subset h)

/-- The pieces of a string that is joined from enough pieces without the
separator are these pieces. -/
theorem SplitN_Join (sep : Char) :
    ∀ (ts : List GoString) (n : Nat), ts ≠ [] → (∀ t ∈ ts, sep ∉ t) → ts.length ≤ n →
      SplitN (Join ts sep) sep n = ts := by
  intro ts
  induction ts with
  | nil => intro n h; exact absurd rfl h
  | cons t rest ih =>
    intro n _ hsep hlen
    have ht : sep ∉ t := hsep t (List.mem_cons_self _ _)
    cases rest with
    | nil =>
      cases n with
      | zero => simp at hlen
      | succ n =>
        cases n with
        | zero => rfl
        | succ n =>
          rcases span_sep sep t with ⟨-, h2⟩ | ⟨a, b, h1, -, -⟩
          · simp only [Join, SplitN, h2]
          · exact absurd (by rw [h1]; simp) ht
    | cons t2 rest =>
      cases n with
      | zero => simp at hlen
      | succ n =>
        cases n with
        | zero => simp at hlen
        | succ n =>
          have := ih (n + 1) (by simp) (fun x hx => hsep x (List.mem_cons_of_mem _ hx))
            (by simp only [List.length_cons] at hlen ⊢; omega)
          simp only [Join, SplitN, span_append_sep sep t _ ht, this]

/-- A string joined from pieces without the separator has one separator
less than pieces. -/
theorem count_Join (sep : Char) :
    ∀ (ts : List GoString), ts ≠ [] → (∀ t ∈ ts, sep ∉ t) →
      (Join ts sep).count sep + 1 = ts.length := by
  intro ts
  induction ts with
  | nil => intro h; exact absurd rfl h
  | cons t rest ih =>
    intro _ hsep
    have ht : t.count sep = 0 := List.count_eq_zero.mpr (hsep t (List.mem_cons_self _ _))
    cases rest with
    | nil => simp [Join, ht]
    | cons t2 rest =>
      have := ih (by simp) (fun x hx => hsep x (List.mem_cons_of_mem _ hx))
      simp only [Join, List.count_append, ht, List.count_cons_self, List.length_cons] at this ⊢
      omega

/-- Splitting after joining returns the pieces that were joined. -/
theorem Split_Join (sep : Char) (ts : List GoString) (hne : ts ≠ [])
    (hsep : ∀ t ∈ ts, sep ∉ t) : Split (Join ts sep) sep = ts := by
  unfold Split
  exact SplitN_Join sep ts _ hne hsep (by rw [count_Join sep ts hne hsep])

/-- Joining the pieces of a string that is split often enough returns the
string, and no piece has the separator. -/
theorem Join_SplitN (sep : Char) :
    ∀ (n : Nat) (s : GoString), s.count sep < n →
      Join (SplitN s sep n) sep = s ∧ ∀ t ∈ SplitN s sep n, sep ∉ t := by
  intro n
  induction n with
  | zero => intro s h; omega
  | succ n ih =>
    intro s hc
    cases n with
    | zero =>
      have : sep ∉ s := List.count_eq_zero.mp (by omega)
      simp [SplitN, Join, this]
    | succ n =>
      rcases span_sep sep s with ⟨h1, h2⟩ | ⟨a, b, h1, h2, h3⟩
      · simp only [SplitN, h2]
        simp [Join, h1]
      · have hb : b.count sep < n + 1 := by
          rw [h1, List.count_append, List.count_cons_self] at hc
          omega
        obtain ⟨i1, i2⟩ := ih b hb
        simp only [SplitN, h3]
        obtain ⟨x, xs, hx⟩ := List.exists_cons_of_ne_nil (SplitN_succ_ne_nil b sep n)
        rw [hx] at i1 i2 ⊢
        refine ⟨by simp only [Join, i1, h1], ?_⟩
        intro t ht
        rcases List.mem_cons.mp ht with rfl | ht
        · exact h2
        · exact i2 t ht

/-- Joining after splitting returns the string, and no piece that `Split`
returns has the separator. -/
theorem Join_Split (sep : Char) (s : GoString) :
    Join (Split s sep) sep = s ∧ (∀ t ∈ Split s sep, sep ∉ t) ∧ Split s sep ≠ [] :=
  ⟨(Join_SplitN sep _ s (Nat.lt_succ_self _)).1, (Join_SplitN sep _ s (Nat.lt_succ_self _)).2,
    SplitN_succ_ne_nil _ _ _⟩


/-- Joining with one more piece at the end. -/
theorem Join_concat (sep : Char) (t : GoString) :
    ∀ (init : List GoString), init ≠ [] →
      Join (init ++ [t]) sep = Join init sep ++ sep :: t := by
  intro init
  induction init with
  | nil => intro h; exact absurd rfl h
  | cons a init ih =>
    intro _
    cases init with
    | nil => simp [Join]
    | cons b init =>
      have := ih (by simp)
      simp only [List.cons_append] at this ⊢
      simp only [Join, this, List.append_assoc, List.cons_append]

/-- Dropping leading bytes from a joined string drops them from its first
piece, when the separator is not dropped. -/
theorem dropWhile_Join (p : Char → Bool) (sep : Char) (hp : p sep = false) (t : GoString)
    (rest : List GoString) :
    (Join (t :: rest) sep).dropWhile p = Join (t.dropWhile p :: rest) sep := by
  cases rest with
  | nil => rfl
  | cons t2 rest =>
    simp only [Join]
    rw [List.dropWhile_append]
    by_cases he : (List.dropWhile p t).isEmpty = true
    · have he2 : List.dropWhile p t = [] := List.isEmpty_iff.mp he
      rw [if_pos he, he2, List.dropWhile_cons_of_neg (by simp [hp])]
      rfl
    · rw [if_neg he]

/-- Dropping trailing bytes after a separator that is not dropped. -/
theorem rdropWhile_append_sep (p : Char → Bool) (sep : Char) (hp : p sep = false)
    (x t : GoString) :
    (x ++ sep :: t).rdropWhile p = x ++ sep :: t.rdropWhile p := by
  induction t using List.reverseRecOn with
  | nil =>
    have := List.rdropWhile_concat_neg p x sep (by simp [hp])
    simpa using this
  | append_singleton t c ih =>
    have e : x ++ sep :: (t ++ [c]) = (x ++ sep :: t) ++ [c] := by simp
    rw [e, List.rdropWhile_concat, List.rdropWhile_concat]
    by_cases hc : p c = true
    · simp only [hc, if_true, ih]
    · simp only [hc, if_false]
      simp

/-- Dropping trailing bytes from a joined string drops them from its last
piece, when the separator is not dropped. -/
theorem rdropWhile_Join (p : Char → Bool) (sep : Char) (hp : p sep = false)
    (init : List GoString) (t : GoString) :
    (Join (init ++ [t]) sep).rdropWhile p = Join (init ++ [t.rdropWhile p]) sep := by
  cases init with
  | nil => rfl
  | cons a init =>
    rw [Join_concat sep t _ (by simp), Join_concat sep _ _ (by simp),
      rdropWhile_append_sep p sep hp]

/-- The tokens of a string joined from pieces without a comma are these
pieces, up to trimming. -/
theorem tokens_Join (ts : List GoString) (hne : ts ≠ []) (hsep : ∀ t ∈ ts, ',' ∉ t) :
    (tokens (Join ts ',')).map (fun t => Trim t cutset) = ts.map (fun t => Trim t cutset) := by
  have hp : (fun c => cutset.contains c) ',' = false := by decide
  rcases List.eq_nil_or_concat ts with h | ⟨init, tn, h⟩
  · exact absurd h hne
  · rw [List.concat_eq_append] at h
    subst h
    have htn : ',' ∉ tn := hsep tn (by simp)
    have hT : Trim (Join (init ++ [tn]) ',') cutset =
        (Join (init ++ [tn.rdropWhile (fun c => cutset.contains c)]) ',').dropWhile
          (fun c => cutset.contains c) := by
      unfold Trim
      rw [rdropWhile_Join _ ',' hp]
    simp only [tokens, hT]
    cases init with
    | nil =>
      have hc : ',' ∉ Trim tn cutset := fun hm => htn (mem_of_mem_Trim _ _ _ hm)
      have := Split_Join ',' [Trim tn cutset] (by simp) (by simpa using hc)
      simp only [Join] at this
      simp only [List.nil_append, Join]
      show List.map _ (Split (Trim tn cutset) ',') = _
      rw [this]
      simp [Trim_Trim]
    | cons t1 mid =>
      have ht1 : ',' ∉ t1 := hsep t1 (by simp)
      rw [List.cons_append, dropWhile_Join _ ',' hp, Split_Join ',' _ (by simp)]
      · simp only [List.map_cons, List.map_append, List.map_nil, Trim_dropWhile,
          Trim_rdropWhile, List.cons_append]
      · intro t ht
        rcases List.mem_cons.mp ht with rfl | ht
        · exact fun hm => ht1 ((List.dropWhile_suffix _).subset hm)
        · rcases List.mem_append.mp ht with ht | ht
          · exact hsep t (by simp [ht])
          · rw [List.mem_singleton] at ht
            rw [ht]
            exact fun hm => htn ((List.rdropWhile_prefix _ _).subset hm)

/-- The association of a token depends on the trimmed token only. -/
theorem tokenPair_congr (v w : GoString) (h : Trim v cutset = Trim w cutset) :
    tokenPair v = tokenPair w := by
  simp only [tokenPair, h]

/-- The associations of a transport specification depend on its trimmed
tokens only. -/
theorem tokenPairs_congr (s1 s2 : GoString)
    (h : (tokens s1).map (fun t => Trim t cutset) = (tokens s2).map (fun t => Trim t cutset)) :
    tokenPairs s1 = tokenPairs s2 := by
  have key : ∀ l : List GoString,
      l.filterMap tokenPair = (l.map (fun t => Trim t cutset)).filterMap tokenPair := by
    intro l
    rw [List.filterMap_map]
    congr 1
    funext v
    exact tokenPair_congr _ _ (Trim_Trim cutset v).symm
  rw [tokenPairs, tokenPairs, key (tokens s1), key (tokens s2), h]

/-- Padded tokens are the tokens, up to trimming, and have no comma when the
tokens have none. -/
theorem map_Trim_padToken :
    ∀ (ts : List GoString) (pads : List (GoString × GoString)), pads.length = ts.length →
      (∀ p ∈ pads, (∀ c ∈ p.1, c ∈ cutset) ∧ (∀ c ∈ p.2, c ∈ cutset)) →
      (List.zipWith padToken ts pads).map (fun t => Trim t cutset) =
          ts.map (fun t => Trim t cutset) ∧
        ((∀ t ∈ ts, ',' ∉ t) → ∀ t ∈ List.zipWith padToken ts pads, ',' ∉ t) := by
  intro ts
  induction ts with
  | nil => intro pads _ _; simp
  | cons t ts ih =>
    intro pads hlen hpads
    cases pads with
    | nil => simp at hlen
    | cons p pads =>
      obtain ⟨hp1, hp2⟩ := hpads p (List.mem_cons_self _ _)
      obtain ⟨i1, i2⟩ := ih pads (by simpa using hlen)
        (fun q hq => hpads q (List.mem_cons_of_mem _ hq))
      constructor
      · simp only [List.zipWith_cons_cons, List.map_cons, i1, padToken,
          Trim_pad cutset p.1 t p.2 hp1 hp2]
      · intro hsep x hx
        simp only [List.zipWith_cons_cons, List.mem_cons] at hx
        rcases hx with rfl | hx
        · intro hm
          simp only [padToken, List.mem_append] at hm
          rcases hm with (hm | hm) | hm
          · exact absurd (hp1 _ hm) (by decide)
          · exact hsep t (List.mem_cons_self _ _) hm
          · exact absurd (hp2 _ hm) (by decide)
        · exact i2 (fun y hy => hsep y (List.mem_cons_of_mem _ hy)) x hx


/-! ### Padding of a transport specification -/

/-- C11: for every string `s`, the string made of the comma-separated tokens
of `s`, each with bytes of the cutset (space, tab, CR, LF) put before and
after it, and with such bytes put before and after the whole, gives the same
result of `makeServers` as `s`, which is the string made of its tokens: the
same endpoints, and so the same lists in whatever order the map is ranged
over. -/
theorem makeServers_padding {H : Type} (handler : H) (s left right : GoString)
    (pads : List (GoString × GoString))
    (hlen : pads.length = (Split s ',').length)
    (hpads : ∀ p ∈ pads, (∀ c ∈ p.1, c ∈ cutset) ∧ (∀ c ∈ p.2, c ∈ cutset))
    (hleft : ∀ c ∈ left, c ∈ cutset) (hright : ∀ c ∈ right, c ∈ cutset) :
    Join (Split s ',') ',' = s ∧
    makeServers (left ++ Join (List.zipWith padToken (Split s ',') pads) ',' ++ right) handler =
      makeServers s handler := by
  obtain ⟨hj, hsep, hne⟩ := Join_Split ',' s
  refine ⟨hj, ?_⟩
  obtain ⟨hm, hc⟩ := map_Trim_padToken (Split s ',') pads hlen hpads
  have hne2 : List.zipWith padToken (Split s ',') pads ≠ [] := by
    intro h0
    have := congrArg List.length h0
    rw [List.length_zipWith, hlen, Nat.min_self] at this
    exact hne (List.length_eq_zero.mp this)
  have h1 : tokens (left ++ Join (List.zipWith padToken (Split s ',') pads) ',' ++ right) =
      tokens (Join (List.zipWith padToken (Split s ',') pads) ',') := by
    simp only [tokens, Trim_pad cutset left _ right hleft hright]
  have h2 : (tokens (left ++ Join (List.zipWith padToken (Split s ',') pads) ',' ++
      right)).map (fun t => Trim t cutset) = (tokens s).map (fun t => Trim t cutset) := by
    rw [h1, tokens_Join _ hne2 (hc hsep), hm]
    have := tokens_Join (Split s ',') hne hsep
    rw [hj] at this
    exact this.symm
  rw [makeServers_eq, makeServers_eq, tokenPairs_congr _ _ h2]

/-- Witness of C11: the strings ` udp:127.0.0.1:8053 ,<TAB>tcp<LF>` and
`udp:127.0.0.1:8053,tcp`. -/
theorem makeServers_padding_witness :
    makeServers " udp:127.0.0.1:8053 ,\ttcp\n".toList () =
      makeServers "udp:127.0.0.1:8053,tcp".toList () ∧
    makeServers "udp:127.0.0.1:8053,tcp".toList () =
      some ([{ Addr := "127.0.0.1:8053".toList, Net := "udp".toList, Handler := () },
             { Addr := "0.0.0.0".toList, Net := "tcp".toList, Handler := () }], none) :=
  ⟨(makeServers_padding () "udp:127.0.0.1:8053,tcp".toList " ".toList "\n".toList
      [([], " ".toList), ("\t".toList, [])] (by decide) (by decide) (by decide) (by decide)).2,
   by decide⟩


/-! ### The workers that `main` starts -/

/-- When `makeHandler` succeeds, `main` calls `makeServers`, starts one worker
for each server of the list it returns, in order, then installs the signal
handler, starts the watcher and waits. -/
theorem main_starts_workers (P : GoString → Option IP) (Open : GoString → Except IOError Reader)
    (tpsString : GoString) (ttlFlag : Int) (fileName : GoString) (mux : ServeMux)
    (h : makeHandler P Open fileName (uint32 ttlFlag) = some (some mux, none)) :
    ∃ servers, makeServers tpsString (some mux) = some (servers, none) ∧
      main P Open tpsString ttlFlag [fileName] =
        some ([Step.MakeServers tpsString] ++ servers.enum.map (fun e => Step.Go e.1 e.2) ++
          [Step.Notify, Step.GoWatcher, Step.Wait]) := by
  refine ⟨_, makeServers_eq tpsString (some mux), ?_⟩
  simp only [main, h, makeServers_eq]


end Ahodns
